import Mathlib

/-!
A shallow embedding of `src/src/data_structure/red_black_tree.rs`.

The Rust code stores nodes in `Rc<RefCell<Node>>` cells with `Weak` parent
back-links.  We embed the heap as an arena: a list of `Option Node` indexed
by node ids (a `none` entry is a freed cell, so a stale id behaves exactly
like a dangling `Weak` whose `upgrade` returns `None`).  Every loop or
recursion of the source is translated with an explicit fuel argument; the
public wrappers supply fuel large enough for any acyclic reachable
structure, mirroring the fact that the Rust recursions are intended to be
bounded by the tree height.
-/

namespace RBT

inductive Color where
  | red
  | black
deriving DecidableEq, Repr

/-- One heap cell: `key`, `parent` (weak back-link), `left`/`right`
(owning links), `color`.  Links are arena indices. -/
structure Node where
  key : Int
  parent : Option Nat
  left : Option Nat
  right : Option Nat
  color : Color
deriving DecidableEq, Repr

/-- `RedBlackTree`: the arena of heap cells plus the `root` link. -/
structure RBTree where
  arena : List (Option Node)
  root : Option Nat
deriving DecidableEq, Repr

/-- `RedBlackTree::new()`. -/
def RBTree.new : RBTree := { arena := [], root := none }

/-- Dereference an id; `none` both for out-of-range ids and freed cells
(the latter models a dangling `Weak` that fails to upgrade). -/
def getNode (t : RBTree) (i : Nat) : Option Node :=
  t.arena.getD i none

def setNode (t : RBTree) (i : Nat) (n : Node) : RBTree :=
  { t with arena := t.arena.set i (some n) }

def updNode (t : RBTree) (i : Nat) (f : Node → Node) : RBTree :=
  match getNode t i with
  | some n => setNode t i (f n)
  | none => t

/-- Free a cell (the `Rc` of the deleted node is dropped at the end of
`delete`, so all `Weak` references to it dangle afterwards). -/
def clearSlot (t : RBTree) (i : Nat) : RBTree :=
  { t with arena := t.arena.set i none }

inductive InsertSituation where
  | LL
  | LR
  | RL
  | RR
  | Recursion
  | Stable
deriving DecidableEq, Repr

inductive DeleteSituation where
  | RLRR
  | RLRE
  | RLER
  | RLEE
  | RRRR
  | RRER
  | RRRE
  | RREE
  | BLR
  | BLBRW
  | BLBER
  | BLBEE
  | BRR
  | BRBWR
  | BRBRE
  | BRBEE
  | Stable
deriving DecidableEq, Repr

inductive DeleteRecursionSituation where
  | LRBW
  | LRRB
  | LRRR
  | LBBBB
  | LBBWR
  | LBBRB
  | LBR
  | RRWB
  | RRBR
  | RRRR
  | RBBBB
  | RBBRW
  | RBBBR
  | RBR
  | Stable
deriving DecidableEq, Repr

/-- `RedBlackTree::rotate_left(grand_parent_ref, parent_ref)`.
`parent.left` (called `brother` in the source) moves to
`grand_parent.right`; if `grand_parent`'s weak parent upgrades, its
matching child slot is redirected to `parent`, otherwise — exactly as in
the source — when the weak link is absent `parent` becomes the new root,
and when it merely dangles nothing at all is updated. -/
def rotateLeft (t : RBTree) (gp p : Nat) : RBTree :=
  match getNode t p, getNode t gp with
  | some pn, some gn =>
    let step1 : RBTree × Node :=
      match pn.left with
      | some br => (updNode t br (fun b => { b with parent := some gp }),
                    { gn with right := some br })
      | none => (t, { gn with right := none })
    let t1 := step1.1
    let gn1 := step1.2
    let step2 : RBTree × Node × Option Nat :=
      match gn.parent with
      | some gpp =>
        match getNode t1 gpp with
        | some gppn =>
          let gppn1 := if gppn.left = some gp then { gppn with left := some p } else gppn
          let gppn2 := if gppn1.right = some gp then { gppn1 with right := some p } else gppn1
          (setNode t1 gpp gppn2, { pn with parent := some gpp }, t.root)
        | none => (t1, pn, t.root)
      | none => (t1, { pn with parent := none }, some p)
    let t2 := step2.1
    let pn1 := step2.2.1
    let newRoot := step2.2.2
    let pn2 := { pn1 with left := some gp }
    let gn2 := { gn1 with parent := some p }
    { setNode (setNode t2 p pn2) gp gn2 with root := newRoot }
  | _, _ => t

/-- `RedBlackTree::rotate_right(grand_parent_ref, parent_ref)`, the mirror
image of `rotateLeft`. -/
def rotateRight (t : RBTree) (gp p : Nat) : RBTree :=
  match getNode t p, getNode t gp with
  | some pn, some gn =>
    let step1 : RBTree × Node :=
      match pn.right with
      | some br => (updNode t br (fun b => { b with parent := some gp }),
                    { gn with left := some br })
      | none => (t, { gn with left := none })
    let t1 := step1.1
    let gn1 := step1.2
    let step2 : RBTree × Node × Option Nat :=
      match gn.parent with
      | some gpp =>
        match getNode t1 gpp with
        | some gppn =>
          let gppn1 := if gppn.left = some gp then { gppn with left := some p } else gppn
          let gppn2 := if gppn1.right = some gp then { gppn1 with right := some p } else gppn1
          (setNode t1 gpp gppn2, { pn with parent := some gpp }, t.root)
        | none => (t1, pn, t.root)
      | none => (t1, { pn with parent := none }, some p)
    let t2 := step2.1
    let pn1 := step2.2.1
    let newRoot := step2.2.2
    let pn2 := { pn1 with right := some gp }
    let gn2 := { gn1 with parent := some p }
    { setNode (setNode t2 p pn2) gp gn2 with root := newRoot }
  | _, _ => t

/-- `RedBlackTree::judge_insert_situation`.  Returns the situation together
with the `grand_parent_rc` and `uncle_rc` values of the source (which are
initialised to `parent_ref` and only overwritten when the corresponding
node is seen). -/
def judgeInsertSituation (t : RBTree) (p s : Nat) : InsertSituation × Nat × Nat :=
  match getNode t p with
  | none => (InsertSituation.Stable, p, p)
  | some pn =>
    if pn.color = Color.red then
      match pn.parent with
      | some gpId =>
        match getNode t gpId with
        | some gn =>
          -- block for `parent` being the left child
          let afterLeft : Option (InsertSituation × Nat × Nat) × Nat :=
            if gn.left = some p then
              let uncle1 : Nat := match gn.right with | some u => u | none => p
              let uncleRed : Bool :=
                match gn.right with
                | some u =>
                  match getNode t u with
                  | some un => un.color = Color.red
                  | none => false
                | none => false
              if uncleRed then (some (InsertSituation.Recursion, gpId, uncle1), uncle1)
              else if pn.left = some s then (some (InsertSituation.LL, gpId, uncle1), uncle1)
              else if pn.right = some s then (some (InsertSituation.LR, gpId, uncle1), uncle1)
              else (none, uncle1)
            else (none, p)
          match afterLeft.1 with
          | some r => r
          | none =>
            -- block for `parent` being the right child
            let uncle0 := afterLeft.2
            if gn.right = some p then
              let uncle2 : Nat := match gn.left with | some u => u | none => uncle0
              let uncleRed : Bool :=
                match gn.left with
                | some u =>
                  match getNode t u with
                  | some un => un.color = Color.red
                  | none => false
                | none => false
              if uncleRed then (InsertSituation.Recursion, gpId, uncle2)
              else if pn.right = some s then (InsertSituation.RR, gpId, uncle2)
              else if pn.left = some s then (InsertSituation.RL, gpId, uncle2)
              else (InsertSituation.Stable, gpId, uncle2)
            else (InsertSituation.Stable, gpId, uncle0)
        | none => (InsertSituation.Stable, p, p)
      | none => (InsertSituation.Stable, p, p)
    else (InsertSituation.Stable, p, p)

def paintNode (t : RBTree) (i : Nat) (c : Color) : RBTree :=
  updNode t i (fun n => { n with color := c })

/-- `RedBlackTree::insert_balance`, with explicit fuel for the upward
recursion of the `Recursion` (red-uncle) case. -/
def insertBalance : Nat → RBTree → Nat → Nat → RBTree
  | 0, t, _, _ => t
  | fuel + 1, t, p, s =>
    let j := judgeInsertSituation t p s
    let gp := j.2.1
    let uncle := j.2.2
    match j.1 with
    | InsertSituation.LL =>
      let t1 := rotateRight t gp p
      paintNode (paintNode t1 gp Color.red) p Color.black
    | InsertSituation.RR =>
      let t1 := rotateLeft t gp p
      paintNode (paintNode t1 gp Color.red) p Color.black
    | InsertSituation.LR =>
      let t1 := rotateLeft t p s
      let t2 := rotateRight t1 gp s
      paintNode (paintNode t2 gp Color.red) s Color.black
    | InsertSituation.RL =>
      let t1 := rotateRight t p s
      let t2 := rotateLeft t1 gp s
      paintNode (paintNode t2 gp Color.red) s Color.black
    | InsertSituation.Recursion =>
      let t1 := paintNode t p Color.black
      let t2 := paintNode t1 uncle Color.black
      match getNode t2 gp with
      | none => t2
      | some gn =>
        match gn.parent with
        | some gppId =>
          match getNode t2 gppId with
          | some _ =>
            -- the weak link upgrades: climb two levels and recurse
            let t3 := paintNode t2 gp Color.red
            insertBalance fuel t3 gppId gp
          | none =>
            -- dangling weak link: `grand_parent_parent_rc` keeps its initial
            -- value (the grandparent itself) and the color stays red
            let t3 := paintNode t2 gp Color.red
            insertBalance fuel t3 gp gp
        | none =>
          let t3 := paintNode t2 gp Color.black
          { t3 with root := some gp }
    | InsertSituation.Stable => t

/-- The descent loop of `RedBlackTree::insert`.  Returns `none` when an
equal key is met (the source returns with no mutation) and otherwise the
state with the new red node attached plus the attach parent. -/
def insertLoop (t : RBTree) (key : Int) (newId : Nat) : Nat → Nat → Option (RBTree × Nat)
  | 0, _ => none
  | fuel + 1, p =>
    match getNode t p with
    | none => none
    | some pn =>
      if key < pn.key then
        match pn.left with
        | some son => insertLoop t key newId fuel son
        | none =>
          let newNode : Node :=
            { key := key, parent := some p, left := none, right := none, color := Color.red }
          let t1 : RBTree := { t with arena := t.arena ++ [some newNode] }
          some (setNode t1 p { pn with left := some newId }, p)
      else if pn.key < key then
        match pn.right with
        | some son => insertLoop t key newId fuel son
        | none =>
          let newNode : Node :=
            { key := key, parent := some p, left := none, right := none, color := Color.red }
          let t1 : RBTree := { t with arena := t.arena ++ [some newNode] }
          some (setNode t1 p { pn with right := some newId }, p)
      else none

/-- `RedBlackTree::insert`. -/
def RBTree.insert (t : RBTree) (key : Int) : RBTree :=
  match t.root with
  | none =>
    { arena := t.arena ++
        [some { key := key, parent := none, left := none, right := none, color := Color.black }],
      root := some t.arena.length }
  | some r =>
    let newId := t.arena.length
    match insertLoop t key newId (t.arena.length + 1) r with
    | none => t
    | some res => insertBalance (res.1.arena.length + 1) res.1 res.2 newId

/-- The search loop of `RedBlackTree::get`. -/
def getLoop (t : RBTree) (key : Int) : Nat → Nat → Option Int
  | 0, _ => none
  | fuel + 1, i =>
    match getNode t i with
    | none => none
    | some n =>
      if key = n.key then some n.key
      else if key < n.key then
        match n.left with
        | none => none
        | some l => getLoop t key fuel l
      else
        match n.right with
        | none => none
        | some r => getLoop t key fuel r

/-- `RedBlackTree::get`. -/
def RBTree.get (t : RBTree) (key : Int) : Option Int :=
  match t.root with
  | none => none
  | some r => getLoop t key (t.arena.length + 1) r

/-- `RedBlackTree::find` (recursive search returning the node). -/
def findNode (t : RBTree) (key : Int) : Nat → Option Nat → Option Nat
  | _, none => none
  | 0, some _ => none
  | fuel + 1, some i =>
    match getNode t i with
    | none => none
    | some n =>
      if key = n.key then some i
      else if key < n.key then findNode t key fuel n.left
      else findNode t key fuel n.right

/-- `RedBlackTree::find_minimum`. -/
def findMinimum (t : RBTree) : Nat → Nat → Nat
  | 0, i => i
  | fuel + 1, i =>
    match getNode t i with
    | none => i
    | some n =>
      match n.left with
      | some l => findMinimum t fuel l
      | none => i

/-- `RedBlackTree::count_size`. -/
def countSize (t : RBTree) : Nat → Option Nat → Nat
  | _, none => 0
  | 0, some _ => 0
  | fuel + 1, some i =>
    match getNode t i with
    | none => 0
    | some n => countSize t fuel n.left + 1 + countSize t fuel n.right

/-- `RedBlackTree::size`. -/
def RBTree.size (t : RBTree) : Nat :=
  countSize t (t.arena.length + 1) t.root

/-- `RedBlackTree::judge_delete_situation`.  Returns the situation with the
`brother`, `brother_left` and `brother_right` values of the source; slots
that the source fills with `parent_ref` stand-ins are filled with `p`.
When the black-parent red-brother block finds a child missing it falls
through to the other side, exactly as the source's control flow does. -/
def judgeDeleteSituation (t : RBTree) (p : Nat) : DeleteSituation × Nat × Nat × Nat :=
  match getNode t p with
  | none => (DeleteSituation.Stable, p, p, p)
  | some pn =>
    match pn.color with
    | Color.red =>
      match pn.right with
      | some br =>
        match getNode t br with
        | some brn =>
          match brn.left, brn.right with
          | some _, some brr => (DeleteSituation.RLRR, br, p, brr)
          | some brl, none => (DeleteSituation.RLRE, br, brl, p)
          | none, some _ => (DeleteSituation.RLER, br, p, p)
          | none, none => (DeleteSituation.RLEE, br, p, p)
        | none => (DeleteSituation.Stable, p, p, p)
      | none =>
        match pn.left with
        | some br =>
          match getNode t br with
          | some brn =>
            match brn.left, brn.right with
            | some brl, some _ => (DeleteSituation.RRRR, br, brl, p)
            | none, some brr => (DeleteSituation.RRER, br, p, brr)
            | some _, none => (DeleteSituation.RRRE, br, p, p)
            | none, none => (DeleteSituation.RREE, br, p, p)
          | none => (DeleteSituation.Stable, p, p, p)
        | none =>
          -- red-parent fallback of the source: `parent_ref` stands in for
          -- the missing brother
          (DeleteSituation.RLER, p, p, p)
    | Color.black =>
      let rightRes : Option (DeleteSituation × Nat × Nat × Nat) :=
        match pn.right with
        | some br =>
          match getNode t br with
          | some brn =>
            match brn.color with
            | Color.red =>
              match brn.left, brn.right with
              | some brl, some _ => some (DeleteSituation.BLR, br, brl, p)
              | _, _ => none
            | Color.black =>
              match brn.left, brn.right with
              | some brl, _ => some (DeleteSituation.BLBRW, br, brl, p)
              | none, some brr => some (DeleteSituation.BLBER, br, p, brr)
              | none, none => some (DeleteSituation.BLBEE, br, p, p)
          | none => none
        | none => none
      match rightRes with
      | some r => r
      | none =>
        match pn.left with
        | some br =>
          match getNode t br with
          | some brn =>
            match brn.color with
            | Color.red =>
              match brn.left, brn.right with
              | some _, some brr => (DeleteSituation.BRR, br, p, brr)
              | _, _ => (DeleteSituation.Stable, p, p, p)
            | Color.black =>
              match brn.left, brn.right with
              | _, some brr => (DeleteSituation.BRBWR, br, p, brr)
              | some brl, none => (DeleteSituation.BRBRE, br, brl, p)
              | none, none => (DeleteSituation.BRBEE, br, p, p)
          | none => (DeleteSituation.Stable, p, p, p)
        | none =>
          -- black-parent fallback of the source
          (DeleteSituation.Stable, p, p, p)

/-- `RedBlackTree::judge_delete_recursion_situation`.  Returns the
situation with the `parent`, `brother`, `brother_left`, `brother_right`
values; the fallback is `(Stable, cur, cur, cur, cur)` as in the source. -/
def judgeDeleteRecursionSituation (t : RBTree) (cur : Nat) :
    DeleteRecursionSituation × Nat × Nat × Nat × Nat :=
  match getNode t cur with
  | none => (DeleteRecursionSituation.Stable, cur, cur, cur, cur)
  | some cn =>
    match cn.parent with
    | none => (DeleteRecursionSituation.Stable, cur, cur, cur, cur)
    | some pid =>
      match getNode t pid with
      | none => (DeleteRecursionSituation.Stable, cur, cur, cur, cur)
      | some pn =>
        match pn.left, pn.right with
        | some pl, some pr =>
          let leftRes : Option (DeleteRecursionSituation × Nat × Nat × Nat × Nat) :=
            if pl = cur then
              match getNode t pr with
              | none => none
              | some brn =>
                match brn.left, brn.right with
                | some bl, some brt =>
                  match getNode t bl, getNode t brt with
                  | some bln, some brtn =>
                    match pn.color with
                    | Color.red =>
                      match bln.color, brtn.color with
                      | Color.black, _ =>
                        some (DeleteRecursionSituation.LRBW, pid, pr, bl, brt)
                      | Color.red, Color.black =>
                        some (DeleteRecursionSituation.LRRB, pid, pr, bl, brt)
                      | Color.red, Color.red =>
                        some (DeleteRecursionSituation.LRRR, pid, pr, bl, brt)
                    | Color.black =>
                      match brn.color with
                      | Color.black =>
                        match bln.color, brtn.color with
                        | Color.black, Color.black =>
                          some (DeleteRecursionSituation.LBBBB, pid, pr, bl, brt)
                        | _, Color.red =>
                          some (DeleteRecursionSituation.LBBWR, pid, pr, bl, brt)
                        | Color.red, Color.black =>
                          some (DeleteRecursionSituation.LBBRB, pid, pr, bl, brt)
                      | Color.red =>
                        some (DeleteRecursionSituation.LBR, pid, pr, bl, brt)
                  | _, _ => none
                | _, _ => none
            else none
          match leftRes with
          | some r => r
          | none =>
            if pr = cur then
              match getNode t pl with
              | none => (DeleteRecursionSituation.Stable, cur, cur, cur, cur)
              | some brn =>
                match brn.left, brn.right with
                | some bl, some brt =>
                  match getNode t bl, getNode t brt with
                  | some bln, some brtn =>
                    match pn.color with
                    | Color.red =>
                      match bln.color, brtn.color with
                      | _, Color.black =>
                        (DeleteRecursionSituation.RRWB, pid, pl, bl, brt)
                      | Color.black, Color.red =>
                        (DeleteRecursionSituation.RRBR, pid, pl, bl, brt)
                      | Color.red, Color.red =>
                        (DeleteRecursionSituation.RRRR, pid, pl, bl, brt)
                    | Color.black =>
                      match brn.color with
                      | Color.black =>
                        match bln.color, brtn.color with
                        | Color.black, Color.black =>
                          (DeleteRecursionSituation.RBBBB, pid, pl, bl, brt)
                        | Color.red, _ =>
                          (DeleteRecursionSituation.RBBRW, pid, pl, bl, brt)
                        | Color.black, Color.red =>
                          (DeleteRecursionSituation.RBBBR, pid, pl, bl, brt)
                      | Color.red =>
                        (DeleteRecursionSituation.RBR, pid, pl, bl, brt)
                  | _, _ => (DeleteRecursionSituation.Stable, cur, cur, cur, cur)
                | _, _ => (DeleteRecursionSituation.Stable, cur, cur, cur, cur)
            else (DeleteRecursionSituation.Stable, cur, cur, cur, cur)
        | _, _ => (DeleteRecursionSituation.Stable, cur, cur, cur, cur)

/-- `RedBlackTree::delete_balance_recursion`, fuelled. -/
def deleteBalanceRecursion : Nat → RBTree → Nat → RBTree
  | 0, t, _ => t
  | fuel + 1, t, target =>
    let j := judgeDeleteRecursionSituation t target
    let p := j.2.1
    let br := j.2.2.1
    let bl := j.2.2.2.1
    let brt := j.2.2.2.2
    match j.1 with
    | DeleteRecursionSituation.LRBW => rotateLeft t p br
    | DeleteRecursionSituation.LRRB =>
      let t1 := paintNode (paintNode t p Color.black) br Color.red
      insertBalance (t1.arena.length + 1) t1 br bl
    | DeleteRecursionSituation.LRRR =>
      let t1 := paintNode (paintNode (paintNode t p Color.black) br Color.red) brt Color.black
      rotateLeft t1 p br
    | DeleteRecursionSituation.LBBBB =>
      let t1 := paintNode t br Color.red
      deleteBalanceRecursion fuel t1 p
    | DeleteRecursionSituation.LBBWR =>
      let t1 := rotateLeft t p br
      paintNode t1 brt Color.black
    | DeleteRecursionSituation.LBBRB =>
      let t1 := paintNode t bl Color.black
      let t2 := rotateRight t1 br bl
      rotateLeft t2 p bl
    | DeleteRecursionSituation.LBR =>
      let t1 := paintNode (paintNode t p Color.red) br Color.black
      let t2 := rotateLeft t1 p br
      deleteBalanceRecursion fuel t2 target
    | DeleteRecursionSituation.RRWB => rotateRight t p br
    | DeleteRecursionSituation.RRBR =>
      let t1 := paintNode (paintNode t p Color.black) br Color.red
      insertBalance (t1.arena.length + 1) t1 br brt
    | DeleteRecursionSituation.RRRR =>
      let t1 := paintNode (paintNode (paintNode t p Color.black) br Color.red) bl Color.black
      rotateRight t1 p br
    | DeleteRecursionSituation.RBBBB =>
      let t1 := paintNode t br Color.red
      deleteBalanceRecursion fuel t1 p
    | DeleteRecursionSituation.RBBRW =>
      let t1 := rotateRight t p br
      paintNode t1 bl Color.black
    | DeleteRecursionSituation.RBBBR =>
      let t1 := paintNode t brt Color.black
      let t2 := rotateLeft t1 br brt
      rotateRight t2 p brt
    | DeleteRecursionSituation.RBR =>
      let t1 := paintNode (paintNode t p Color.red) br Color.black
      let t2 := rotateRight t1 p br
      deleteBalanceRecursion fuel t2 target
    | DeleteRecursionSituation.Stable => t

/-- `RedBlackTree::delete_balance`. -/
def deleteBalance (fuel : Nat) (t : RBTree) (p : Nat) : RBTree :=
  let j := judgeDeleteSituation t p
  let br := j.2.1
  let bl := j.2.2.1
  let brr := j.2.2.2
  match j.1 with
  | DeleteSituation.RLRR =>
    let t1 := rotateLeft t p br
    paintNode (paintNode (paintNode t1 br Color.red) p Color.black) brr Color.black
  | DeleteSituation.RLRE =>
    let t1 := rotateRight t br bl
    let t2 := rotateLeft t1 p bl
    paintNode t2 p Color.black
  | DeleteSituation.RLER => rotateLeft t p br
  | DeleteSituation.RLEE => paintNode (paintNode t p Color.black) br Color.red
  | DeleteSituation.RRRR =>
    let t1 := rotateRight t p br
    paintNode (paintNode (paintNode t1 br Color.red) p Color.black) bl Color.black
  | DeleteSituation.RRER =>
    let t1 := rotateLeft t br brr
    let t2 := rotateRight t1 p brr
    paintNode t2 p Color.black
  | DeleteSituation.RRRE => rotateRight t p br
  | DeleteSituation.RREE => paintNode (paintNode t p Color.black) br Color.red
  | DeleteSituation.BLR =>
    let t1 := rotateLeft t p br
    let t2 := rotateLeft t1 p bl
    let t3 := paintNode (paintNode t2 br Color.black) p Color.red
    match getNode t3 p with
    | some pn =>
      match pn.right with
      | some c => insertBalance (t3.arena.length + 1) t3 p c
      | none => t3
    | none => t3
  | DeleteSituation.BLBRW =>
    let t1 := rotateRight t br bl
    let t2 := rotateLeft t1 p bl
    paintNode t2 bl Color.black
  | DeleteSituation.BLBER =>
    let t1 := rotateLeft t p br
    paintNode t1 brr Color.black
  | DeleteSituation.BLBEE =>
    let t1 := paintNode t br Color.red
    deleteBalanceRecursion fuel t1 p
  | DeleteSituation.BRR =>
    let t1 := rotateRight t p br
    let t2 := rotateRight t1 p brr
    let t3 := paintNode (paintNode t2 br Color.black) p Color.red
    match getNode t3 p with
    | some pn =>
      match pn.left with
      | some c => insertBalance (t3.arena.length + 1) t3 p c
      | none => t3
    | none => t3
  | DeleteSituation.BRBWR =>
    let t1 := rotateLeft t br brr
    let t2 := rotateRight t1 p brr
    paintNode t2 brr Color.black
  | DeleteSituation.BRBRE =>
    let t1 := rotateRight t p br
    paintNode t1 bl Color.black
  | DeleteSituation.BRBEE =>
    let t1 := paintNode t br Color.red
    deleteBalanceRecursion fuel t1 p
  | DeleteSituation.Stable => t

/-- The structural phase of `RedBlackTree::delete` once `find` has located
the target.  Returns the state after unlinking/splicing together with the
node, if any, on which `delete_balance` is then invoked.  The branches
mirror the three source cases (no child / one child / two children with
successor splice); see the line comments for the source correspondence. -/
def deleteStruct (t : RBTree) (target : Nat) : RBTree × Option Nat :=
  match getNode t target with
  | none => (t, none)
  | some tn =>
    -- captured up front exactly as in the source: parent (weak upgrade),
    -- left, right, color
    let tParent : Option Nat :=
      match tn.parent with
      | some q =>
        match getNode t q with
        | some _ => some q
        | none => none
      | none => none
    let tColor := tn.color
    match tn.left, tn.right with
    -- case 1: no child
    | none, none =>
      match tParent with
      | none => ({ t with root := none }, none)
      | some q =>
        let t1 := updNode t q (fun pn =>
          let pn1 := if pn.left = some target then { pn with left := none } else pn
          if pn1.right = some target then { pn1 with right := none } else pn1)
        (t1, if tColor = Color.black then some q else none)
    -- case 2: exactly one child; the child is recolored black and promoted
    | some son, none | none, some son =>
      let t1 := paintNode t son Color.black
      match tParent with
      | none =>
        -- the source sets the root but leaves `son.parent` as a (now
        -- dangling) weak reference to the deleted target
        ({ t1 with root := some son }, none)
      | some q =>
        let t2 := updNode t1 son (fun n => { n with parent := some q })
        let t3 := updNode t2 q (fun pn =>
          let pn1 := if pn.left = some target then { pn with left := some son } else pn
          if pn1.right = some target then { pn1 with right := some son } else pn1)
        (t3, none)
    -- case 3: two children; splice the in-order successor into place
    | some tLeft, some tRight =>
      let successor := findMinimum t (t.arena.length + 1) tRight
      match getNode t successor with
      | none => (t, none)
      | some sn0 =>
        -- `successor_parent_rc` starts at the successor itself and is
        -- replaced when the weak parent link upgrades
        let sParent : Nat :=
          match sn0.parent with
          | some q =>
            match getNode t q with
            | some _ => q
            | none => successor
          | none => successor
        let sRight : Option Nat := sn0.right
        -- left connection: successor.left := target.left, back-link updated
        let tA1 := updNode t successor (fun n => { n with left := some tLeft })
        let tA := updNode tA1 tLeft (fun n => { n with parent := some successor })
        match getNode tA successor, getNode tA sParent with
        | some snB, some spnB =>
          -- right connection, mirroring the borrow block of the source
          let blockB : RBTree × Bool :=
            match sRight with
            | some sr =>
              match getNode tA sr with
              | none => (tA, false)
              | some srn0 =>
                if successor = tRight then
                  -- target's right child is the successor: only the
                  -- successor's right child is recolored
                  let srn := { srn0 with color := snB.color }
                  let tB1 := setNode tA sParent spnB
                  let tB2 := setNode tB1 successor snB
                  (setNode tB2 sr srn, false)
                else
                  -- the successor's right child fills the gap
                  let spn1 := { spnB with left := snB.right }
                  let sn1 := { snB with right := none }
                  let srn1 := { srn0 with parent := some sParent }
                  let sn2 := { sn1 with right := some tRight }
                  if tRight = sParent then
                    let spn2 := { spn1 with parent := some successor }
                    let srn := { srn1 with color := sn2.color }
                    let tB1 := setNode tA sParent spn2
                    let tB2 := setNode tB1 successor sn2
                    (setNode tB2 sr srn, false)
                  else
                    let tB0 := updNode tA tRight (fun n => { n with parent := some successor })
                    let srn := { srn1 with color := sn2.color }
                    let tB1 := setNode tB0 sParent spn1
                    let tB2 := setNode tB1 successor sn2
                    (setNode tB2 sr srn, false)
            | none =>
              let needBalance : Bool := snB.color = Color.black
              if successor = tRight then
                let tB1 := setNode tA sParent spnB
                (setNode tB1 successor snB, needBalance)
              else
                let spn1 := { spnB with left := none }
                let sn1 := { snB with right := some tRight }
                if tRight = sParent then
                  let spn2 := { spn1 with parent := some successor }
                  let tB1 := setNode tA sParent spn2
                  (setNode tB1 successor sn1, needBalance)
                else
                  let tB0 := updNode tA tRight (fun n => { n with parent := some successor })
                  let tB1 := setNode tB0 sParent spn1
                  (setNode tB1 successor sn1, needBalance)
          let tB := blockB.1
          let needBalance := blockB.2
          -- upper connection
          let tC :=
            match tParent with
            | none =>
              let u1 : RBTree := { tB with root := some successor }
              updNode u1 successor (fun n => { n with parent := none })
            | some q =>
              let u1 := updNode tB successor (fun n => { n with parent := some q })
              updNode u1 q (fun pn =>
                let pn1 := if pn.left = some target then { pn with left := some successor } else pn
                if pn1.right = some target then { pn1 with right := some successor } else pn1)
          -- color takeover
          let tD := paintNode tC successor tColor
          let balArg : Option Nat :=
            if needBalance then
              -- the special case: the successor's original parent is the
              -- target itself, so balance at the successor's new position
              if sParent = target then some successor else some sParent
            else none
          (tD, balArg)
        | _, _ => (tA, none)

/-- `RedBlackTree::delete`.  After the structural phase and any
rebalancing the target's cell is freed (the `Rc` drop), so stale `Weak`
references to it dangle from now on. -/
def RBTree.delete (t : RBTree) (key : Int) : RBTree :=
  match findNode t key (t.arena.length + 1) t.root with
  | none => t
  | some target =>
    let res := deleteStruct t target
    let t2 :=
      match res.2 with
      | some p => deleteBalance (2 * res.1.arena.length + 2) res.1 p
      | none => res.1
    clearSlot t2 target

/-! ## Observations: the reachable tree shape and the red-black invariants -/

/-- The shape of the reachable tree: key, color and the two subtrees of
every reachable node. -/
inductive STree where
  | leaf
  | node (key : Int) (color : Color) (l r : STree)
deriving DecidableEq, Repr

/-- Read the reachable shape off the arena; `none` when the fuel runs out
(a cycle) or a link dangles. -/
def toTreeAux (t : RBTree) : Nat → Option Nat → Option STree
  | _, none => some STree.leaf
  | 0, some _ => none
  | fuel + 1, some i =>
    match getNode t i with
    | none => none
    | some n =>
      match toTreeAux t fuel n.left, toTreeAux t fuel n.right with
      | some l, some r => some (STree.node n.key n.color l r)
      | _, _ => none

def toTree (t : RBTree) : Option STree :=
  toTreeAux t (t.arena.length + 1) t.root

/-- In-order key sequence of a shape (what `inorder_traversal` prints). -/
def STree.inorder : STree → List Int
  | STree.leaf => []
  | STree.node k _ l r => l.inorder ++ [k] ++ r.inorder

def Color.isRed : Color → Bool
  | Color.red => true
  | Color.black => false

def colorOf : STree → Color
  | STree.leaf => Color.black
  | STree.node _ c _ _ => c

/-- No red node has a red child. -/
def STree.noRedRed : STree → Bool
  | STree.leaf => true
  | STree.node _ c l r =>
    l.noRedRed && r.noRedRed && !(c.isRed && ((colorOf l).isRed || (colorOf r).isRed))

/-- Uniform black height: `some h` when every root-to-nil path of the
shape passes through the same number `h` of black nodes. -/
def STree.bh : STree → Option Nat
  | STree.leaf => some 0
  | STree.node _ c l r =>
    match l.bh, r.bh with
    | some a, some b => if a = b then some (if c.isRed then a else a + 1) else none
    | _, _ => none

def strictIncr : List Int → Bool
  | [] => true
  | [_] => true
  | a :: b :: rest => decide (a < b) && strictIncr (b :: rest)

/-- The red-black invariants of the specification: the reachable structure
is a finite tree, its in-order keys are strictly increasing, the root is
black (or the tree empty), no red node has a red child and the black
height is uniform. -/
def checkRB (t : RBTree) : Bool :=
  match toTree t with
  | none => false
  | some s =>
    !(colorOf s).isRed && s.noRedRed && s.bh.isSome && strictIncr s.inorder

/-- In-order list of reachable arena ids. -/
def idsAux (t : RBTree) : Nat → Option Nat → Option (List Nat)
  | _, none => some []
  | 0, some _ => none
  | fuel + 1, some i =>
    match getNode t i with
    | none => none
    | some n =>
      match idsAux t fuel n.left, idsAux t fuel n.right with
      | some l, some r => some (l ++ i :: r)
      | _, _ => none

def reachIds (t : RBTree) : Option (List Nat) :=
  idsAux t (t.arena.length + 1) t.root

/-- A `Weak` upgrade: a link to a freed cell upgrades to nothing. -/
def upgradeLink (t : RBTree) : Option Nat → Option Nat
  | some i =>
    match getNode t i with
    | some _ => some i
    | none => none
  | none => none

/-- Every reachable node's parent back-link upgrades to its actual
parent (invariant 5 of the specification). -/
def parentLinksOk (t : RBTree) : Nat → Option Nat → Option Nat → Bool
  | _, none, _ => true
  | 0, some _, _ => false
  | fuel + 1, some i, expp =>
    match getNode t i with
    | none => false
    | some n =>
      decide (upgradeLink t n.parent = expp) &&
      parentLinksOk t fuel n.left (some i) &&
      parentLinksOk t fuel n.right (some i)

/-- Full well-formedness: the reachable structure is a finite tree with
pairwise distinct cells, consistent parent back-links, and the red-black
invariants hold. -/
def wf (t : RBTree) : Bool :=
  match reachIds t with
  | none => false
  | some ids =>
    decide ids.Nodup && parentLinksOk t (t.arena.length + 1) t.root none && checkRB t

/-! ## Concrete states used to settle individual claims -/

/-- A valid red-black tree: 20 black at the root, 10 black, 40 red with
black children 30 and 50.  Deleting 10 puts stage-1 delete-rebalance at
the black parent 20 whose sibling 40 is red. -/
def tC6 : RBTree :=
  { arena :=
      [some { key := 20, parent := none, left := some 1, right := some 2, color := Color.black },
       some { key := 10, parent := some 0, left := none, right := none, color := Color.black },
       some { key := 40, parent := some 0, left := some 3, right := some 4, color := Color.red },
       some { key := 30, parent := some 2, left := none, right := none, color := Color.black },
       some { key := 50, parent := some 2, left := none, right := none, color := Color.black }],
    root := some 0 }

/-- A two-node tree satisfying every red-black invariant of the
specification, whose root cell 1 carries a dangling parent back-link to
the freed cell 0 -- exactly the state `delete` leaves at the root after
removing a one-child root.  Node 2 (key 30) is the right child of node 1
(key 20). -/
def tC4bad : RBTree :=
  { arena :=
      [none,
       some { key := 20, parent := some 0, left := none, right := some 2, color := Color.black },
       some { key := 30, parent := some 1, left := none, right := none, color := Color.red }],
    root := some 1 }

/-- Modelled from the spec: the action the claim describes for stage-1
delete-rebalance at a black parent with a red sibling (deleted child on
the left): one rotation of the sibling toward the parent, recolor the
sibling black and the parent red, then insert-rebalance on the node that
now occupies the gap (the parent's left child slot) when one exists.
Stated only to compare against the code's actual `deleteBalance`. -/
def specC6ActionLeft (t : RBTree) (p : Nat) : RBTree :=
  match getNode t p with
  | none => t
  | some pn =>
    match pn.right with
    | none => t
    | some br =>
      let t1 := rotateLeft t p br
      let t2 := paintNode (paintNode t1 br Color.black) p Color.red
      match getNode t2 p with
      | some pn2 =>
        match pn2.left with
        | some c => insertBalance (t2.arena.length + 1) t2 p c
        | none => t2
      | none => t2

/-- The sequence of nodes on which `delete_balance_recursion` is invoked:
an instrumentation of the same recursion (same classification, same state
transformations) that records the visited node of each call. -/
def dbrTrace : Nat → RBTree → Nat → List Nat
  | 0, _, _ => []
  | fuel + 1, t, target =>
    let j := judgeDeleteRecursionSituation t target
    let p := j.2.1
    let br := j.2.2.1
    match j.1 with
    | DeleteRecursionSituation.LBBBB =>
      target :: dbrTrace fuel (paintNode t br Color.red) p
    | DeleteRecursionSituation.RBBBB =>
      target :: dbrTrace fuel (paintNode t br Color.red) p
    | DeleteRecursionSituation.LBR =>
      let t1 := paintNode (paintNode t p Color.red) br Color.black
      target :: dbrTrace fuel (rotateLeft t1 p br) target
    | DeleteRecursionSituation.RBR =>
      let t1 := paintNode (paintNode t p Color.red) br Color.black
      target :: dbrTrace fuel (rotateRight t1 p br) target
    | _ => [target]

/-- A valid red-black tree on 11 nodes.  Deleting the black leaf 10 (id 3)
escalates into `delete_balance_recursion` at node 1, whose parent 0 is
black and whose sibling 2 is red: the red-sibling case then re-invokes the
recursion on node 1 itself. -/
def tC5 : RBTree :=
  { arena :=
      [some { key := 40, parent := none, left := some 1, right := some 2, color := Color.black },
       some { key := 20, parent := some 0, left := some 3, right := some 4, color := Color.black },
       some { key := 80, parent := some 0, left := some 5, right := some 6, color := Color.red },
       some { key := 10, parent := some 1, left := none, right := none, color := Color.black },
       some { key := 30, parent := some 1, left := none, right := none, color := Color.black },
       some { key := 60, parent := some 2, left := some 7, right := some 8, color := Color.black },
       some { key := 100, parent := some 2, left := some 9, right := some 10, color := Color.black },
       some { key := 50, parent := some 5, left := none, right := none, color := Color.black },
       some { key := 70, parent := some 5, left := none, right := none, color := Color.black },
       some { key := 90, parent := some 6, left := none, right := none, color := Color.black },
       some { key := 110, parent := some 6, left := none, right := none, color := Color.black }],
    root := some 0 }

/-- Witness state for the red-uncle recursion of insert-rebalance: the
red node 10 (id 2) has red parent-level sibling 30 (id 3) and black
grandparent 20 (id 1) below the black root 40 (id 0); id 5 is a freshly
attached red child of 10. -/
def tW5a : RBTree :=
  { arena :=
      [some { key := 40, parent := none, left := some 1, right := some 4, color := Color.black },
       some { key := 20, parent := some 0, left := some 2, right := some 3, color := Color.black },
       some { key := 10, parent := some 1, left := some 5, right := none, color := Color.red },
       some { key := 30, parent := some 1, left := none, right := none, color := Color.red },
       some { key := 50, parent := some 0, left := none, right := none, color := Color.black },
       some { key := 5, parent := some 2, left := none, right := none, color := Color.red }],
    root := some 0 }

/-- Witness state for the both-black escalation of
delete-balance-recursion at node 1. -/
def tW5b : RBTree :=
  { arena :=
      [some { key := 40, parent := none, left := some 1, right := some 2, color := Color.black },
       some { key := 20, parent := some 0, left := none, right := none, color := Color.black },
       some { key := 60, parent := some 0, left := some 3, right := some 4, color := Color.black },
       some { key := 50, parent := some 2, left := none, right := none, color := Color.black },
       some { key := 70, parent := some 2, left := none, right := none, color := Color.black }],
    root := some 0 }

/-- A three-node valid tree whose root's right child is the root's
in-order successor: deleting the root exercises the boundary case of the
two-children delete. -/
def tW7 : RBTree :=
  { arena :=
      [some { key := 20, parent := none, left := some 1, right := some 2, color := Color.black },
       some { key := 10, parent := some 0, left := none, right := none, color := Color.black },
       some { key := 30, parent := some 0, left := none, right := none, color := Color.black }],
    root := some 0 }

/-- The key stored at a cell (0 for a missing cell); used to phrase
"rotations never change any node's key". -/
def keyD (t : RBTree) (j : Nat) : Int :=
  match getNode t j with
  | some n => n.key
  | none => 0

/-- The color stored at a cell (black for a missing cell); used to phrase
"rotations never change any node's color". -/
def colorD (t : RBTree) (j : Nat) : Color :=
  match getNode t j with
  | some n => n.color
  | none => Color.black

/-! ## Theorems -/

theorem lt_length_of_getNode {t : RBTree} {i : Nat} {n : Node}
    (h : getNode t i = some n) : i < t.arena.length := by
  unfold getNode at h
  cases hq : t.arena.get? i with
  | none =>
    have : t.arena.getD i none = none := by
      unfold List.getD
      rw [hq]
      rfl
    rw [this] at h
    exact absurd h (by simp)
  | some o => exact (List.get?_eq_some.mp hq).1

theorem getNode_setNode_self {t : RBTree} {i : Nat} (n : Node)
    (h : i < t.arena.length) : getNode (setNode t i n) i = some n := by
  show ((t.arena.set i (some n)).get? i).getD none = some n
  rw [List.get?_set_eq_of_lt _ h]
  rfl

theorem getNode_setNode_ne {t : RBTree} {i j : Nat} (n : Node)
    (h : j ≠ i) : getNode (setNode t i n) j = getNode t j := by
  show ((t.arena.set i (some n)).get? j).getD none = (t.arena.get? j).getD none
  rw [List.get?_set_ne _ _ (fun e => h e.symm)]

theorem getNode_updNode_ne {t : RBTree} {i j : Nat} (f : Node → Node)
    (h : j ≠ i) : getNode (updNode t i f) j = getNode t j := by
  unfold updNode
  cases hg : getNode t i with
  | none => rfl
  | some n => exact getNode_setNode_ne _ h

theorem getNode_updNode_self {t : RBTree} {i : Nat} {n : Node} (f : Node → Node)
    (h : getNode t i = some n) : getNode (updNode t i f) i = some (f n) := by
  unfold updNode
  rw [h]
  exact getNode_setNode_self _ (lt_length_of_getNode h)

theorem getNode_paintNode_ne {t : RBTree} {i j : Nat} (c : Color)
    (h : j ≠ i) : getNode (paintNode t i c) j = getNode t j :=
  getNode_updNode_ne _ h

theorem getNode_paintNode_self {t : RBTree} {i : Nat} {n : Node} (c : Color)
    (h : getNode t i = some n) :
    getNode (paintNode t i c) i = some { n with color := c } :=
  getNode_updNode_self _ h

theorem isSome_getNode_setNode {t : RBTree} {i j : Nat} (n : Node)
    (h : (getNode t j).isSome = true) :
    (getNode (setNode t i n) j).isSome = true := by
  by_cases he : j = i
  · subst he
    obtain ⟨m, hm⟩ := Option.isSome_iff_exists.mp h
    rw [getNode_setNode_self n (lt_length_of_getNode hm)]
    rfl
  · rw [getNode_setNode_ne n he]
    exact h

theorem isSome_getNode_updNode {t : RBTree} {i j : Nat} (f : Node → Node)
    (h : (getNode t j).isSome = true) :
    (getNode (updNode t i f) j).isSome = true := by
  unfold updNode
  cases hg : getNode t i with
  | none => exact h
  | some n => exact isSome_getNode_setNode _ h

theorem root_setNode (t : RBTree) (i : Nat) (n : Node) :
    (setNode t i n).root = t.root := rfl

theorem root_updNode (t : RBTree) (i : Nat) (f : Node → Node) :
    (updNode t i f).root = t.root := by
  unfold updNode
  cases getNode t i <;> rfl

theorem root_paintNode (t : RBTree) (i : Nat) (c : Color) :
    (paintNode t i c).root = t.root :=
  root_updNode t i _

theorem length_setNode (t : RBTree) (i : Nat) (n : Node) :
    (setNode t i n).arena.length = t.arena.length :=
  List.length_set t.arena i (some n)

theorem length_updNode (t : RBTree) (i : Nat) (f : Node → Node) :
    (updNode t i f).arena.length = t.arena.length := by
  unfold updNode
  cases getNode t i with
  | none => rfl
  | some n => exact length_setNode t i _

theorem length_paintNode (t : RBTree) (i : Nat) (c : Color) :
    (paintNode t i c).arena.length = t.arena.length :=
  length_updNode t i _

/-- The grandparent's cell after `rotate_left(gp, pr)`: its right child is
replaced by `pr`'s former left child and its parent back-link now points
to `pr`. -/
theorem getNode_root_irrel (W : RBTree) (r : Option Nat) (j : Nat) :
    getNode { arena := W.arena, root := r } j = getNode W j := rfl

theorem rotateLeft_gp_cell {t1 : RBTree} {gp pr : Nat} {gn pnn : Node}
    (hgn : getNode t1 gp = some gn) (hpn : getNode t1 pr = some pnn)
    (_hne : ¬ gp = pr) :
    getNode (rotateLeft t1 gp pr) gp =
      some { gn with right := pnn.left, parent := some pr } := by
  have hlt : gp < t1.arena.length := lt_length_of_getNode hgn
  unfold rotateLeft
  rw [hpn, hgn]
  cases hbl : pnn.left with
  | none =>
    cases hgpp : gn.parent with
    | none =>
      simp only [hbl, hgpp]
      exact getNode_setNode_self _ (by rw [length_setNode]; exact hlt)
    | some gpp =>
      cases hu : getNode t1 gpp with
      | none =>
        simp only [hbl, hgpp, hu]
        exact getNode_setNode_self _ (by rw [length_setNode]; exact hlt)
      | some gppn =>
        simp only [hbl, hgpp, hu]
        exact getNode_setNode_self _ (by
          rw [length_setNode, length_setNode]; exact hlt)
  | some b =>
    cases hgpp : gn.parent with
    | none =>
      simp only [hbl, hgpp]
      exact getNode_setNode_self _ (by
        rw [length_setNode, length_updNode]; exact hlt)
    | some gpp =>
      cases hu : getNode (updNode t1 b fun nd => { nd with parent := some gp }) gpp with
      | none =>
        simp only [hbl, hgpp, hu]
        exact getNode_setNode_self _ (by
          rw [length_setNode, length_updNode]; exact hlt)
      | some gppn =>
        simp only [hbl, hgpp, hu]
        exact getNode_setNode_self _ (by
          rw [length_setNode, length_setNode, length_updNode]; exact hlt)

/-- Cells other than `gp`, `pr`, `pr`'s former left child and `gp`'s
parent are untouched by `rotate_left(gp, pr)`. -/
theorem rotateLeft_frame {t1 : RBTree} {gp pr j : Nat} {gn pnn : Node}
    (hgn : getNode t1 gp = some gn) (hpn : getNode t1 pr = some pnn)
    (hj1 : ¬ j = gp) (hj2 : ¬ j = pr)
    (hj3 : ¬ pnn.left = some j) (hj4 : ¬ gn.parent = some j) :
    getNode (rotateLeft t1 gp pr) j = getNode t1 j := by
  unfold rotateLeft
  rw [hpn, hgn]
  cases hbl : pnn.left with
  | none =>
    cases hgpp : gn.parent with
    | none =>
      simp only [hbl, hgpp]
      rw [getNode_root_irrel, getNode_setNode_ne _ hj1, getNode_setNode_ne _ hj2]
    | some gpp =>
      have hjg : ¬ j = gpp := fun e => hj4 (by rw [hgpp, e])
      cases hu : getNode t1 gpp with
      | none =>
        simp only [hbl, hgpp, hu]
        rw [getNode_root_irrel, getNode_setNode_ne _ hj1, getNode_setNode_ne _ hj2]
      | some gppn =>
        simp only [hbl, hgpp, hu]
        rw [getNode_root_irrel, getNode_setNode_ne _ hj1, getNode_setNode_ne _ hj2,
          getNode_setNode_ne _ hjg]
  | some b =>
    have hjb : ¬ j = b := fun e => hj3 (by rw [hbl, e])
    cases hgpp : gn.parent with
    | none =>
      simp only [hbl, hgpp]
      rw [getNode_root_irrel, getNode_setNode_ne _ hj1, getNode_setNode_ne _ hj2,
        getNode_updNode_ne _ hjb]
    | some gpp =>
      have hjg : ¬ j = gpp := fun e => hj4 (by rw [hgpp, e])
      cases hu : getNode (updNode t1 b fun nd => { nd with parent := some gp }) gpp with
      | none =>
        simp only [hbl, hgpp, hu]
        rw [getNode_root_irrel, getNode_setNode_ne _ hj1, getNode_setNode_ne _ hj2,
          getNode_updNode_ne _ hjb]
      | some gppn =>
        simp only [hbl, hgpp, hu]
        rw [getNode_root_irrel, getNode_setNode_ne _ hj1, getNode_setNode_ne _ hj2,
          getNode_setNode_ne _ hjg, getNode_updNode_ne _ hjb]

/-- `rotate_left` never frees a cell. -/
theorem rotateLeft_isSome {t1 : RBTree} (gp pr : Nat) {j : Nat}
    (h : (getNode t1 j).isSome = true) :
    (getNode (rotateLeft t1 gp pr) j).isSome = true := by
  unfold rotateLeft
  cases hpn : getNode t1 pr with
  | none => exact h
  | some pnn =>
    cases hgn : getNode t1 gp with
    | none => exact h
    | some gn =>
      cases hbl : pnn.left with
      | none =>
        cases hgpp : gn.parent with
        | none =>
          simp only [hbl, hgpp]
          rw [getNode_root_irrel]
          exact isSome_getNode_setNode _ (isSome_getNode_setNode _ h)
        | some gpp =>
          cases hu : getNode t1 gpp with
          | none =>
            simp only [hbl, hgpp, hu]
            rw [getNode_root_irrel]
            exact isSome_getNode_setNode _ (isSome_getNode_setNode _ h)
          | some gppn =>
            simp only [hbl, hgpp, hu]
            rw [getNode_root_irrel]
            exact isSome_getNode_setNode _ (isSome_getNode_setNode _
              (isSome_getNode_setNode _ h))
      | some b =>
        cases hgpp : gn.parent with
        | none =>
          simp only [hbl, hgpp]
          rw [getNode_root_irrel]
          exact isSome_getNode_setNode _ (isSome_getNode_setNode _
            (isSome_getNode_updNode _ h))
        | some gpp =>
          cases hu : getNode (updNode t1 b fun nd => { nd with parent := some gp }) gpp with
          | none =>
            simp only [hbl, hgpp, hu]
            rw [getNode_root_irrel]
            exact isSome_getNode_setNode _ (isSome_getNode_setNode _
              (isSome_getNode_updNode _ h))
          | some gppn =>
            simp only [hbl, hgpp, hu]
            rw [getNode_root_irrel]
            exact isSome_getNode_setNode _ (isSome_getNode_setNode _
              (isSome_getNode_setNode _ (isSome_getNode_updNode _ h)))

/-- After the red-sibling rotation, the deficit node sits under a red
parent whose other child exists, so the next classification of
`delete_balance_recursion` is one of the non-recursive red-parent cases
(or the fallback): the recursion stops after visiting the node once
more. -/
theorem dbrTrace_stops_at_red_parent (t2 : RBTree) (target p bl : Nat)
    (cn gn2 : Node) (fuel : Nat)
    (h1 : getNode t2 target = some cn) (h2 : cn.parent = some p)
    (h3 : getNode t2 p = some gn2) (h4 : gn2.left = some target)
    (h5 : gn2.right = some bl) (h6 : gn2.color = Color.red)
    (h7 : (getNode t2 bl).isSome = true) (h8 : ¬ bl = target) :
    dbrTrace (fuel + 1) t2 target = [target] := by
  obtain ⟨x, hx⟩ := Option.isSome_iff_exists.mp h7
  simp only [dbrTrace, judgeDeleteRecursionSituation, h1, h2, h3, h4, h5, h6, hx,
    if_pos rfl, if_neg h8]
  cases hxl : x.left with
  | none => simp [hxl]
  | some c1 =>
    cases hxr : x.right with
    | none => simp [hxl, hxr]
    | some c2 =>
      cases hy1 : getNode t2 c1 with
      | none => simp [hxl, hxr, hy1]
      | some y1 =>
        cases hy2 : getNode t2 c2 with
        | none => simp [hxl, hxr, hy1, hy2]
        | some y2 =>
          cases hc1 : y1.color with
          | red =>
            cases hc2 : y2.color with
            | red => simp [hxl, hxr, hy1, hy2, hc1, hc2]
            | black => simp [hxl, hxr, hy1, hy2, hc1, hc2]
          | black => simp [hxl, hxr, hy1, hy2, hc1]

/-- `getLoop` finding the key forces the insertion descent to meet the
equal key and abort: the two loops follow the same comparison path. -/
theorem insertLoop_none_of_getLoop_some (t : RBTree) (key : Int) (newId : Nat) :
    ∀ fuel i v, getLoop t key fuel i = some v → insertLoop t key newId fuel i = none := by
  intro fuel
  induction fuel with
  | zero => intro i v h; simp [getLoop] at h
  | succ n ih =>
    intro i v h
    cases hg : getNode t i with
    | none => simp only [getLoop, hg] at h; exact absurd h (by simp)
    | some nd =>
      simp only [getLoop, hg] at h
      simp only [insertLoop, hg]
      by_cases he : key = nd.key
      · have h1 : ¬ key < nd.key := by omega
        have h2 : ¬ nd.key < key := by omega
        rw [if_neg h1, if_neg h2]
      · by_cases hlt : key < nd.key
        · rw [if_neg he, if_pos hlt] at h
          rw [if_pos hlt]
          cases hL : nd.left with
          | none => rw [hL] at h; exact absurd h (by simp)
          | some l =>
            rw [hL] at h
            exact ih l v h
        · have hgt : nd.key < key := by omega
          rw [if_neg he, if_neg hlt] at h
          rw [if_neg hlt, if_pos hgt]
          cases hR : nd.right with
          | none => rw [hR] at h; exact absurd h (by simp)
          | some r =>
            rw [hR] at h
            exact ih r v h

/-- `find` and the `get` loop fail together: they follow the same
comparison path. -/
theorem findNode_none_of_getLoop_none (t : RBTree) (key : Int) :
    ∀ fuel i, getLoop t key fuel i = none → findNode t key fuel (some i) = none := by
  intro fuel
  induction fuel with
  | zero => intro i _; simp [findNode]
  | succ n ih =>
    intro i h
    cases hg : getNode t i with
    | none => simp only [findNode, hg]
    | some nd =>
      simp only [getLoop, hg] at h
      simp only [findNode, hg]
      by_cases he : key = nd.key
      · rw [if_pos he] at h; exact absurd h (by simp)
      · rw [if_neg he] at h
        rw [if_neg he]
        by_cases hlt : key < nd.key
        · rw [if_pos hlt] at h
          rw [if_pos hlt]
          cases hL : nd.left with
          | none => simp [findNode]
          | some l =>
            rw [hL] at h
            exact ih l h
        · rw [if_neg hlt] at h
          rw [if_neg hlt]
          cases hR : nd.right with
          | none => simp [findNode]
          | some r =>
            rw [hR] at h
            exact ih r h

/-- C5 fails on the code: at the valid 11-node tree `tC5`, `delete 10`
escalates into `delete_balance_recursion` at node 1 (black parent, black
childless sibling), where the red-sibling case re-invokes the recursion
on node 1 itself: the visited-node trace is `[1, 1]` — the recursion
revisits a level instead of moving strictly one level toward the root. -/
theorem c5_recursion_revisits_level :
    wf tC5 = true ∧
    findNode tC5 10 (tC5.arena.length + 1) tC5.root = some 3 ∧
    (deleteStruct tC5 3).2 = some 1 ∧
    judgeDeleteSituation (deleteStruct tC5 3).1 1 = (DeleteSituation.BLBEE, 4, 1, 1) ∧
    judgeDeleteRecursionSituation (paintNode (deleteStruct tC5 3).1 4 Color.red) 1 =
      (DeleteRecursionSituation.LBR, 0, 2, 5, 6) ∧
    dbrTrace 24 (paintNode (deleteStruct tC5 3).1 4 Color.red) 1 = [1, 1] := by
  decide

/-- C5 amended: the red-uncle case of insert-rebalance recurses with the
grandparent as the new node (two levels toward the root); the both-black
escalation of delete-balance-recursion recurses at the parent (one level
toward the root); the red-sibling case of delete-balance-recursion
re-invokes it on the SAME node — revisiting that level — but the retry is
terminal: the node is visited exactly twice.  (Stated for the
left-deficit side; the right side is the mirror image.) -/
theorem c5_rebalance_recursion_steps :
    (∀ fuel t p s gpId gppId u pn gn un,
      getNode t p = some pn → pn.color = Color.red → pn.parent = some gpId →
      getNode t gpId = some gn → gn.left = some p → gn.right = some u →
      getNode t u = some un → un.color = Color.red →
      gn.parent = some gppId → (getNode t gppId).isSome = true →
      ¬ gpId = p → ¬ gpId = u →
      insertBalance (fuel + 1) t p s =
        insertBalance fuel
          (paintNode (paintNode (paintNode t p Color.black) u Color.black) gpId Color.red)
          gppId gpId) ∧
    (∀ fuel t target p br bl brt cn pn brn bln brtn,
      getNode t target = some cn → cn.parent = some p →
      getNode t p = some pn → pn.left = some target → pn.right = some br →
      pn.color = Color.black →
      getNode t br = some brn → brn.color = Color.black →
      brn.left = some bl → brn.right = some brt →
      getNode t bl = some bln → bln.color = Color.black →
      getNode t brt = some brtn → brtn.color = Color.black →
      dbrTrace (fuel + 1) t target =
        target :: dbrTrace fuel (paintNode t br Color.red) p) ∧
    (∀ fuel t target p br bl brt cn pn brn bln brtn,
      getNode t target = some cn → cn.parent = some p →
      getNode t p = some pn → pn.left = some target → pn.right = some br →
      pn.color = Color.black →
      getNode t br = some brn → brn.color = Color.red →
      brn.left = some bl → brn.right = some brt →
      getNode t bl = some bln → getNode t brt = some brtn →
      ¬ target = p → ¬ target = br → ¬ target = bl → ¬ pn.parent = some target →
      dbrTrace (fuel + 2) t target = [target, target]) := by
  refine ⟨?_, ?_, ?_⟩
  · intro fuel t p s gpId gppId u pn gn un hp hpc hpp hgn hgl hgr hu huc hgp hgpp hne1 hne2
    have hj : judgeInsertSituation t p s = (InsertSituation.Recursion, gpId, u) := by
      simp only [judgeInsertSituation, hp, hpc, hpp, hgn, hgl, hgr, hu, huc, if_pos rfl]
      simp
    have hgp2 : getNode (paintNode (paintNode t p Color.black) u Color.black) gpId = some gn := by
      rw [getNode_paintNode_ne _ hne2, getNode_paintNode_ne _ hne1]
      exact hgn
    have hgpp2 : (getNode (paintNode (paintNode t p Color.black) u Color.black) gppId).isSome
        = true :=
      isSome_getNode_updNode _ (isSome_getNode_updNode _ hgpp)
    obtain ⟨z, hz⟩ := Option.isSome_iff_exists.mp hgpp2
    simp only [insertBalance, hj, hgp2, hgp, hz]
  · intro fuel t target p br bl brt cn pn brn bln brtn hcn hcp hp hpl hpr hpc hbr hbc hbl
      hbt hbln hblc hbtn hbtc
    have hj : judgeDeleteRecursionSituation t target =
        (DeleteRecursionSituation.LBBBB, p, br, bl, brt) := by
      simp only [judgeDeleteRecursionSituation, hcn, hcp, hp, hpl, hpr, hpc, hbr, hbc,
        hbl, hbt, hbln, hblc, hbtn, hbtc, if_pos rfl]
      simp
    simp only [dbrTrace, hj]
  · intro fuel t target p br bl brt cn pn brn bln brtn hcn hcp hp hpl hpr hpc hbr hbc hbl
      hbt hbln hbtn htp htbr htbl hq
    have hpbr : ¬ p = br := by
      intro e
      rw [e, hbr] at hp
      injection hp with h'
      have hcontra : pn.color = Color.red := h' ▸ hbc
      rw [hpc] at hcontra
      exact absurd hcontra (by decide)
    have hj : judgeDeleteRecursionSituation t target =
        (DeleteRecursionSituation.LBR, p, br, bl, brt) := by
      simp only [judgeDeleteRecursionSituation, hcn, hcp, hp, hpl, hpr, hpc, hbr, hbc,
        hbl, hbt, hbln, hbtn, if_pos rfl]
      simp
    rw [show fuel + 2 = (fuel + 1) + 1 by omega]
    simp only [dbrTrace, hj]
    -- the state after the paints and the rotation
    have ht1p : getNode (paintNode (paintNode t p Color.red) br Color.black) p =
        some { pn with color := Color.red } := by
      rw [getNode_paintNode_ne _ hpbr]
      exact getNode_paintNode_self _ hp
    have ht1br : getNode (paintNode (paintNode t p Color.red) br Color.black) br =
        some { brn with color := Color.black } := by
      exact getNode_paintNode_self _ (by rw [getNode_paintNode_ne _ (fun e => hpbr e.symm)]; exact hbr)
    refine congrArg (List.cons target) ?_
    -- after the rotation the deficit node's parent is red with both
    -- children present, so the retry classification is terminal
    have h2gp : getNode (rotateLeft (paintNode (paintNode t p Color.red) br Color.black) p br) p =
        some { key := pn.key, parent := some br, left := pn.left, right := some bl,
               color := Color.red } := by
      have hcell := rotateLeft_gp_cell ht1p ht1br hpbr
      dsimp only at hcell
      rw [hbl] at hcell
      exact hcell
    have h2tar : getNode (rotateLeft (paintNode (paintNode t p Color.red) br Color.black) p br)
        target = some cn := by
      rw [rotateLeft_frame ht1p ht1br htp htbr
        (by dsimp only; rw [hbl]; exact fun e => htbl (Option.some.inj e).symm)
        (by dsimp only; exact hq)]
      rw [getNode_paintNode_ne _ htbr, getNode_paintNode_ne _ htp]
      exact hcn
    have h2bl : (getNode (rotateLeft (paintNode (paintNode t p Color.red) br Color.black) p br)
        bl).isSome = true :=
      rotateLeft_isSome p br (isSome_getNode_updNode _ (isSome_getNode_updNode _
        (by rw [hbln]; rfl)))
    exact dbrTrace_stops_at_red_parent _ target p bl cn _ fuel h2tar hcp h2gp hpl rfl rfl
      h2bl (fun e => htbl e.symm)

theorem c5_rebalance_recursion_steps_witness :
    (insertBalance 6 tW5a 2 5 =
      insertBalance 5
        (paintNode (paintNode (paintNode tW5a 2 Color.black) 3 Color.black) 1 Color.red) 0 1) ∧
    (dbrTrace 4 tW5b 1 = 1 :: dbrTrace 3 (paintNode tW5b 2 Color.red) 0) ∧
    (dbrTrace 24 (paintNode (deleteStruct tC5 3).1 4 Color.red) 1 = [1, 1]) :=
  ⟨c5_rebalance_recursion_steps.1 5 tW5a 2 5 1 0 3
      { key := 10, parent := some 1, left := some 5, right := none, color := Color.red }
      { key := 20, parent := some 0, left := some 2, right := some 3, color := Color.black }
      { key := 30, parent := some 1, left := none, right := none, color := Color.red }
      (by decide) (by decide) (by decide) (by decide) (by decide) (by decide) (by decide)
      (by decide) (by decide) (by decide) (by decide) (by decide),
   c5_rebalance_recursion_steps.2.1 3 tW5b 1 0 2 3 4
      { key := 20, parent := some 0, left := none, right := none, color := Color.black }
      { key := 40, parent := none, left := some 1, right := some 2, color := Color.black }
      { key := 60, parent := some 0, left := some 3, right := some 4, color := Color.black }
      { key := 50, parent := some 2, left := none, right := none, color := Color.black }
      { key := 70, parent := some 2, left := none, right := none, color := Color.black }
      (by decide) (by decide) (by decide) (by decide) (by decide) (by decide) (by decide)
      (by decide) (by decide) (by decide) (by decide) (by decide) (by decide) (by decide),
   c5_rebalance_recursion_steps.2.2 22 (paintNode (deleteStruct tC5 3).1 4 Color.red) 1 0 2 5 6
      { key := 20, parent := some 0, left := none, right := some 4, color := Color.black }
      { key := 40, parent := none, left := some 1, right := some 2, color := Color.black }
      { key := 80, parent := some 0, left := some 5, right := some 6, color := Color.red }
      { key := 60, parent := some 2, left := some 7, right := some 8, color := Color.black }
      { key := 100, parent := some 2, left := some 9, right := some 10, color := Color.black }
      (by decide) (by decide) (by decide) (by decide) (by decide) (by decide) (by decide)
      (by decide) (by decide) (by decide) (by decide) (by decide) (by decide) (by decide)
      (by decide) (by decide)⟩

/-- C3: `insert(k)` with k present and `delete(k)` with k absent are
structural no-ops: the resulting tree state is identical to the one
before the call (same nodes, same links, same colors), not merely the
same size. -/
theorem c3_duplicate_insert_absent_delete_noop (t : RBTree) (k : Int) :
    (t.get k = some k → t.insert k = t) ∧ (t.get k = none → t.delete k = t) := by
  constructor
  · intro h
    unfold RBTree.get at h
    cases hr : t.root with
    | none => rw [hr] at h; exact absurd h (by simp)
    | some r =>
      rw [hr] at h
      have hnone := insertLoop_none_of_getLoop_some t k t.arena.length
        (t.arena.length + 1) r k h
      simp only [RBTree.insert, hr, hnone]
  · intro h
    unfold RBTree.get at h
    cases hr : t.root with
    | none => simp only [RBTree.delete, hr, findNode]
    | some r =>
      rw [hr] at h
      have hnone := findNode_none_of_getLoop_none t k (t.arena.length + 1) r h
      simp only [RBTree.delete, hr, hnone]

theorem c3_duplicate_insert_absent_delete_noop_witness :
    ((RBTree.new.insert 10).get 10 = some 10 ∧
      (RBTree.new.insert 10).insert 10 = RBTree.new.insert 10) ∧
    ((RBTree.new.insert 10).get 99 = none ∧
      (RBTree.new.insert 10).delete 99 = RBTree.new.insert 10) :=
  ⟨⟨by decide, (c3_duplicate_insert_absent_delete_noop (RBTree.new.insert 10) 10).1 (by decide)⟩,
   ⟨by decide, (c3_duplicate_insert_absent_delete_noop (RBTree.new.insert 10) 99).2 (by decide)⟩⟩

/-- C9: the three insertion orders (10, 20, 30), (30, 20, 10) and
(10, 30, 20) into an empty tree all produce root 20 black with left
child 10 red and right child 30 red. -/
theorem c9_three_insertion_orders :
    toTree (((RBTree.new.insert 10).insert 20).insert 30) =
      some (STree.node 20 Color.black
        (STree.node 10 Color.red STree.leaf STree.leaf)
        (STree.node 30 Color.red STree.leaf STree.leaf)) ∧
    toTree (((RBTree.new.insert 30).insert 20).insert 10) =
      some (STree.node 20 Color.black
        (STree.node 10 Color.red STree.leaf STree.leaf)
        (STree.node 30 Color.red STree.leaf STree.leaf)) ∧
    toTree (((RBTree.new.insert 10).insert 30).insert 20) =
      some (STree.node 20 Color.black
        (STree.node 10 Color.red STree.leaf STree.leaf)
        (STree.node 30 Color.red STree.leaf STree.leaf)) := by
  decide

/-- C1 fails on the code.  After insert 10, insert 20, delete 10 the tree
is valid, but `delete` of the one-child root leaves the promoted child's
parent back-link dangling; the very next rebalancing rotation then fails
to update the root, so after insert 30, insert 40 the tree reachable from
the root is the single RED node 20: the root-is-black invariant is
violated and the keys 30 and 40 are lost. -/
theorem c1_invariants_broken_by_op_sequence :
    checkRB ((((RBTree.new.insert 10).insert 20).delete 10).insert 30) = true ∧
    checkRB (((((RBTree.new.insert 10).insert 20).delete 10).insert 30).insert 40) = false ∧
    toTree (((((RBTree.new.insert 10).insert 20).delete 10).insert 30).insert 40) =
      some (STree.node 20 Color.red STree.leaf STree.leaf) := by
  decide

/-- C2 fails on the code at the same input: after
insert 10, insert 20, delete 10, insert 30, insert 40 the keys 20, 30, 40
were inserted and never removed, yet `get 30` and `get 40` report absence
and `size()` is 1 instead of 3. -/
theorem c2_membership_size_broken_by_op_sequence :
    (((((RBTree.new.insert 10).insert 20).delete 10).insert 30).insert 40).get 30 = none ∧
    (((((RBTree.new.insert 10).insert 20).delete 10).insert 30).insert 40).get 40 = none ∧
    (((((RBTree.new.insert 10).insert 20).delete 10).insert 30).insert 40).get 20 = some 20 ∧
    (((((RBTree.new.insert 10).insert 20).delete 10).insert 30).insert 40).size = 1 := by
  decide

/-- C8: when `delete` removes a node with exactly one child, the child is
recolored black and promoted: if the target was the root the child becomes
the new root, otherwise the child is re-linked to the target's parent and
takes the target's child slot; no delete-rebalancing is performed in
either case (the structural phase returns no rebalance node, and `delete`
just frees the target's cell afterwards). -/
theorem c8_one_child_promotion :
    (∀ t key target son tn sn,
      findNode t key (t.arena.length + 1) t.root = some target →
      getNode t target = some tn →
      ((tn.left = some son ∧ tn.right = none) ∨ (tn.left = none ∧ tn.right = some son)) →
      getNode t son = some sn →
      upgradeLink t tn.parent = none →
      (deleteStruct t target).2 = none ∧
      t.delete key = clearSlot (deleteStruct t target).1 target ∧
      (deleteStruct t target).1.root = some son ∧
      getNode (deleteStruct t target).1 son = some { sn with color := Color.black }) ∧
    (∀ t key target son q tn sn qn,
      findNode t key (t.arena.length + 1) t.root = some target →
      getNode t target = some tn →
      ((tn.left = some son ∧ tn.right = none) ∨ (tn.left = none ∧ tn.right = some son)) →
      getNode t son = some sn →
      upgradeLink t tn.parent = some q →
      getNode t q = some qn →
      ¬ son = q →
      (deleteStruct t target).2 = none ∧
      t.delete key = clearSlot (deleteStruct t target).1 target ∧
      (deleteStruct t target).1.root = t.root ∧
      getNode (deleteStruct t target).1 son =
        some { sn with parent := some q, color := Color.black } ∧
      getNode (deleteStruct t target).1 q =
        some (let qn1 := if qn.left = some target then { qn with left := some son } else qn
              if qn1.right = some target then { qn1 with right := some son } else qn1)) := by
  constructor
  · intro t key target son tn sn hf ht hone hsn hpar
    have hstruct : deleteStruct t target =
        ({ paintNode t son Color.black with root := some son }, none) := by
      rcases hpp : tn.parent with _ | q0
      · rcases hone with ⟨h1, h2⟩ | ⟨h1, h2⟩ <;>
          simp only [deleteStruct, ht, h1, h2, hpp]
      · simp only [hpp, upgradeLink] at hpar
        cases hg : getNode t q0 with
        | some w => rw [hg] at hpar; exact absurd hpar (by simp)
        | none =>
          rcases hone with ⟨h1, h2⟩ | ⟨h1, h2⟩ <;>
            simp only [deleteStruct, ht, h1, h2, hpp, hg]

    refine ⟨by rw [hstruct], ?_, by rw [hstruct], ?_⟩
    · simp only [RBTree.delete, hf, hstruct]
    · rw [hstruct]
      exact getNode_paintNode_self _ hsn
  · intro t key target son q tn sn qn hf ht hone hsn hpar hq hsq
    have hget : ∀ q0, tn.parent = some q0 → q0 = q := by
      intro q0 hpp
      simp only [hpp, upgradeLink] at hpar
      cases hg : getNode t q0 with
      | some w => rw [hg] at hpar; exact Option.some.inj hpar
      | none => rw [hg] at hpar; exact absurd hpar (by simp)
    rcases hpp : tn.parent with _ | q0
    · simp only [hpp, upgradeLink] at hpar; exact absurd hpar (by simp)
    have hq0 : q0 = q := hget q0 hpp
    subst hq0
    have hgq : getNode t q0 = some qn := hq
    have hstruct : deleteStruct t target =
        (updNode (updNode (paintNode t son Color.black) son
            (fun n => { n with parent := some q0 }))
          q0 (fun pn =>
            let pn1 := if pn.left = some target then { pn with left := some son } else pn
            if pn1.right = some target then { pn1 with right := some son } else pn1), none) := by
      rcases hone with ⟨h1, h2⟩ | ⟨h1, h2⟩ <;>
        simp only [deleteStruct, ht, h1, h2, hpp, hgq]
    have hsonCell : getNode (deleteStruct t target).1 son =
        some { sn with parent := some q0, color := Color.black } := by
      rw [hstruct]
      rw [getNode_updNode_ne _ hsq]
      exact getNode_updNode_self _ (getNode_paintNode_self _ hsn)
    have hqCell : getNode (deleteStruct t target).1 q0 =
        some (let qn1 := if qn.left = some target then { qn with left := some son } else qn
              if qn1.right = some target then { qn1 with right := some son } else qn1) := by
      rw [hstruct]
      refine getNode_updNode_self _ ?_
      rw [getNode_updNode_ne _ (fun e => hsq e.symm),
        getNode_paintNode_ne _ (fun e => hsq e.symm)]
      exact hgq
    refine ⟨by rw [hstruct], ?_, by simp only [hstruct, root_updNode, root_paintNode], hsonCell, hqCell⟩
    simp only [RBTree.delete, hf, hstruct]

/-- C7: when `delete` removes a node with two children whose in-order
successor is black and has no right child, delete-rebalance is invoked at
the successor's original parent `q`; in the boundary case where that
original parent is the target itself (the target's right child is the
successor), delete-rebalance is instead invoked at the successor — the
slot the successor moved into. -/
theorem c7_two_children_balance_site (t : RBTree) (key : Int)
    (target tLeft tRight successor q : Nat) (tn sn0 : Node)
    (hf : findNode t key (t.arena.length + 1) t.root = some target)
    (ht : getNode t target = some tn)
    (hl : tn.left = some tLeft) (hr : tn.right = some tRight)
    (hsucc : findMinimum t (t.arena.length + 1) tRight = successor)
    (hsn : getNode t successor = some sn0)
    (hsr : sn0.right = none) (hsc : sn0.color = Color.black)
    (hq : upgradeLink t sn0.parent = some q)
    (hne : ¬ successor = tLeft) :
    (deleteStruct t target).2 = some (if q = target then successor else q) ∧
    t.delete key =
      clearSlot
        (deleteBalance (2 * (deleteStruct t target).1.arena.length + 2)
          (deleteStruct t target).1 (if q = target then successor else q)) target := by
  rcases hpp : sn0.parent with _ | q0
  · simp only [hpp, upgradeLink] at hq
    exact absurd hq (by simp)
  · simp only [hpp, upgradeLink] at hq
    cases hg : getNode t q0 with
    | none => rw [hg] at hq; exact absurd hq (by simp)
    | some w =>
      rw [hg] at hq
      have hq0 : q0 = q := Option.some.inj hq
      subst hq0
      have hA1 : getNode (updNode (updNode t successor fun n => { n with left := some tLeft })
          tLeft fun n => { n with parent := some successor }) successor =
          some { sn0 with left := some tLeft } := by
        rw [getNode_updNode_ne _ hne]
        exact getNode_updNode_self _ hsn
      have hA2some : (getNode (updNode (updNode t successor
          fun n => { n with left := some tLeft })
          tLeft fun n => { n with parent := some successor }) q0).isSome = true :=
        isSome_getNode_updNode _ (isSome_getNode_updNode _ (by rw [hg]; rfl))
      obtain ⟨spn, hA2⟩ := Option.isSome_iff_exists.mp hA2some
      have hmain : (deleteStruct t target).2 = some (if q0 = target then successor else q0) := by
        by_cases hadj : successor = tRight
        · simp only [deleteStruct, ht, hl, hr, hsucc, hsn, hpp, hg, hsr, hA1, hA2,
            if_pos hadj, hsc]
          by_cases hqt : q0 = target <;> simp [hqt]
        · by_cases hts : tRight = q0
          · simp only [deleteStruct, ht, hl, hr, hsucc, hsn, hpp, hg, hsr, hA1, hA2,
              if_neg hadj, if_pos hts, hsc]
            by_cases hqt : q0 = target <;> simp [hqt]
          · simp only [deleteStruct, ht, hl, hr, hsucc, hsn, hpp, hg, hsr, hA1, hA2,
              if_neg hadj, if_neg hts, hsc]
            by_cases hqt : q0 = target <;> simp [hqt]
      refine ⟨hmain, ?_⟩
      simp only [RBTree.delete, hf, hmain]

theorem c7_two_children_balance_site_witness :
    ((deleteStruct tC5 0).2 = some 5 ∧
      tC5.delete 40 =
        clearSlot
          (deleteBalance (2 * (deleteStruct tC5 0).1.arena.length + 2)
            (deleteStruct tC5 0).1 5) 0) ∧
    ((deleteStruct tW7 0).2 = some 2 ∧
      tW7.delete 20 =
        clearSlot
          (deleteBalance (2 * (deleteStruct tW7 0).1.arena.length + 2)
            (deleteStruct tW7 0).1 2) 0) :=
  ⟨c7_two_children_balance_site tC5 40 0 1 2 7 5
      { key := 40, parent := none, left := some 1, right := some 2, color := Color.black }
      { key := 50, parent := some 5, left := none, right := none, color := Color.black }
      (by decide) (by decide) (by decide) (by decide) (by decide) (by decide) (by decide)
      (by decide) (by decide) (by decide),
   c7_two_children_balance_site tW7 20 0 1 2 2 0
      { key := 20, parent := none, left := some 1, right := some 2, color := Color.black }
      { key := 30, parent := some 0, left := none, right := none, color := Color.black }
      (by decide) (by decide) (by decide) (by decide) (by decide) (by decide) (by decide)
      (by decide) (by decide) (by decide)⟩

theorem c8_one_child_promotion_witness :
    ((deleteStruct ((RBTree.new.insert 10).insert 20) 0).2 = none ∧
      ((RBTree.new.insert 10).insert 20).delete 10 =
        clearSlot (deleteStruct ((RBTree.new.insert 10).insert 20) 0).1 0 ∧
      (deleteStruct ((RBTree.new.insert 10).insert 20) 0).1.root = some 1 ∧
      getNode (deleteStruct ((RBTree.new.insert 10).insert 20) 0).1 1 =
        some { key := 20, parent := some 0, left := none, right := none,
               color := Color.black }) ∧
    ((deleteStruct ((((RBTree.new.insert 20).insert 10).insert 30).insert 40) 2).2 = none ∧
      ((((RBTree.new.insert 20).insert 10).insert 30).insert 40).delete 30 =
        clearSlot (deleteStruct ((((RBTree.new.insert 20).insert 10).insert 30).insert 40) 2).1
          2 ∧
      (deleteStruct ((((RBTree.new.insert 20).insert 10).insert 30).insert 40) 2).1.root =
        (((((RBTree.new.insert 20).insert 10).insert 30).insert 40)).root ∧
      getNode (deleteStruct ((((RBTree.new.insert 20).insert 10).insert 30).insert 40) 2).1 3 =
        some { key := 40, parent := some 0, left := none, right := none,
               color := Color.black } ∧
      getNode (deleteStruct ((((RBTree.new.insert 20).insert 10).insert 30).insert 40) 2).1 0 =
        some { key := 20, parent := none, left := some 1, right := some 3,
               color := Color.black }) := by
  constructor
  · exact c8_one_child_promotion.1 ((RBTree.new.insert 10).insert 20) 10 0 1
      { key := 10, parent := none, left := none, right := some 1, color := Color.black }
      { key := 20, parent := some 0, left := none, right := none, color := Color.red }
      (by decide) (by decide) (by decide) (by decide) (by decide)
  · exact c8_one_child_promotion.2 ((((RBTree.new.insert 20).insert 10).insert 30).insert 40)
      30 2 3 0
      { key := 30, parent := some 0, left := none, right := some 3, color := Color.black }
      { key := 40, parent := some 2, left := none, right := none, color := Color.red }
      { key := 20, parent := none, left := some 1, right := some 2, color := Color.black }
      (by decide) (by decide) (by decide) (by decide) (by decide) (by decide) (by decide)

/-- C6 fails on the code: at the valid tree `tC6`, deleting 10 runs
stage-1 delete-rebalance at the black parent 20 whose sibling 40 is red
(situation `BLR`), but the code performs TWO rotations (sibling toward
parent, then the sibling's near child toward the parent) and would run
insert-rebalance on the parent's new right-side child, not the single
rotation plus insert-rebalance on the gap node that the claim describes:
the resulting trees differ. -/
theorem c6_single_rotation_claim_false :
    wf tC6 = true ∧
    findNode tC6 10 (tC6.arena.length + 1) tC6.root = some 1 ∧
    (deleteStruct tC6 1).2 = some 0 ∧
    judgeDeleteSituation (deleteStruct tC6 1).1 0 = (DeleteSituation.BLR, 2, 3, 0) ∧
    toTree (tC6.delete 10) =
      some (STree.node 40 Color.black
        (STree.node 30 Color.black (STree.node 20 Color.red STree.leaf STree.leaf) STree.leaf)
        (STree.node 50 Color.black STree.leaf STree.leaf)) ∧
    toTree (clearSlot (specC6ActionLeft (deleteStruct tC6 1).1 0) 1) =
      some (STree.node 40 Color.black
        (STree.node 20 Color.red STree.leaf (STree.node 30 Color.black STree.leaf STree.leaf))
        (STree.node 50 Color.black STree.leaf STree.leaf)) ∧
    tC6.delete 10 ≠ clearSlot (specC6ActionLeft (deleteStruct tC6 1).1 0) 1 := by
  decide

/-- C6 amended: when stage-1 delete-rebalance runs at a black parent
whose sibling is red (on either side), the action is: rotate the sibling
toward the parent, then also rotate the sibling's near child toward the
parent, recolor the sibling black and the parent red, and run
insert-rebalance on the child the parent then has on the side opposite
the gap, when such a child exists. -/
theorem c6_black_parent_red_sibling_action :
    (∀ fuel t p br bl brr pn brn,
      getNode t p = some pn → pn.color = Color.black →
      pn.right = some br → getNode t br = some brn → brn.color = Color.red →
      brn.left = some bl → brn.right = some brr →
      deleteBalance fuel t p =
        (let t1 := rotateLeft t p br
         let t2 := rotateLeft t1 p bl
         let t3 := paintNode (paintNode t2 br Color.black) p Color.red
         match getNode t3 p with
         | some pn3 =>
           match pn3.right with
           | some c => insertBalance (t3.arena.length + 1) t3 p c
           | none => t3
         | none => t3)) ∧
    (∀ fuel t p br bl brr pn brn,
      getNode t p = some pn → pn.color = Color.black →
      pn.right = none →
      pn.left = some br → getNode t br = some brn → brn.color = Color.red →
      brn.left = some bl → brn.right = some brr →
      deleteBalance fuel t p =
        (let t1 := rotateRight t p br
         let t2 := rotateRight t1 p brr
         let t3 := paintNode (paintNode t2 br Color.black) p Color.red
         match getNode t3 p with
         | some pn3 =>
           match pn3.left with
           | some c => insertBalance (t3.arena.length + 1) t3 p c
           | none => t3
         | none => t3)) := by
  constructor
  · intro fuel t p br bl brr pn brn hp hc hbr hbrn hbc hbl hbrr
    unfold deleteBalance judgeDeleteSituation
    simp only [hp, hc, hbr, hbrn, hbc, hbl, hbrr]
  · intro fuel t p br bl brr pn brn hp hc hr hbr hbrn hbc hbl hbrr
    unfold deleteBalance judgeDeleteSituation
    simp only [hp, hc, hr, hbr, hbrn, hbc, hbl, hbrr]

theorem c6_black_parent_red_sibling_action_witness :
    toTree (deleteBalance 12 (deleteStruct tC6 1).1 0) =
      some (STree.node 40 Color.black
        (STree.node 30 Color.black (STree.node 20 Color.red STree.leaf STree.leaf) STree.leaf)
        (STree.node 50 Color.black STree.leaf STree.leaf)) :=
  (congrArg toTree (c6_black_parent_red_sibling_action.1 12 (deleteStruct tC6 1).1 0 2 3 4
      { key := 20, parent := none, left := none, right := some 2, color := Color.black }
      { key := 40, parent := some 0, left := some 3, right := some 4, color := Color.red }
      (by decide) (by decide) (by decide) (by decide) (by decide) (by decide)
      (by decide))).trans (by decide)

/-! ### Reachability machinery for the rotation and safety claims -/

theorem idsAux_zero_some {t : RBTree} {i : Nat} {M : List Nat} :
    idsAux t 0 (some i) = some M → False := by
  intro h
  simp [idsAux] at h

theorem idsAux_some_inv {t : RBTree} {f : Nat} {i : Nat} {M : List Nat}
    (h : idsAux t (f + 1) (some i) = some M) :
    ∃ n l r, getNode t i = some n ∧ idsAux t f n.left = some l ∧
      idsAux t f n.right = some r ∧ M = l ++ i :: r := by
  cases hg : getNode t i with
  | none => simp [idsAux, hg] at h
  | some n =>
    simp only [idsAux, hg] at h
    cases hl : idsAux t f n.left with
    | none => rw [hl] at h; simp at h
    | some l =>
      cases hr : idsAux t f n.right with
      | none => rw [hl, hr] at h; simp at h
      | some r =>
        rw [hl, hr] at h
        simp at h
        exact ⟨n, l, r, rfl, hl, hr, h.symm⟩

theorem idsAux_self_mem {t : RBTree} {f : Nat} {i : Nat} {M : List Nat}
    (h : idsAux t f (some i) = some M) : i ∈ M := by
  cases f with
  | zero => exact absurd h idsAux_zero_some
  | succ f =>
    obtain ⟨n, l, r, _, _, _, hM⟩ := idsAux_some_inv h
    rw [hM]
    simp

theorem idsAux_mem_isSome {t : RBTree} :
    ∀ {f : Nat} {cur : Option Nat} {M : List Nat}, idsAux t f cur = some M →
      ∀ j ∈ M, (getNode t j).isSome = true := by
  intro f
  induction f with
  | zero =>
    intro cur M h j hj
    cases cur with
    | none =>
      simp only [idsAux] at h
      cases h
      simp at hj
    | some i => exact absurd h idsAux_zero_some
  | succ f ih =>
    intro cur M h j hj
    cases cur with
    | none =>
      simp only [idsAux] at h
      cases h
      simp at hj
    | some i =>
      obtain ⟨n, l, r, hg, hl, hr, hM⟩ := idsAux_some_inv h
      rw [hM] at hj
      rcases List.mem_append.mp hj with hjl | hjir
      · exact ih hl j hjl
      · rcases List.mem_cons.mp hjir with hje | hjr
        · rw [hje, hg]; rfl
        · exact ih hr j hjr

theorem idsAux_descend {t : RBTree} :
    ∀ {f : Nat} {cur : Option Nat} {M : List Nat}, idsAux t f cur = some M →
      ∀ {j : Nat}, j ∈ M →
      ∃ fj Mj, idsAux t fj (some j) = some Mj ∧ Mj.Sublist M := by
  intro f
  induction f with
  | zero =>
    intro cur M h j hj
    cases cur with
    | none =>
      simp only [idsAux] at h
      cases h
      simp at hj
    | some i => exact absurd h idsAux_zero_some
  | succ f ih =>
    intro cur M h j hj
    cases cur with
    | none =>
      simp only [idsAux] at h
      cases h
      simp at hj
    | some i =>
      obtain ⟨n, l, r, hg, hl, hr, hM⟩ := idsAux_some_inv h
      subst hM
      rcases List.mem_append.mp hj with hjl | hjir
      · obtain ⟨fj, Mj, hMj, hsub⟩ := ih hl hjl
        exact ⟨fj, Mj, hMj, hsub.trans (List.sublist_append_left _ _)⟩
      · rcases List.mem_cons.mp hjir with hje | hjr
        · subst hje
          exact ⟨f + 1, l ++ j :: r, h, List.Sublist.refl _⟩
        · obtain ⟨fj, Mj, hMj, hsub⟩ := ih hr hjr
          refine ⟨fj, Mj, hMj, hsub.trans ?_⟩
          exact (List.sublist_cons_self i r).trans (List.sublist_append_right _ _)

theorem idsAux_fuel_any {t : RBTree} :
    ∀ {f : Nat} {cur : Option Nat} {M : List Nat}, idsAux t f cur = some M →
      ∀ {g : Nat}, M.length + 1 ≤ g → idsAux t g cur = some M := by
  intro f
  induction f with
  | zero =>
    intro cur M h g hg
    cases cur with
    | none =>
      simp only [idsAux] at h
      cases h
      cases g with
      | zero => omega
      | succ g => rfl
    | some i => exact absurd h idsAux_zero_some
  | succ f ih =>
    intro cur M h g hg
    cases cur with
    | none =>
      simp only [idsAux] at h
      cases h
      cases g with
      | zero => omega
      | succ g => rfl
    | some i =>
      obtain ⟨n, l, r, hgi, hl, hr, hM⟩ := idsAux_some_inv h
      subst hM
      cases g with
      | zero => simp at hg
      | succ g =>
        have hlen : (l ++ i :: r).length = l.length + r.length + 1 := by
          simp
          omega
        have hlg : l.length + 1 ≤ g := by omega
        have hrg : r.length + 1 ≤ g := by omega
        simp only [idsAux, hgi, ih hl hlg, ih hr hrg]

theorem idsAux_ext {t s : RBTree} :
    ∀ {f : Nat} {cur : Option Nat} {M : List Nat}, idsAux t f cur = some M →
      (∀ j ∈ M, ∃ n n', getNode t j = some n ∧ getNode s j = some n' ∧
        n'.left = n.left ∧ n'.right = n.right) →
      idsAux s f cur = some M := by
  intro f
  induction f with
  | zero =>
    intro cur M h hc
    cases cur with
    | none => exact h
    | some i => exact absurd h idsAux_zero_some
  | succ f ih =>
    intro cur M h hc
    cases cur with
    | none => exact h
    | some i =>
      obtain ⟨n, l, r, hg, hl, hr, hM⟩ := idsAux_some_inv h
      subst hM
      obtain ⟨n0, n', hn0, hn', hleft, hright⟩ := hc i (by simp)
      rw [hg] at hn0
      injection hn0 with he
      subst he
      have hl' := ih hl (fun j hj => hc j (by simp [hj]))
      have hr' := ih hr (fun j hj => hc j (by simp [hj]))
      simp only [idsAux, hn', hleft, hright, hl', hr']

theorem nodup_ids_length_le {t : RBTree} {f : Nat} {cur : Option Nat} {M : List Nat}
    (h : idsAux t f cur = some M) (hnd : M.Nodup) : M.length ≤ t.arena.length := by
  have hmem : ∀ j ∈ M, j < t.arena.length := by
    intro j hj
    obtain ⟨n, hn⟩ := Option.isSome_iff_exists.mp (idsAux_mem_isSome h j hj)
    exact lt_length_of_getNode hn
  have : M.toFinset.card = M.length := List.toFinset_card_of_nodup hnd
  rw [← this]
  have hsub : M.toFinset ⊆ Finset.range t.arena.length := by
    intro j hj
    rw [Finset.mem_range]
    exact hmem j (List.mem_toFinset.mp hj)
  calc M.toFinset.card ≤ (Finset.range t.arena.length).card := Finset.card_le_card hsub
    _ = t.arena.length := Finset.card_range _

theorem idsAux_toTree {t : RBTree} :
    ∀ {f : Nat} {cur : Option Nat} {M : List Nat}, idsAux t f cur = some M →
      ∃ s, toTreeAux t f cur = some s ∧ s.inorder = M.map (keyD t) := by
  intro f
  induction f with
  | zero =>
    intro cur M h
    cases cur with
    | none =>
      simp only [idsAux] at h
      cases h
      exact ⟨STree.leaf, rfl, rfl⟩
    | some i => exact absurd h idsAux_zero_some
  | succ f ih =>
    intro cur M h
    cases cur with
    | none =>
      simp only [idsAux] at h
      cases h
      exact ⟨STree.leaf, rfl, rfl⟩
    | some i =>
      obtain ⟨n, l, r, hg, hl, hr, hM⟩ := idsAux_some_inv h
      subst hM
      obtain ⟨sl, hsl, hslin⟩ := ih hl
      obtain ⟨sr, hsr, hsrin⟩ := ih hr
      refine ⟨STree.node n.key n.color sl sr, ?_, ?_⟩
      · simp only [toTreeAux, hg, hsl, hsr]
      · simp only [STree.inorder, hslin, hsrin, List.map_append, List.map_cons]
        have : keyD t i = n.key := by simp [keyD, hg]
        rw [this]
        simp

theorem parentLinksOk_some_inv {t : RBTree} {f : Nat} {i : Nat} {expp : Option Nat}
    (h : parentLinksOk t (f + 1) (some i) expp = true) :
    ∃ n, getNode t i = some n ∧ upgradeLink t n.parent = expp ∧
      parentLinksOk t f n.left (some i) = true ∧
      parentLinksOk t f n.right (some i) = true := by
  cases hg : getNode t i with
  | none => simp [parentLinksOk, hg] at h
  | some n =>
    simp only [parentLinksOk, hg, Bool.and_eq_true, decide_eq_true_eq] at h
    exact ⟨n, rfl, h.1.1, h.1.2, h.2⟩

theorem pok_parent_mem {t : RBTree} :
    ∀ {f : Nat} {cur expp : Option Nat} {M : List Nat},
      idsAux t f cur = some M → parentLinksOk t f cur expp = true →
      ∀ j ∈ M, ∀ nj, getNode t j = some nj →
        (cur = some j ∧ upgradeLink t nj.parent = expp) ∨
        (∃ w, w ∈ M ∧ upgradeLink t nj.parent = some w) := by
  intro f
  induction f with
  | zero =>
    intro cur expp M h _ j hj
    cases cur with
    | none =>
      simp only [idsAux] at h
      cases h
      simp at hj
    | some i => exact absurd h idsAux_zero_some
  | succ f ih =>
    intro cur expp M h hpok j hj nj hnj
    cases cur with
    | none =>
      simp only [idsAux] at h
      cases h
      simp at hj
    | some i =>
      obtain ⟨n, l, r, hg, hl, hr, hM⟩ := idsAux_some_inv h
      obtain ⟨n0, hg0, hup, hpl, hpr⟩ := parentLinksOk_some_inv hpok
      rw [hg] at hg0
      injection hg0 with he
      subst he
      subst hM
      rcases List.mem_append.mp hj with hjl | hjir
      · rcases ih hl hpl j hjl nj hnj with ⟨hcur, hupj⟩ | ⟨w, hw, hupj⟩
        · exact Or.inr ⟨i, by simp, hupj⟩
        · exact Or.inr ⟨w, by simp [hw], hupj⟩
      · rcases List.mem_cons.mp hjir with hje | hjr
        · subst hje
          rw [hnj] at hg
          injection hg with he
          subst he
          exact Or.inl ⟨rfl, hup⟩
        · rcases ih hr hpr j hjr nj hnj with ⟨hcur, hupj⟩ | ⟨w, hw, hupj⟩
          · exact Or.inr ⟨i, by simp, hupj⟩
          · exact Or.inr ⟨w, by simp [hw], hupj⟩

theorem rotateLeft_length (t : RBTree) (gp pr : Nat) :
    (rotateLeft t gp pr).arena.length = t.arena.length := by
  unfold rotateLeft
  cases hpn : getNode t pr with
  | none => rfl
  | some pnn =>
    cases hgn : getNode t gp with
    | none => rfl
    | some gn =>
      cases hbl : pnn.left with
      | none =>
        cases hgpp : gn.parent with
        | none => simp [hbl, hgpp, length_setNode]
        | some w =>
          cases hu : getNode t w with
          | none => simp [hbl, hgpp, hu, length_setNode]
          | some wn => simp [hbl, hgpp, hu, length_setNode]
      | some b =>
        cases hgpp : gn.parent with
        | none => simp [hbl, hgpp, length_setNode, length_updNode]
        | some w =>
          cases hu : getNode (updNode t b fun nd => { nd with parent := some gp }) w with
          | none => simp [hbl, hgpp, hu, length_setNode, length_updNode]
          | some wn => simp [hbl, hgpp, hu, length_setNode, length_updNode]

theorem rotateLeft_root_of_parent_none {t : RBTree} {gp pr : Nat} {gn pnn : Node}
    (hgn : getNode t gp = some gn) (hpn : getNode t pr = some pnn)
    (hpar : gn.parent = none) :
    (rotateLeft t gp pr).root = some pr := by
  unfold rotateLeft
  rw [hpn, hgn]
  cases hbl : pnn.left <;> simp [hbl, hpar]

theorem rotateLeft_root_of_parent_live {t : RBTree} {gp pr : Nat} {gn pnn : Node} {w : Nat}
    (hgn : getNode t gp = some gn) (hpn : getNode t pr = some pnn)
    (hpar : gn.parent = some w) (hlive : (getNode t w).isSome = true) :
    (rotateLeft t gp pr).root = t.root := by
  unfold rotateLeft
  rw [hpn, hgn]
  cases hbl : pnn.left with
  | none =>
    obtain ⟨wn, hwn⟩ := Option.isSome_iff_exists.mp hlive
    simp [hbl, hpar, hwn]
  | some b =>
    have hlive2 : (getNode (updNode t b fun nd => { nd with parent := some gp }) w).isSome
        = true := isSome_getNode_updNode _ hlive
    obtain ⟨wn, hwn⟩ := Option.isSome_iff_exists.mp hlive2
    simp [hbl, hpar, hwn]

theorem rotateLeft_pr_cell {t1 : RBTree} {gp pr : Nat} {gn pnn : Node}
    (hgn : getNode t1 gp = some gn) (hpn : getNode t1 pr = some pnn)
    (hne : ¬ pr = gp) :
    ∃ P, getNode (rotateLeft t1 gp pr) pr =
      some { pnn with left := some gp, parent := P } := by
  have hlt : pr < t1.arena.length := lt_length_of_getNode hpn
  unfold rotateLeft
  rw [hpn, hgn]
  cases hbl : pnn.left with
  | none =>
    cases hgpp : gn.parent with
    | none =>
      refine ⟨none, ?_⟩
      simp only [hbl, hgpp]
      rw [getNode_root_irrel, getNode_setNode_ne _ hne]
      exact getNode_setNode_self _ hlt
    | some w =>
      cases hu : getNode t1 w with
      | none =>
        refine ⟨pnn.parent, ?_⟩
        simp only [hbl, hgpp, hu]
        rw [getNode_root_irrel, getNode_setNode_ne _ hne]
        exact getNode_setNode_self _ hlt
      | some wn =>
        refine ⟨some w, ?_⟩
        simp only [hbl, hgpp, hu]
        rw [getNode_root_irrel, getNode_setNode_ne _ hne]
        exact getNode_setNode_self _ (by rw [length_setNode]; exact hlt)
  | some b =>
    cases hgpp : gn.parent with
    | none =>
      refine ⟨none, ?_⟩
      simp only [hbl, hgpp]
      rw [getNode_root_irrel, getNode_setNode_ne _ hne]
      exact getNode_setNode_self _ (by rw [length_updNode]; exact hlt)
    | some w =>
      cases hu : getNode (updNode t1 b fun nd => { nd with parent := some gp }) w with
      | none =>
        refine ⟨pnn.parent, ?_⟩
        simp only [hbl, hgpp, hu]
        rw [getNode_root_irrel, getNode_setNode_ne _ hne]
        exact getNode_setNode_self _ (by rw [length_updNode]; exact hlt)
      | some wn =>
        refine ⟨some w, ?_⟩
        simp only [hbl, hgpp, hu]
        rw [getNode_root_irrel, getNode_setNode_ne _ hne]
        exact getNode_setNode_self _ (by rw [length_setNode, length_updNode]; exact hlt)

theorem rotateLeft_b_cell {t1 : RBTree} {gp pr b : Nat} {gn pnn bn : Node}
    (hgn : getNode t1 gp = some gn) (hpn : getNode t1 pr = some pnn)
    (hbl : pnn.left = some b) (hb : getNode t1 b = some bn)
    (hb1 : ¬ b = gp) (hb2 : ¬ b = pr) (hb4 : ¬ gn.parent = some b) :
    getNode (rotateLeft t1 gp pr) b = some { bn with parent := some gp } := by
  unfold rotateLeft
  rw [hpn, hgn]
  cases hgpp : gn.parent with
  | none =>
    simp only [hbl, hgpp]
    rw [getNode_root_irrel, getNode_setNode_ne _ hb1, getNode_setNode_ne _ hb2]
    exact getNode_updNode_self _ hb
  | some w =>
    have hbw : ¬ b = w := fun e => hb4 (by rw [hgpp, e])
    cases hu : getNode (updNode t1 b fun nd => { nd with parent := some gp }) w with
    | none =>
      simp only [hbl, hgpp, hu]
      rw [getNode_root_irrel, getNode_setNode_ne _ hb1, getNode_setNode_ne _ hb2]
      exact getNode_updNode_self _ hb
    | some wn =>
      simp only [hbl, hgpp, hu]
      rw [getNode_root_irrel, getNode_setNode_ne _ hb1, getNode_setNode_ne _ hb2,
        getNode_setNode_ne _ hbw]
      exact getNode_updNode_self _ hb

theorem rotateLeft_gpp_cell {t1 : RBTree} {gp pr w : Nat} {gn pnn wn : Node}
    (hgn : getNode t1 gp = some gn) (hpn : getNode t1 pr = some pnn)
    (hw : gn.parent = some w) (hwn : getNode t1 w = some wn)
    (hw1 : ¬ w = gp) (hw2 : ¬ w = pr) (hwb : ¬ pnn.left = some w)
    (hwl : wn.left = some gp) (hwr : ¬ wn.right = some gp) :
    getNode (rotateLeft t1 gp pr) w = some { wn with left := some pr } := by
  have hlt : w < t1.arena.length := lt_length_of_getNode hwn
  unfold rotateLeft
  rw [hpn, hgn]
  cases hbl : pnn.left with
  | none =>
    simp only [hbl, hw, hwn, hwl, if_true]
    rw [if_neg hwr]
    rw [getNode_root_irrel, getNode_setNode_ne _ hw1, getNode_setNode_ne _ hw2]
    exact getNode_setNode_self _ hlt
  | some b =>
    have hbw : ¬ w = b := fun e => hwb (by rw [hbl, e])
    have hwn2 : getNode (updNode t1 b fun nd => { nd with parent := some gp }) w = some wn := by
      rw [getNode_updNode_ne _ hbw]
      exact hwn
    simp only [hbl, hw, hwn2, hwl, if_true]
    rw [if_neg hwr]
    rw [getNode_root_irrel, getNode_setNode_ne _ hw1, getNode_setNode_ne _ hw2]
    exact getNode_setNode_self _ (by rw [length_updNode]; exact hlt)

theorem rotateLeft_gpp_cell_right {t1 : RBTree} {gp pr w : Nat} {gn pnn wn : Node}
    (hgn : getNode t1 gp = some gn) (hpn : getNode t1 pr = some pnn)
    (hw : gn.parent = some w) (hwn : getNode t1 w = some wn)
    (hw1 : ¬ w = gp) (hw2 : ¬ w = pr) (hwb : ¬ pnn.left = some w)
    (hwl : ¬ wn.left = some gp) (hwr : wn.right = some gp) :
    getNode (rotateLeft t1 gp pr) w = some { wn with right := some pr } := by
  have hlt : w < t1.arena.length := lt_length_of_getNode hwn
  unfold rotateLeft
  rw [hpn, hgn]
  cases hbl : pnn.left with
  | none =>
    simp only [hbl, hw, hwn]
    rw [if_neg hwl, if_pos hwr]
    rw [getNode_root_irrel, getNode_setNode_ne _ hw1, getNode_setNode_ne _ hw2]
    exact getNode_setNode_self _ hlt
  | some b =>
    have hbw : ¬ w = b := fun e => hwb (by rw [hbl, e])
    have hwn2 : getNode (updNode t1 b fun nd => { nd with parent := some gp }) w = some wn := by
      rw [getNode_updNode_ne _ hbw]
      exact hwn
    simp only [hbl, hw, hwn2]
    rw [if_neg hwl, if_pos hwr]
    rw [getNode_root_irrel, getNode_setNode_ne _ hw1, getNode_setNode_ne _ hw2]
    exact getNode_setNode_self _ (by rw [length_updNode]; exact hlt)

theorem rotateLeft_links_pres {t1 : RBTree} {gp pr j : Nat} {gn pnn nj : Node}
    (hgn : getNode t1 gp = some gn) (hpn : getNode t1 pr = some pnn)
    (hj1 : ¬ j = gp) (hj2 : ¬ j = pr) (hj4 : ¬ gn.parent = some j)
    (hnj : getNode t1 j = some nj) :
    ∃ nj', getNode (rotateLeft t1 gp pr) j = some nj' ∧
      nj'.left = nj.left ∧ nj'.right = nj.right := by
  by_cases hb : pnn.left = some j
  · exact ⟨{ nj with parent := some gp },
      rotateLeft_b_cell hgn hpn hb hnj hj1 hj2 hj4, rfl, rfl⟩
  · refine ⟨nj, ?_, rfl, rfl⟩
    rw [rotateLeft_frame hgn hpn hj1 hj2 hb hj4]
    exact hnj

theorem map_field_setNode {α : Type} (fld : Node → α) {X : RBTree} {i : Nat} {m : Node}
    (n : Node) (hm : getNode X i = some m) (hk : fld n = fld m) :
    ∀ j, (getNode (setNode X i n) j).map fld = (getNode X j).map fld := by
  intro j
  by_cases hj : j = i
  · subst hj
    rw [getNode_setNode_self _ (lt_length_of_getNode hm), hm]
    simp [hk]
  · rw [getNode_setNode_ne _ hj]

theorem map_field_updNode {α : Type} (fld : Node → α) {X : RBTree} {i : Nat}
    {f : Node → Node} (hf : ∀ m, fld (f m) = fld m) :
    ∀ j, (getNode (updNode X i f) j).map fld = (getNode X j).map fld := by
  intro j
  unfold updNode
  cases hg : getNode X i with
  | none => rfl
  | some m => exact map_field_setNode fld (f m) hg (hf m) j

theorem map_field_some_inv {α : Type} (fld : Node → α) {X t : RBTree} {i : Nat} {m : Node}
    (h : ∀ j, (getNode X j).map fld = (getNode t j).map fld)
    (hc : getNode t i = some m) :
    ∃ m', getNode X i = some m' ∧ fld m' = fld m := by
  have hi := h i
  rw [hc] at hi
  cases hx : getNode X i with
  | none => rw [hx] at hi; exact absurd hi (by simp)
  | some m' =>
    rw [hx] at hi
    exact ⟨m', rfl, by simpa using hi⟩

theorem map_field_write {α : Type} (fld : Node → α) {t X : RBTree} {i : Nat} {m : Node}
    (n : Node) (h : ∀ j, (getNode X j).map fld = (getNode t j).map fld)
    (hc : getNode t i = some m) (hk : fld n = fld m) :
    ∀ j, (getNode (setNode X i n) j).map fld = (getNode t j).map fld := by
  obtain ⟨m', hm', hfm⟩ := map_field_some_inv fld h hc
  intro j
  exact (map_field_setNode fld n hm' (hk.trans hfm.symm) j).trans (h j)

/-- `rotate_left` writes every cell back with its own key and color: only
parent/left/right links change.  `fld` is any field unaffected by link
updates (instantiated with `Node.key` and `Node.color`). -/
theorem rotateLeft_map_field {α : Type} (fld : Node → α)
    (hp : ∀ (m : Node) (x : Option Nat), fld { m with parent := x } = fld m)
    (hl : ∀ (m : Node) (x : Option Nat), fld { m with left := x } = fld m)
    (hrr : ∀ (m : Node) (x : Option Nat), fld { m with right := x } = fld m)
    (t : RBTree) (gp pr : Nat) :
    ∀ j, (getNode (rotateLeft t gp pr) j).map fld = (getNode t j).map fld := by
  unfold rotateLeft
  cases hpn : getNode t pr with
  | none => intro j; rfl
  | some pnn =>
    cases hgn : getNode t gp with
    | none => intro j; rfl
    | some gn =>
      have hbase : ∀ j, (getNode t j).map fld = (getNode t j).map fld := fun j => rfl
      cases hbl : pnn.left with
      | none =>
        cases hgpp : gn.parent with
        | none =>
          simp only [hbl, hgpp]
          intro j
          rw [getNode_root_irrel]
          refine map_field_write fld _ (map_field_write fld _ hbase hpn ?_) hgn ?_ j
          · exact (hl { pnn with parent := none } (some gp)).trans (hp pnn none)
          · exact (hp { gn with right := none } (some pr)).trans (hrr gn none)
        | some w =>
          cases hu : getNode t w with
          | none =>
            simp only [hbl, hgpp, hu]
            intro j
            rw [getNode_root_irrel]
            refine map_field_write fld _ (map_field_write fld _ hbase hpn ?_) hgn ?_ j
            · exact hl pnn (some gp)
            · exact (hp { gn with right := none } (some pr)).trans (hrr gn none)
          | some wn =>
            simp only [hbl, hgpp, hu]
            intro j
            rw [getNode_root_irrel]
            have hwn2 : fld (if (if wn.left = some gp then { wn with left := some pr }
                else wn).right = some gp then
                { (if wn.left = some gp then { wn with left := some pr } else wn) with
                  right := some pr }
                else if wn.left = some gp then { wn with left := some pr } else wn) = fld wn := by
              by_cases h1 : wn.left = some gp
              · simp only [if_pos h1]
                by_cases h2 : wn.right = some gp
                · simp only [if_pos h2]
                  exact (hrr { wn with left := some pr } (some pr)).trans (hl wn (some pr))
                · simp only [if_neg h2]
                  exact hl wn (some pr)
              · simp only [if_neg h1]
                by_cases h2 : wn.right = some gp
                · simp only [if_pos h2]
                  exact hrr wn (some pr)
                · simp only [if_neg h2]
            refine map_field_write fld _ (map_field_write fld _
              (map_field_write fld _ hbase hu hwn2) hpn ?_) hgn ?_ j
            · exact (hl { pnn with parent := some w } (some gp)).trans (hp pnn (some w))
            · exact (hp { gn with right := none } (some pr)).trans (hrr gn none)
      | some b =>
        have hupd : ∀ j, (getNode (updNode t b fun nd => { nd with parent := some gp }) j).map fld
            = (getNode t j).map fld :=
          map_field_updNode fld (fun m => hp m (some gp))
        cases hgpp : gn.parent with
        | none =>
          simp only [hbl, hgpp]
          intro j
          rw [getNode_root_irrel]
          refine map_field_write fld _ (map_field_write fld _ hupd hpn ?_) hgn ?_ j
          · exact (hl { pnn with parent := none } (some gp)).trans (hp pnn none)
          · exact (hp { gn with right := some b } (some pr)).trans (hrr gn (some b))
        | some w =>
          cases hu : getNode (updNode t b fun nd => { nd with parent := some gp }) w with
          | none =>
            simp only [hbl, hgpp, hu]
            intro j
            rw [getNode_root_irrel]
            refine map_field_write fld _ (map_field_write fld _ hupd hpn ?_) hgn ?_ j
            · exact hl pnn (some gp)
            · exact (hp { gn with right := some b } (some pr)).trans (hrr gn (some b))
          | some wn =>
            simp only [hbl, hgpp, hu]
            intro j
            rw [getNode_root_irrel]
            obtain ⟨mw, hmw, hfmw⟩ := map_field_some_inv fld
              (fun j => (hupd j).symm) (X := t) hu
            have hwn2 : fld (if (if wn.left = some gp then { wn with left := some pr }
                else wn).right = some gp then
                { (if wn.left = some gp then { wn with left := some pr } else wn) with
                  right := some pr }
                else if wn.left = some gp then { wn with left := some pr } else wn) = fld mw := by
              rw [hfmw]
              by_cases h1 : wn.left = some gp
              · simp only [if_pos h1]
                by_cases h2 : wn.right = some gp
                · simp only [if_pos h2]
                  exact (hrr { wn with left := some pr } (some pr)).trans (hl wn (some pr))
                · simp only [if_neg h2]
                  exact hl wn (some pr)
              · simp only [if_neg h1]
                by_cases h2 : wn.right = some gp
                · simp only [if_pos h2]
                  exact hrr wn (some pr)
                · simp only [if_neg h2]
            refine map_field_write fld _ (map_field_write fld _
              (map_field_write fld _ hupd hmw hwn2) hpn ?_) hgn ?_ j
            · exact (hl { pnn with parent := some w } (some gp)).trans (hp pnn (some w))
            · exact (hp { gn with right := some b } (some pr)).trans (hrr gn (some b))

theorem rotateLeft_keyD (t : RBTree) (gp pr : Nat) :
    ∀ j, keyD (rotateLeft t gp pr) j = keyD t j := by
  intro j
  have h := rotateLeft_map_field Node.key (fun m x => rfl) (fun m x => rfl) (fun m x => rfl)
    t gp pr j
  unfold keyD
  cases hx : getNode (rotateLeft t gp pr) j <;> cases hy : getNode t j <;>
    rw [hx, hy] at h <;> simpa using h

theorem rotateLeft_colorD (t : RBTree) (gp pr : Nat) :
    ∀ j, colorD (rotateLeft t gp pr) j = colorD t j := by
  intro j
  have h := rotateLeft_map_field Node.color (fun m x => rfl) (fun m x => rfl) (fun m x => rfl)
    t gp pr j
  unfold colorD
  cases hx : getNode (rotateLeft t gp pr) j <;> cases hy : getNode t j <;>
    rw [hx, hy] at h <;> simpa using h

theorem nodup_split {i : Nat} {l r : List Nat} (h : (l ++ i :: r).Nodup) :
    l.Nodup ∧ r.Nodup ∧ ¬ i ∈ l ∧ ¬ i ∈ r ∧ ∀ a ∈ l, ¬ a ∈ r := by
  rw [List.nodup_append] at h
  obtain ⟨h1, h2, h3⟩ := h
  rw [List.nodup_cons] at h2
  refine ⟨h1, h2.2, ?_, h2.1, ?_⟩
  · intro hi
    exact h3 hi (List.mem_cons_self i r)
  · intro a ha har
    exact h3 ha (List.mem_cons_of_mem i har)

theorem gp_subtree_members {t : RBTree} {gp pr : Nat} {gn pnn : Node}
    (hgn : getNode t gp = some gn) (hpn : getNode t pr = some pnn)
    (hgr : gn.right = some pr) :
    ∀ {f : Nat} {Mg : List Nat}, idsAux t f (some gp) = some Mg →
      pr ∈ Mg ∧ ∀ j, pnn.left = some j → j ∈ Mg := by
  intro f Mg hMg
  cases f with
  | zero => exact absurd hMg idsAux_zero_some
  | succ f =>
    obtain ⟨n, lg, rg, hget, hlg, hrg, hMeq⟩ := idsAux_some_inv hMg
    rw [hgn] at hget
    injection hget with he
    subst he
    rw [hgr] at hrg
    cases f with
    | zero => exact absurd hrg idsAux_zero_some
    | succ f =>
      obtain ⟨p0, lp, rp, hpget, hlp, hrp, hrgeq⟩ := idsAux_some_inv hrg
      rw [hpn] at hpget
      injection hpget with he
      subst he
      subst hrgeq
      subst hMeq
      refine ⟨by simp, ?_⟩
      intro j hj
      rw [hj] at hlp
      have hmem := idsAux_self_mem hlp
      simp [hmem]

theorem rotateLeft_local {t : RBTree} {gp pr : Nat} {gn pnn : Node}
    (hgn : getNode t gp = some gn) (hpn : getNode t pr = some pnn)
    (hgr : gn.right = some pr) :
    ∀ {f : Nat} {Mg : List Nat}, idsAux t f (some gp) = some Mg → Mg.Nodup →
      (∀ j, gn.parent = some j → ¬ j ∈ Mg) →
      idsAux (rotateLeft t gp pr) (Mg.length + 1) (some pr) = some Mg := by
  intro f Mg hMg hnd hgpp
  cases f with
  | zero => exact absurd hMg idsAux_zero_some
  | succ f =>
    obtain ⟨n, lg, rg, hget, hlg, hrg, hMeq⟩ := idsAux_some_inv hMg
    rw [hgn] at hget
    injection hget with he
    subst he
    rw [hgr] at hrg
    cases f with
    | zero => exact absurd hrg idsAux_zero_some
    | succ f =>
      obtain ⟨p0, lp, rp, hpget, hlp, hrp, hrgeq⟩ := idsAux_some_inv hrg
      rw [hpn] at hpget
      injection hpget with he
      subst he
      subst hrgeq
      subst hMeq
      obtain ⟨ndlg, ndrest, hgp_lg, hgp_rest, hdisj1⟩ := nodup_split hnd
      obtain ⟨ndlp, ndrp, hpr_lp, hpr_rp, hdisj2⟩ := nodup_split ndrest
      have hpr_mem_rest : pr ∈ lp ++ pr :: rp := by simp
      have hne : ¬ gp = pr := fun e => hgp_rest (by rw [e]; exact hpr_mem_rest)
      have hnepr : ¬ pr = gp := fun e => hne e.symm
      have hext : ∀ {f0 : Nat} {c : Option Nat} {L0 : List Nat},
          idsAux t f0 c = some L0 →
          (∀ j ∈ L0, ¬ j = gp ∧ ¬ j = pr ∧ ¬ gn.parent = some j) →
          idsAux (rotateLeft t gp pr) f0 c = some L0 := by
        intro f0 c L0 h0 hside
        refine idsAux_ext h0 ?_
        intro j hj
        obtain ⟨hj1, hj2, hj4⟩ := hside j hj
        obtain ⟨nj, hnj⟩ := Option.isSome_iff_exists.mp (idsAux_mem_isSome h0 j hj)
        obtain ⟨nj2, hnj2, hLp, hRp⟩ := rotateLeft_links_pres hgn hpn hj1 hj2 hj4 hnj
        exact ⟨nj, nj2, hnj, hnj2, hLp, hRp⟩
      have hmemlg : ∀ j ∈ lg, j ∈ lg ++ gp :: (lp ++ pr :: rp) := by
        intro j hj; simp [hj]
      have hmemlp : ∀ j ∈ lp, j ∈ lg ++ gp :: (lp ++ pr :: rp) := by
        intro j hj; simp [hj]
      have hmemrp : ∀ j ∈ rp, j ∈ lg ++ gp :: (lp ++ pr :: rp) := by
        intro j hj; simp [hj]
      have h_lg : idsAux (rotateLeft t gp pr) (f + 1) gn.left = some lg := by
        refine hext hlg ?_
        intro j hj
        refine ⟨fun e => hgp_lg (by rw [← e]; exact hj), ?_, fun e => hgpp j e (hmemlg j hj)⟩
        intro e
        exact hdisj1 j hj (by rw [e]; exact hpr_mem_rest)
      have h_lp : idsAux (rotateLeft t gp pr) f pnn.left = some lp := by
        refine hext hlp ?_
        intro j hj
        refine ⟨?_, fun e => hpr_lp (by rw [← e]; exact hj), fun e => hgpp j e (hmemlp j hj)⟩
        intro e
        exact hgp_rest (by rw [← e]; simp [hj])
      have h_rp : idsAux (rotateLeft t gp pr) f pnn.right = some rp := by
        refine hext hrp ?_
        intro j hj
        refine ⟨?_, fun e => hpr_rp (by rw [← e]; exact hj), fun e => hgpp j e (hmemrp j hj)⟩
        intro e
        exact hgp_rest (by rw [← e]; simp [hj])
      have hgpc := rotateLeft_gp_cell hgn hpn hne
      obtain ⟨P, hprc⟩ := rotateLeft_pr_cell hgn hpn hnepr
      have hgp2 : idsAux (rotateLeft t gp pr) ((lg.length + lp.length + 1) + 1) (some gp)
          = some (lg ++ gp :: lp) := by
        have h1 : idsAux (rotateLeft t gp pr) (lg.length + lp.length + 1) gn.left = some lg :=
          idsAux_fuel_any h_lg (by omega)
        have h2 : idsAux (rotateLeft t gp pr) (lg.length + lp.length + 1) pnn.left = some lp :=
          idsAux_fuel_any h_lp (by omega)
        simp only [idsAux, hgpc, h1, h2]
      have hA : idsAux (rotateLeft t gp pr) ((lg ++ gp :: (lp ++ pr :: rp)).length) (some gp)
          = some (lg ++ gp :: lp) := by
        refine idsAux_fuel_any hgp2 ?_
        simp
        omega
      have hB : idsAux (rotateLeft t gp pr) ((lg ++ gp :: (lp ++ pr :: rp)).length) pnn.right
          = some rp := by
        refine idsAux_fuel_any h_rp ?_
        simp
        omega
      simp only [idsAux, hprc, hA, hB]
      simp

theorem rotateLeft_main {t : RBTree} {gp pr : Nat} {gn pnn : Node}
    (hgn : getNode t gp = some gn) (hpn : getNode t pr = some pnn)
    (hgr : gn.right = some pr)
    (hlive : gn.parent = none ∨ ∃ w, gn.parent = some w ∧ (getNode t w).isSome = true) :
    ∀ {f : Nat} {cur expp : Option Nat} {M : List Nat},
      idsAux t f cur = some M → parentLinksOk t f cur expp = true → M.Nodup →
      (∀ e, expp = some e → ¬ e ∈ M) → ¬ cur = some gp → gp ∈ M →
      idsAux (rotateLeft t gp pr) (M.length + 1) cur = some M := by
  intro f
  induction f with
  | zero =>
    intro cur expp M h _ _ _ _ hgpM
    cases cur with
    | none =>
      simp only [idsAux] at h
      cases h
      simp at hgpM
    | some i => exact absurd h idsAux_zero_some
  | succ f ih =>
    intro cur expp M h hpok hnd _hexp hcur hgpM
    cases cur with
    | none =>
      simp only [idsAux] at h
      cases h
      simp at hgpM
    | some i =>
      obtain ⟨n, l, r, hg, hl, hr, hM⟩ := idsAux_some_inv h
      obtain ⟨n0, hg0, _hup, hpl, hpr2⟩ := parentLinksOk_some_inv hpok
      rw [hg] at hg0
      injection hg0 with he
      subst he
      subst hM
      have hine : ¬ i = gp := fun e => hcur (by rw [e])
      obtain ⟨ndl, ndr, hi_l, hi_r, hdisj⟩ := nodup_split hnd
      rcases List.mem_append.mp hgpM with hgpl | hgpir
      · -- gp lies in the left child's subtree
        have hgp_nr : ¬ gp ∈ r := fun hh => hdisj gp hgpl hh
        obtain ⟨fg, Mgs, hMgs, hsub⟩ := idsAux_descend hl hgpl
        obtain ⟨hprMg, hbMg⟩ := gp_subtree_members hgn hpn hgr hMgs
        have hpr_l : pr ∈ l := hsub.subset hprMg
        have hb_l : ∀ j, pnn.left = some j → j ∈ l := fun j hj => hsub.subset (hbMg j hj)
        have hpr_nr : ¬ pr ∈ r := fun hh => hdisj pr hpr_l hh
        have hipr : ¬ i = pr := fun e => hi_l (by rw [e]; exact hpr_l)
        have hrext : ∀ hh4 : ¬ gn.parent = some i → True, (∀ j ∈ r, ¬ gn.parent = some j) →
            idsAux (rotateLeft t gp pr) f n.right = some r := by
          intro _ hj4s
          refine idsAux_ext hr ?_
          intro j hj
          have hj1 : ¬ j = gp := fun e => hgp_nr (by rw [← e]; exact hj)
          have hj2 : ¬ j = pr := fun e => hpr_nr (by rw [← e]; exact hj)
          obtain ⟨nj, hnj⟩ := Option.isSome_iff_exists.mp (idsAux_mem_isSome hr j hj)
          obtain ⟨nj2, hnj2, hLp, hRp⟩ :=
            rotateLeft_links_pres hgn hpn hj1 hj2 (hj4s j hj) hnj
          exact ⟨nj, nj2, hnj, hnj2, hLp, hRp⟩
        by_cases hleft : n.left = some gp
        · -- the current node is gp's parent: dispatch to the local lemma
          rw [hleft] at hl hpl
          have hf1 : ∃ f2, f = f2 + 1 := by
            cases f with
            | zero => exact absurd hl idsAux_zero_some
            | succ f2 => exact ⟨f2, rfl⟩
          obtain ⟨f2, rfl⟩ := hf1
          obtain ⟨gn0, hgn0, hupg, _, _⟩ := parentLinksOk_some_inv hpl
          rw [hgn] at hgn0
          injection hgn0 with he
          subst he
          have hpargp : gn.parent = some i := by
            rcases hlive with hnone | ⟨w, hw, hwlive⟩
            · rw [hnone] at hupg
              simp [upgradeLink] at hupg
            · obtain ⟨wn, hwn⟩ := Option.isSome_iff_exists.mp hwlive
              rw [hw] at hupg
              simp only [upgradeLink, hwn] at hupg
              rw [hw, hupg]
          have hloc := rotateLeft_local hgn hpn hgr hl ndl (by
            intro j hj hjl
            rw [hpargp] at hj
            injection hj with he
            exact hi_l (by rw [he]; exact hjl))
          have hn_r : ¬ n.right = some gp := by
            intro hh
            rw [hh] at hr
            exact hgp_nr (idsAux_self_mem hr)
          have hbi : ¬ pnn.left = some i := fun hh => hi_l (hb_l i hh)
          have hcell := rotateLeft_gpp_cell hgn hpn hpargp hg hine hipr hbi hleft hn_r
          have hr2 : idsAux (rotateLeft t gp pr) (f2 + 1) n.right = some r := by
            refine hrext (fun _ => trivial) ?_
            intro j hj
            rw [hpargp]
            intro hh
            injection hh with he
            exact hi_r (by rw [he]; exact hj)
          have hA2 : idsAux (rotateLeft t gp pr) ((l ++ i :: r).length) (some pr) = some l := by
            refine idsAux_fuel_any hloc ?_
            simp
          have hB2 : idsAux (rotateLeft t gp pr) ((l ++ i :: r).length) n.right = some r := by
            refine idsAux_fuel_any hr2 ?_
            simp
          simp only [idsAux, hcell, hA2, hB2]
        · -- recurse into the left child
          rcases pok_parent_mem hl hpl gp hgpl gn hgn with ⟨hceq, _⟩ | ⟨w, hwl, hupw⟩
          · exact absurd hceq hleft
          · have hparw : gn.parent = some w := by
              rcases hlive with hnone | ⟨e, hee, helive⟩
              · rw [hnone] at hupw
                simp [upgradeLink] at hupw
              · obtain ⟨en, hen⟩ := Option.isSome_iff_exists.mp helive
                rw [hee] at hupw
                simp only [upgradeLink, hen] at hupw
                rw [hee, hupw]
            have hwi : ¬ gn.parent = some i := by
              rw [hparw]
              intro hh
              injection hh with he
              exact hi_l (by rw [← he]; exact hwl)
            obtain ⟨n2, hcell, hL, hR⟩ := rotateLeft_links_pres hgn hpn hine hipr hwi hg
            have hlw : idsAux (rotateLeft t gp pr) (l.length + 1) n.left = some l := by
              refine ih hl hpl ndl ?_ hleft hgpl
              intro e he
              injection he with h2
              rw [← h2]
              exact hi_l
            have hr2 : idsAux (rotateLeft t gp pr) f n.right = some r := by
              refine hrext (fun _ => trivial) ?_
              intro j hj
              rw [hparw]
              intro hh
              injection hh with he
              exact hdisj w hwl (by rw [he]; exact hj)
            have hA2 : idsAux (rotateLeft t gp pr) ((l ++ i :: r).length) n.left = some l := by
              refine idsAux_fuel_any hlw ?_
              simp
            have hB2 : idsAux (rotateLeft t gp pr) ((l ++ i :: r).length) n.right = some r := by
              refine idsAux_fuel_any hr2 ?_
              simp
            simp only [idsAux, hcell, hL, hR, hA2, hB2]
      · rcases List.mem_cons.mp hgpir with hgpe | hgpr
        · exact absurd hgpe.symm hine
        · -- gp lies in the right child's subtree
          have hgp_nl : ¬ gp ∈ l := fun hh => hdisj gp hh hgpr
          obtain ⟨fg, Mgs, hMgs, hsub⟩ := idsAux_descend hr hgpr
          obtain ⟨hprMg, hbMg⟩ := gp_subtree_members hgn hpn hgr hMgs
          have hpr_r : pr ∈ r := hsub.subset hprMg
          have hb_r : ∀ j, pnn.left = some j → j ∈ r := fun j hj => hsub.subset (hbMg j hj)
          have hpr_nl : ¬ pr ∈ l := fun hh => hdisj pr hh hpr_r
          have hipr : ¬ i = pr := fun e => hi_r (by rw [e]; exact hpr_r)
          have hlext : (∀ j ∈ l, ¬ gn.parent = some j) →
              idsAux (rotateLeft t gp pr) f n.left = some l := by
            intro hj4s
            refine idsAux_ext hl ?_
            intro j hj
            have hj1 : ¬ j = gp := fun e => hgp_nl (by rw [← e]; exact hj)
            have hj2 : ¬ j = pr := fun e => hpr_nl (by rw [← e]; exact hj)
            obtain ⟨nj, hnj⟩ := Option.isSome_iff_exists.mp (idsAux_mem_isSome hl j hj)
            obtain ⟨nj2, hnj2, hLp, hRp⟩ :=
              rotateLeft_links_pres hgn hpn hj1 hj2 (hj4s j hj) hnj
            exact ⟨nj, nj2, hnj, hnj2, hLp, hRp⟩
          by_cases hright : n.right = some gp
          · -- the current node is gp's parent on the right: dispatch to the local lemma
            rw [hright] at hr hpr2
            have hf1 : ∃ f2, f = f2 + 1 := by
              cases f with
              | zero => exact absurd hr idsAux_zero_some
              | succ f2 => exact ⟨f2, rfl⟩
            obtain ⟨f2, rfl⟩ := hf1
            obtain ⟨gn0, hgn0, hupg, _, _⟩ := parentLinksOk_some_inv hpr2
            rw [hgn] at hgn0
            injection hgn0 with he
            subst he
            have hpargp : gn.parent = some i := by
              rcases hlive with hnone | ⟨w, hw, hwlive⟩
              · rw [hnone] at hupg
                simp [upgradeLink] at hupg
              · obtain ⟨wn, hwn⟩ := Option.isSome_iff_exists.mp hwlive
                rw [hw] at hupg
                simp only [upgradeLink, hwn] at hupg
                rw [hw, hupg]
            have hloc := rotateLeft_local hgn hpn hgr hr ndr (by
              intro j hj hjr
              rw [hpargp] at hj
              injection hj with he
              exact hi_r (by rw [he]; exact hjr))
            have hn_l : ¬ n.left = some gp := by
              intro hh
              rw [hh] at hl
              exact hgp_nl (idsAux_self_mem hl)
            have hbi : ¬ pnn.left = some i := fun hh => hi_r (hb_r i hh)
            have hcell := rotateLeft_gpp_cell_right hgn hpn hpargp hg hine hipr hbi hn_l hright
            have hl2 : idsAux (rotateLeft t gp pr) (f2 + 1) n.left = some l := by
              refine hlext ?_
              intro j hj
              rw [hpargp]
              intro hh
              injection hh with he
              exact hi_l (by rw [he]; exact hj)
            have hA2 : idsAux (rotateLeft t gp pr) ((l ++ i :: r).length) n.left = some l := by
              refine idsAux_fuel_any hl2 ?_
              simp
            have hB2 : idsAux (rotateLeft t gp pr) ((l ++ i :: r).length) (some pr) = some r := by
              refine idsAux_fuel_any hloc ?_
              simp
            simp only [idsAux, hcell, hA2, hB2]
          · -- recurse into the right child
            rcases pok_parent_mem hr hpr2 gp hgpr gn hgn with ⟨hceq, _⟩ | ⟨w, hwr, hupw⟩
            · exact absurd hceq hright
            · have hparw : gn.parent = some w := by
                rcases hlive with hnone | ⟨e, hee, helive⟩
                · rw [hnone] at hupw
                  simp [upgradeLink] at hupw
                · obtain ⟨en, hen⟩ := Option.isSome_iff_exists.mp helive
                  rw [hee] at hupw
                  simp only [upgradeLink, hen] at hupw
                  rw [hee, hupw]
              have hwi : ¬ gn.parent = some i := by
                rw [hparw]
                intro hh
                injection hh with he
                exact hi_r (by rw [← he]; exact hwr)
              obtain ⟨n2, hcell, hL, hR⟩ := rotateLeft_links_pres hgn hpn hine hipr hwi hg
              have hrw : idsAux (rotateLeft t gp pr) (r.length + 1) n.right = some r := by
                refine ih hr hpr2 ndr ?_ hright hgpr
                intro e he
                injection he with h2
                rw [← h2]
                exact hi_r
              have hl2 : idsAux (rotateLeft t gp pr) f n.left = some l := by
                refine hlext ?_
                intro j hj
                rw [hparw]
                intro hh
                injection hh with he
                exact hdisj j hj (by rw [← he]; exact hwr)
              have hA2 : idsAux (rotateLeft t gp pr) ((l ++ i :: r).length) n.left = some l := by
                refine idsAux_fuel_any hl2 ?_
                simp
              have hB2 : idsAux (rotateLeft t gp pr) ((l ++ i :: r).length) n.right = some r := by
                refine idsAux_fuel_any hrw ?_
                simp
              simp only [idsAux, hcell, hL, hR, hA2, hB2]

theorem rotateLeft_reachIds {t : RBTree} {gp pr : Nat} {gn pnn : Node} {ids : List Nat}
    (hids : reachIds t = some ids)
    (hpok : parentLinksOk t (t.arena.length + 1) t.root none = true)
    (hnd : ids.Nodup) (hgp : gp ∈ ids)
    (hgn : getNode t gp = some gn) (hpn : getNode t pr = some pnn)
    (hgr : gn.right = some pr)
    (hlive : gn.parent = none ∨ ∃ w, gn.parent = some w ∧ (getNode t w).isSome = true) :
    reachIds (rotateLeft t gp pr) = some ids := by
  unfold reachIds at hids ⊢
  rw [rotateLeft_length]
  by_cases hroot : t.root = some gp
  · rw [hroot] at hids hpok
    obtain ⟨gn0, hgn0, hupg, _, _⟩ := parentLinksOk_some_inv hpok
    rw [hgn] at hgn0
    injection hgn0 with he
    subst he
    have hparnone : gn.parent = none := by
      rcases hlive with h0 | ⟨w, hw, hwlive⟩
      · exact h0
      · obtain ⟨wn, hwn⟩ := Option.isSome_iff_exists.mp hwlive
        rw [hw] at hupg
        simp [upgradeLink, hwn] at hupg
    rw [rotateLeft_root_of_parent_none hgn hpn hparnone]
    have hloc := rotateLeft_local hgn hpn hgr hids hnd (by
      intro j hj
      rw [hparnone] at hj
      exact absurd hj (by simp))
    refine idsAux_fuel_any hloc ?_
    have := nodup_ids_length_le hids hnd
    omega
  · have hparw : ∃ w, gn.parent = some w ∧ (getNode t w).isSome = true := by
      rcases hlive with h0 | hw
      · exfalso
        rcases pok_parent_mem hids hpok gp hgp gn hgn with ⟨hceq, _⟩ | ⟨w, _, hupw⟩
        · exact hroot hceq
        · rw [h0] at hupw
          simp [upgradeLink] at hupw
      · exact hw
    obtain ⟨w, hw, hwl⟩ := hparw
    rw [rotateLeft_root_of_parent_live hgn hpn hw hwl]
    have hmain := rotateLeft_main hgn hpn hgr hlive hids hpok hnd
      (fun e he => by simp at he) hroot hgp
    refine idsAux_fuel_any hmain ?_
    have := nodup_ids_length_le hids hnd
    omega

theorem rotateRight_length (t : RBTree) (gp pr : Nat) :
    (rotateRight t gp pr).arena.length = t.arena.length := by
  unfold rotateRight
  cases hpn : getNode t pr with
  | none => rfl
  | some pnn =>
    cases hgn : getNode t gp with
    | none => rfl
    | some gn =>
      cases hbl : pnn.right with
      | none =>
        cases hgpp : gn.parent with
        | none => simp [hbl, hgpp, length_setNode]
        | some w =>
          cases hu : getNode t w with
          | none => simp [hbl, hgpp, hu, length_setNode]
          | some wn => simp [hbl, hgpp, hu, length_setNode]
      | some b =>
        cases hgpp : gn.parent with
        | none => simp [hbl, hgpp, length_setNode, length_updNode]
        | some w =>
          cases hu : getNode (updNode t b fun nd => { nd with parent := some gp }) w with
          | none => simp [hbl, hgpp, hu, length_setNode, length_updNode]
          | some wn => simp [hbl, hgpp, hu, length_setNode, length_updNode]

theorem rotateRight_root_of_parent_none {t : RBTree} {gp pr : Nat} {gn pnn : Node}
    (hgn : getNode t gp = some gn) (hpn : getNode t pr = some pnn)
    (hpar : gn.parent = none) :
    (rotateRight t gp pr).root = some pr := by
  unfold rotateRight
  rw [hpn, hgn]
  cases hbl : pnn.right <;> simp [hbl, hpar]

theorem rotateRight_root_of_parent_live {t : RBTree} {gp pr : Nat} {gn pnn : Node} {w : Nat}
    (hgn : getNode t gp = some gn) (hpn : getNode t pr = some pnn)
    (hpar : gn.parent = some w) (hlive : (getNode t w).isSome = true) :
    (rotateRight t gp pr).root = t.root := by
  unfold rotateRight
  rw [hpn, hgn]
  cases hbl : pnn.right with
  | none =>
    obtain ⟨wn, hwn⟩ := Option.isSome_iff_exists.mp hlive
    simp [hbl, hpar, hwn]
  | some b =>
    have hlive2 : (getNode (updNode t b fun nd => { nd with parent := some gp }) w).isSome
        = true := isSome_getNode_updNode _ hlive
    obtain ⟨wn, hwn⟩ := Option.isSome_iff_exists.mp hlive2
    simp [hbl, hpar, hwn]

theorem rotateRight_gp_cell {t1 : RBTree} {gp pr : Nat} {gn pnn : Node}
    (hgn : getNode t1 gp = some gn) (hpn : getNode t1 pr = some pnn)
    (_hne : ¬ gp = pr) :
    getNode (rotateRight t1 gp pr) gp =
      some { gn with left := pnn.right, parent := some pr } := by
  have hlt : gp < t1.arena.length := lt_length_of_getNode hgn
  unfold rotateRight
  rw [hpn, hgn]
  cases hbl : pnn.right with
  | none =>
    cases hgpp : gn.parent with
    | none =>
      simp only [hbl, hgpp]
      exact getNode_setNode_self _ (by rw [length_setNode]; exact hlt)
    | some gpp =>
      cases hu : getNode t1 gpp with
      | none =>
        simp only [hbl, hgpp, hu]
        exact getNode_setNode_self _ (by rw [length_setNode]; exact hlt)
      | some gppn =>
        simp only [hbl, hgpp, hu]
        exact getNode_setNode_self _ (by
          rw [length_setNode, length_setNode]; exact hlt)
  | some b =>
    cases hgpp : gn.parent with
    | none =>
      simp only [hbl, hgpp]
      exact getNode_setNode_self _ (by
        rw [length_setNode, length_updNode]; exact hlt)
    | some gpp =>
      cases hu : getNode (updNode t1 b fun nd => { nd with parent := some gp }) gpp with
      | none =>
        simp only [hbl, hgpp, hu]
        exact getNode_setNode_self _ (by
          rw [length_setNode, length_updNode]; exact hlt)
      | some gppn =>
        simp only [hbl, hgpp, hu]
        exact getNode_setNode_self _ (by
          rw [length_setNode, length_setNode, length_updNode]; exact hlt)

theorem rotateRight_frame {t1 : RBTree} {gp pr j : Nat} {gn pnn : Node}
    (hgn : getNode t1 gp = some gn) (hpn : getNode t1 pr = some pnn)
    (hj1 : ¬ j = gp) (hj2 : ¬ j = pr)
    (hj3 : ¬ pnn.right = some j) (hj4 : ¬ gn.parent = some j) :
    getNode (rotateRight t1 gp pr) j = getNode t1 j := by
  unfold rotateRight
  rw [hpn, hgn]
  cases hbl : pnn.right with
  | none =>
    cases hgpp : gn.parent with
    | none =>
      simp only [hbl, hgpp]
      rw [getNode_root_irrel, getNode_setNode_ne _ hj1, getNode_setNode_ne _ hj2]
    | some gpp =>
      have hjg : ¬ j = gpp := fun e => hj4 (by rw [hgpp, e])
      cases hu : getNode t1 gpp with
      | none =>
        simp only [hbl, hgpp, hu]
        rw [getNode_root_irrel, getNode_setNode_ne _ hj1, getNode_setNode_ne _ hj2]
      | some gppn =>
        simp only [hbl, hgpp, hu]
        rw [getNode_root_irrel, getNode_setNode_ne _ hj1, getNode_setNode_ne _ hj2,
          getNode_setNode_ne _ hjg]
  | some b =>
    have hjb : ¬ j = b := fun e => hj3 (by rw [hbl, e])
    cases hgpp : gn.parent with
    | none =>
      simp only [hbl, hgpp]
      rw [getNode_root_irrel, getNode_setNode_ne _ hj1, getNode_setNode_ne _ hj2,
        getNode_updNode_ne _ hjb]
    | some gpp =>
      have hjg : ¬ j = gpp := fun e => hj4 (by rw [hgpp, e])
      cases hu : getNode (updNode t1 b fun nd => { nd with parent := some gp }) gpp with
      | none =>
        simp only [hbl, hgpp, hu]
        rw [getNode_root_irrel, getNode_setNode_ne _ hj1, getNode_setNode_ne _ hj2,
          getNode_updNode_ne _ hjb]
      | some gppn =>
        simp only [hbl, hgpp, hu]
        rw [getNode_root_irrel, getNode_setNode_ne _ hj1, getNode_setNode_ne _ hj2,
          getNode_setNode_ne _ hjg, getNode_updNode_ne _ hjb]

theorem rotateRight_pr_cell {t1 : RBTree} {gp pr : Nat} {gn pnn : Node}
    (hgn : getNode t1 gp = some gn) (hpn : getNode t1 pr = some pnn)
    (hne : ¬ pr = gp) :
    ∃ P, getNode (rotateRight t1 gp pr) pr =
      some { pnn with right := some gp, parent := P } := by
  have hlt : pr < t1.arena.length := lt_length_of_getNode hpn
  unfold rotateRight
  rw [hpn, hgn]
  cases hbl : pnn.right with
  | none =>
    cases hgpp : gn.parent with
    | none =>
      refine ⟨none, ?_⟩
      simp only [hbl, hgpp]
      rw [getNode_root_irrel, getNode_setNode_ne _ hne]
      exact getNode_setNode_self _ hlt
    | some w =>
      cases hu : getNode t1 w with
      | none =>
        refine ⟨pnn.parent, ?_⟩
        simp only [hbl, hgpp, hu]
        rw [getNode_root_irrel, getNode_setNode_ne _ hne]
        exact getNode_setNode_self _ hlt
      | some wn =>
        refine ⟨some w, ?_⟩
        simp only [hbl, hgpp, hu]
        rw [getNode_root_irrel, getNode_setNode_ne _ hne]
        exact getNode_setNode_self _ (by rw [length_setNode]; exact hlt)
  | some b =>
    cases hgpp : gn.parent with
    | none =>
      refine ⟨none, ?_⟩
      simp only [hbl, hgpp]
      rw [getNode_root_irrel, getNode_setNode_ne _ hne]
      exact getNode_setNode_self _ (by rw [length_updNode]; exact hlt)
    | some w =>
      cases hu : getNode (updNode t1 b fun nd => { nd with parent := some gp }) w with
      | none =>
        refine ⟨pnn.parent, ?_⟩
        simp only [hbl, hgpp, hu]
        rw [getNode_root_irrel, getNode_setNode_ne _ hne]
        exact getNode_setNode_self _ (by rw [length_updNode]; exact hlt)
      | some wn =>
        refine ⟨some w, ?_⟩
        simp only [hbl, hgpp, hu]
        rw [getNode_root_irrel, getNode_setNode_ne _ hne]
        exact getNode_setNode_self _ (by rw [length_setNode, length_updNode]; exact hlt)

theorem rotateRight_b_cell {t1 : RBTree} {gp pr b : Nat} {gn pnn bn : Node}
    (hgn : getNode t1 gp = some gn) (hpn : getNode t1 pr = some pnn)
    (hbl : pnn.right = some b) (hb : getNode t1 b = some bn)
    (hb1 : ¬ b = gp) (hb2 : ¬ b = pr) (hb4 : ¬ gn.parent = some b) :
    getNode (rotateRight t1 gp pr) b = some { bn with parent := some gp } := by
  unfold rotateRight
  rw [hpn, hgn]
  cases hgpp : gn.parent with
  | none =>
    simp only [hbl, hgpp]
    rw [getNode_root_irrel, getNode_setNode_ne _ hb1, getNode_setNode_ne _ hb2]
    exact getNode_updNode_self _ hb
  | some w =>
    have hbw : ¬ b = w := fun e => hb4 (by rw [hgpp, e])
    cases hu : getNode (updNode t1 b fun nd => { nd with parent := some gp }) w with
    | none =>
      simp only [hbl, hgpp, hu]
      rw [getNode_root_irrel, getNode_setNode_ne _ hb1, getNode_setNode_ne _ hb2]
      exact getNode_updNode_self _ hb
    | some wn =>
      simp only [hbl, hgpp, hu]
      rw [getNode_root_irrel, getNode_setNode_ne _ hb1, getNode_setNode_ne _ hb2,
        getNode_setNode_ne _ hbw]
      exact getNode_updNode_self _ hb

theorem rotateRight_gpp_cell {t1 : RBTree} {gp pr w : Nat} {gn pnn wn : Node}
    (hgn : getNode t1 gp = some gn) (hpn : getNode t1 pr = some pnn)
    (hw : gn.parent = some w) (hwn : getNode t1 w = some wn)
    (hw1 : ¬ w = gp) (hw2 : ¬ w = pr) (hwb : ¬ pnn.right = some w)
    (hwl : wn.left = some gp) (hwr : ¬ wn.right = some gp) :
    getNode (rotateRight t1 gp pr) w = some { wn with left := some pr } := by
  have hlt : w < t1.arena.length := lt_length_of_getNode hwn
  unfold rotateRight
  rw [hpn, hgn]
  cases hbl : pnn.right with
  | none =>
    simp only [hbl, hw, hwn, hwl, if_true]
    rw [if_neg hwr]
    rw [getNode_root_irrel, getNode_setNode_ne _ hw1, getNode_setNode_ne _ hw2]
    exact getNode_setNode_self _ hlt
  | some b =>
    have hbw : ¬ w = b := fun e => hwb (by rw [hbl, e])
    have hwn2 : getNode (updNode t1 b fun nd => { nd with parent := some gp }) w = some wn := by
      rw [getNode_updNode_ne _ hbw]
      exact hwn
    simp only [hbl, hw, hwn2, hwl, if_true]
    rw [if_neg hwr]
    rw [getNode_root_irrel, getNode_setNode_ne _ hw1, getNode_setNode_ne _ hw2]
    exact getNode_setNode_self _ (by rw [length_updNode]; exact hlt)

theorem rotateRight_gpp_cell_right {t1 : RBTree} {gp pr w : Nat} {gn pnn wn : Node}
    (hgn : getNode t1 gp = some gn) (hpn : getNode t1 pr = some pnn)
    (hw : gn.parent = some w) (hwn : getNode t1 w = some wn)
    (hw1 : ¬ w = gp) (hw2 : ¬ w = pr) (hwb : ¬ pnn.right = some w)
    (hwl : ¬ wn.left = some gp) (hwr : wn.right = some gp) :
    getNode (rotateRight t1 gp pr) w = some { wn with right := some pr } := by
  have hlt : w < t1.arena.length := lt_length_of_getNode hwn
  unfold rotateRight
  rw [hpn, hgn]
  cases hbl : pnn.right with
  | none =>
    simp only [hbl, hw, hwn]
    rw [if_neg hwl, if_pos hwr]
    rw [getNode_root_irrel, getNode_setNode_ne _ hw1, getNode_setNode_ne _ hw2]
    exact getNode_setNode_self _ hlt
  | some b =>
    have hbw : ¬ w = b := fun e => hwb (by rw [hbl, e])
    have hwn2 : getNode (updNode t1 b fun nd => { nd with parent := some gp }) w = some wn := by
      rw [getNode_updNode_ne _ hbw]
      exact hwn
    simp only [hbl, hw, hwn2]
    rw [if_neg hwl, if_pos hwr]
    rw [getNode_root_irrel, getNode_setNode_ne _ hw1, getNode_setNode_ne _ hw2]
    exact getNode_setNode_self _ (by rw [length_updNode]; exact hlt)

theorem rotateRight_links_pres {t1 : RBTree} {gp pr j : Nat} {gn pnn nj : Node}
    (hgn : getNode t1 gp = some gn) (hpn : getNode t1 pr = some pnn)
    (hj1 : ¬ j = gp) (hj2 : ¬ j = pr) (hj4 : ¬ gn.parent = some j)
    (hnj : getNode t1 j = some nj) :
    ∃ nj2, getNode (rotateRight t1 gp pr) j = some nj2 ∧
      nj2.left = nj.left ∧ nj2.right = nj.right := by
  by_cases hb : pnn.right = some j
  · exact ⟨{ nj with parent := some gp },
      rotateRight_b_cell hgn hpn hb hnj hj1 hj2 hj4, rfl, rfl⟩
  · refine ⟨nj, ?_, rfl, rfl⟩
    rw [rotateRight_frame hgn hpn hj1 hj2 hb hj4]
    exact hnj

theorem rotateRight_map_field {α : Type} (fld : Node → α)
    (hp : ∀ (m : Node) (x : Option Nat), fld { m with parent := x } = fld m)
    (hl : ∀ (m : Node) (x : Option Nat), fld { m with left := x } = fld m)
    (hrr : ∀ (m : Node) (x : Option Nat), fld { m with right := x } = fld m)
    (t : RBTree) (gp pr : Nat) :
    ∀ j, (getNode (rotateRight t gp pr) j).map fld = (getNode t j).map fld := by
  unfold rotateRight
  cases hpn : getNode t pr with
  | none => intro j; rfl
  | some pnn =>
    cases hgn : getNode t gp with
    | none => intro j; rfl
    | some gn =>
      have hbase : ∀ j, (getNode t j).map fld = (getNode t j).map fld := fun j => rfl
      cases hbl : pnn.right with
      | none =>
        cases hgpp : gn.parent with
        | none =>
          simp only [hbl, hgpp]
          intro j
          rw [getNode_root_irrel]
          refine map_field_write fld _ (map_field_write fld _ hbase hpn ?_) hgn ?_ j
          · exact (hrr { pnn with parent := none } (some gp)).trans (hp pnn none)
          · exact (hp { gn with left := none } (some pr)).trans (hl gn none)
        | some w =>
          cases hu : getNode t w with
          | none =>
            simp only [hbl, hgpp, hu]
            intro j
            rw [getNode_root_irrel]
            refine map_field_write fld _ (map_field_write fld _ hbase hpn ?_) hgn ?_ j
            · exact hrr pnn (some gp)
            · exact (hp { gn with left := none } (some pr)).trans (hl gn none)
          | some wn =>
            simp only [hbl, hgpp, hu]
            intro j
            rw [getNode_root_irrel]
            have hwn2 : fld (if (if wn.left = some gp then { wn with left := some pr }
                else wn).right = some gp then
                { (if wn.left = some gp then { wn with left := some pr } else wn) with
                  right := some pr }
                else if wn.left = some gp then { wn with left := some pr } else wn) = fld wn := by
              by_cases h1 : wn.left = some gp
              · simp only [if_pos h1]
                by_cases h2 : wn.right = some gp
                · simp only [if_pos h2]
                  exact (hrr { wn with left := some pr } (some pr)).trans (hl wn (some pr))
                · simp only [if_neg h2]
                  exact hl wn (some pr)
              · simp only [if_neg h1]
                by_cases h2 : wn.right = some gp
                · simp only [if_pos h2]
                  exact hrr wn (some pr)
                · simp only [if_neg h2]
            refine map_field_write fld _ (map_field_write fld _
              (map_field_write fld _ hbase hu hwn2) hpn ?_) hgn ?_ j
            · exact (hrr { pnn with parent := some w } (some gp)).trans (hp pnn (some w))
            · exact (hp { gn with left := none } (some pr)).trans (hl gn none)
      | some b =>
        have hupd : ∀ j, (getNode (updNode t b fun nd => { nd with parent := some gp }) j).map fld
            = (getNode t j).map fld :=
          map_field_updNode fld (fun m => hp m (some gp))
        cases hgpp : gn.parent with
        | none =>
          simp only [hbl, hgpp]
          intro j
          rw [getNode_root_irrel]
          refine map_field_write fld _ (map_field_write fld _ hupd hpn ?_) hgn ?_ j
          · exact (hrr { pnn with parent := none } (some gp)).trans (hp pnn none)
          · exact (hp { gn with left := some b } (some pr)).trans (hl gn (some b))
        | some w =>
          cases hu : getNode (updNode t b fun nd => { nd with parent := some gp }) w with
          | none =>
            simp only [hbl, hgpp, hu]
            intro j
            rw [getNode_root_irrel]
            refine map_field_write fld _ (map_field_write fld _ hupd hpn ?_) hgn ?_ j
            · exact hrr pnn (some gp)
            · exact (hp { gn with left := some b } (some pr)).trans (hl gn (some b))
          | some wn =>
            simp only [hbl, hgpp, hu]
            intro j
            rw [getNode_root_irrel]
            obtain ⟨mw, hmw, hfmw⟩ := map_field_some_inv fld
              (fun j => (hupd j).symm) (X := t) hu
            have hwn2 : fld (if (if wn.left = some gp then { wn with left := some pr }
                else wn).right = some gp then
                { (if wn.left = some gp then { wn with left := some pr } else wn) with
                  right := some pr }
                else if wn.left = some gp then { wn with left := some pr } else wn) = fld mw := by
              rw [hfmw]
              by_cases h1 : wn.left = some gp
              · simp only [if_pos h1]
                by_cases h2 : wn.right = some gp
                · simp only [if_pos h2]
                  exact (hrr { wn with left := some pr } (some pr)).trans (hl wn (some pr))
                · simp only [if_neg h2]
                  exact hl wn (some pr)
              · simp only [if_neg h1]
                by_cases h2 : wn.right = some gp
                · simp only [if_pos h2]
                  exact hrr wn (some pr)
                · simp only [if_neg h2]
            refine map_field_write fld _ (map_field_write fld _
              (map_field_write fld _ hupd hmw hwn2) hpn ?_) hgn ?_ j
            · exact (hrr { pnn with parent := some w } (some gp)).trans (hp pnn (some w))
            · exact (hp { gn with left := some b } (some pr)).trans (hl gn (some b))

theorem rotateRight_keyD (t : RBTree) (gp pr : Nat) :
    ∀ j, keyD (rotateRight t gp pr) j = keyD t j := by
  intro j
  have h := rotateRight_map_field Node.key (fun m x => rfl) (fun m x => rfl) (fun m x => rfl)
    t gp pr j
  unfold keyD
  cases hx : getNode (rotateRight t gp pr) j <;> cases hy : getNode t j <;>
    rw [hx, hy] at h <;> simpa using h

theorem rotateRight_colorD (t : RBTree) (gp pr : Nat) :
    ∀ j, colorD (rotateRight t gp pr) j = colorD t j := by
  intro j
  have h := rotateRight_map_field Node.color (fun m x => rfl) (fun m x => rfl) (fun m x => rfl)
    t gp pr j
  unfold colorD
  cases hx : getNode (rotateRight t gp pr) j <;> cases hy : getNode t j <;>
    rw [hx, hy] at h <;> simpa using h

theorem gp_subtree_members_r {t : RBTree} {gp pr : Nat} {gn pnn : Node}
    (hgn : getNode t gp = some gn) (hpn : getNode t pr = some pnn)
    (hgl : gn.left = some pr) :
    ∀ {f : Nat} {Mg : List Nat}, idsAux t f (some gp) = some Mg →
      pr ∈ Mg ∧ ∀ j, pnn.right = some j → j ∈ Mg := by
  intro f Mg hMg
  cases f with
  | zero => exact absurd hMg idsAux_zero_some
  | succ f =>
    obtain ⟨n, lg, rg, hget, hlg, hrg, hMeq⟩ := idsAux_some_inv hMg
    rw [hgn] at hget
    injection hget with he
    subst he
    rw [hgl] at hlg
    cases f with
    | zero => exact absurd hlg idsAux_zero_some
    | succ f =>
      obtain ⟨p0, lp, rp, hpget, hlp, hrp, hlgeq⟩ := idsAux_some_inv hlg
      rw [hpn] at hpget
      injection hpget with he
      subst he
      subst hlgeq
      subst hMeq
      refine ⟨by simp, ?_⟩
      intro j hj
      rw [hj] at hrp
      have hmem := idsAux_self_mem hrp
      simp [hmem]

theorem rotateRight_local {t : RBTree} {gp pr : Nat} {gn pnn : Node}
    (hgn : getNode t gp = some gn) (hpn : getNode t pr = some pnn)
    (hgl : gn.left = some pr) :
    ∀ {f : Nat} {Mg : List Nat}, idsAux t f (some gp) = some Mg → Mg.Nodup →
      (∀ j, gn.parent = some j → ¬ j ∈ Mg) →
      idsAux (rotateRight t gp pr) (Mg.length + 1) (some pr) = some Mg := by
  intro f Mg hMg hnd hgpp
  cases f with
  | zero => exact absurd hMg idsAux_zero_some
  | succ f =>
    obtain ⟨n, lg, rg, hget, hlg, hrg, hMeq⟩ := idsAux_some_inv hMg
    rw [hgn] at hget
    injection hget with he
    subst he
    rw [hgl] at hlg
    cases f with
    | zero => exact absurd hlg idsAux_zero_some
    | succ f =>
      obtain ⟨p0, lp, rp, hpget, hlp, hrp, hlgeq⟩ := idsAux_some_inv hlg
      rw [hpn] at hpget
      injection hpget with he
      subst he
      subst hlgeq
      subst hMeq
      obtain ⟨ndrest, ndrg, hgp_rest, hgp_rg, hdisj1⟩ := nodup_split hnd
      obtain ⟨ndlp, ndrp, hpr_lp, hpr_rp, hdisj2⟩ := nodup_split ndrest
      have hpr_mem_rest : pr ∈ lp ++ pr :: rp := by simp
      have hne : ¬ gp = pr := fun e => hgp_rest (by rw [e]; exact hpr_mem_rest)
      have hnepr : ¬ pr = gp := fun e => hne e.symm
      have hext : ∀ {f0 : Nat} {c : Option Nat} {L0 : List Nat},
          idsAux t f0 c = some L0 →
          (∀ j ∈ L0, ¬ j = gp ∧ ¬ j = pr ∧ ¬ gn.parent = some j) →
          idsAux (rotateRight t gp pr) f0 c = some L0 := by
        intro f0 c L0 h0 hside
        refine idsAux_ext h0 ?_
        intro j hj
        obtain ⟨hj1, hj2, hj4⟩ := hside j hj
        obtain ⟨nj, hnj⟩ := Option.isSome_iff_exists.mp (idsAux_mem_isSome h0 j hj)
        obtain ⟨nj2, hnj2, hLp, hRp⟩ := rotateRight_links_pres hgn hpn hj1 hj2 hj4 hnj
        exact ⟨nj, nj2, hnj, hnj2, hLp, hRp⟩
      have hmemlp : ∀ j ∈ lp, j ∈ (lp ++ pr :: rp) ++ gp :: rg := by
        intro j hj; simp [hj]
      have hmemrp : ∀ j ∈ rp, j ∈ (lp ++ pr :: rp) ++ gp :: rg := by
        intro j hj; simp [hj]
      have hmemrg : ∀ j ∈ rg, j ∈ (lp ++ pr :: rp) ++ gp :: rg := by
        intro j hj; simp [hj]
      have h_rg : idsAux (rotateRight t gp pr) (f + 1) gn.right = some rg := by
        refine hext hrg ?_
        intro j hj
        refine ⟨fun e => hgp_rg (by rw [← e]; exact hj), ?_, fun e => hgpp j e (hmemrg j hj)⟩
        intro e
        exact hdisj1 pr hpr_mem_rest (by rw [← e]; exact hj)
      have h_lp : idsAux (rotateRight t gp pr) f pnn.left = some lp := by
        refine hext hlp ?_
        intro j hj
        refine ⟨?_, fun e => hpr_lp (by rw [← e]; exact hj), fun e => hgpp j e (hmemlp j hj)⟩
        intro e
        exact hgp_rest (by rw [← e]; simp [hj])
      have h_rp : idsAux (rotateRight t gp pr) f pnn.right = some rp := by
        refine hext hrp ?_
        intro j hj
        refine ⟨?_, fun e => hpr_rp (by rw [← e]; exact hj), fun e => hgpp j e (hmemrp j hj)⟩
        intro e
        exact hgp_rest (by rw [← e]; simp [hj])
      have hgpc := rotateRight_gp_cell hgn hpn hne
      obtain ⟨P, hprc⟩ := rotateRight_pr_cell hgn hpn hnepr
      have hgp2 : idsAux (rotateRight t gp pr) ((rp.length + rg.length + 1) + 1) (some gp)
          = some (rp ++ gp :: rg) := by
        have h1 : idsAux (rotateRight t gp pr) (rp.length + rg.length + 1) pnn.right = some rp :=
          idsAux_fuel_any h_rp (by omega)
        have h2 : idsAux (rotateRight t gp pr) (rp.length + rg.length + 1) gn.right = some rg :=
          idsAux_fuel_any h_rg (by omega)
        simp only [idsAux, hgpc, h1, h2]
      have hA : idsAux (rotateRight t gp pr) (((lp ++ pr :: rp) ++ gp :: rg).length) pnn.left
          = some lp := by
        refine idsAux_fuel_any h_lp ?_
        simp
      have hB : idsAux (rotateRight t gp pr) (((lp ++ pr :: rp) ++ gp :: rg).length) (some gp)
          = some (rp ++ gp :: rg) := by
        refine idsAux_fuel_any hgp2 ?_
        simp
      simp only [idsAux, hprc, hA, hB]
      simp

theorem rotateRight_main {t : RBTree} {gp pr : Nat} {gn pnn : Node}
    (hgn : getNode t gp = some gn) (hpn : getNode t pr = some pnn)
    (hgl : gn.left = some pr)
    (hlive : gn.parent = none ∨ ∃ w, gn.parent = some w ∧ (getNode t w).isSome = true) :
    ∀ {f : Nat} {cur expp : Option Nat} {M : List Nat},
      idsAux t f cur = some M → parentLinksOk t f cur expp = true → M.Nodup →
      (∀ e, expp = some e → ¬ e ∈ M) → ¬ cur = some gp → gp ∈ M →
      idsAux (rotateRight t gp pr) (M.length + 1) cur = some M := by
  intro f
  induction f with
  | zero =>
    intro cur expp M h _ _ _ _ hgpM
    cases cur with
    | none =>
      simp only [idsAux] at h
      cases h
      simp at hgpM
    | some i => exact absurd h idsAux_zero_some
  | succ f ih =>
    intro cur expp M h hpok hnd _hexp hcur hgpM
    cases cur with
    | none =>
      simp only [idsAux] at h
      cases h
      simp at hgpM
    | some i =>
      obtain ⟨n, l, r, hg, hl, hr, hM⟩ := idsAux_some_inv h
      obtain ⟨n0, hg0, _hup, hpl, hpr2⟩ := parentLinksOk_some_inv hpok
      rw [hg] at hg0
      injection hg0 with he
      subst he
      subst hM
      have hine : ¬ i = gp := fun e => hcur (by rw [e])
      obtain ⟨ndl, ndr, hi_l, hi_r, hdisj⟩ := nodup_split hnd
      rcases List.mem_append.mp hgpM with hgpl | hgpir
      · -- gp lies in the left child's subtree
        have hgp_nr : ¬ gp ∈ r := fun hh => hdisj gp hgpl hh
        obtain ⟨fg, Mgs, hMgs, hsub⟩ := idsAux_descend hl hgpl
        obtain ⟨hprMg, hbMg⟩ := gp_subtree_members_r hgn hpn hgl hMgs
        have hpr_l : pr ∈ l := hsub.subset hprMg
        have hb_l : ∀ j, pnn.right = some j → j ∈ l := fun j hj => hsub.subset (hbMg j hj)
        have hpr_nr : ¬ pr ∈ r := fun hh => hdisj pr hpr_l hh
        have hipr : ¬ i = pr := fun e => hi_l (by rw [e]; exact hpr_l)
        have hrext : ∀ hh4 : ¬ gn.parent = some i → True, (∀ j ∈ r, ¬ gn.parent = some j) →
            idsAux (rotateRight t gp pr) f n.right = some r := by
          intro _ hj4s
          refine idsAux_ext hr ?_
          intro j hj
          have hj1 : ¬ j = gp := fun e => hgp_nr (by rw [← e]; exact hj)
          have hj2 : ¬ j = pr := fun e => hpr_nr (by rw [← e]; exact hj)
          obtain ⟨nj, hnj⟩ := Option.isSome_iff_exists.mp (idsAux_mem_isSome hr j hj)
          obtain ⟨nj2, hnj2, hLp, hRp⟩ :=
            rotateRight_links_pres hgn hpn hj1 hj2 (hj4s j hj) hnj
          exact ⟨nj, nj2, hnj, hnj2, hLp, hRp⟩
        by_cases hleft : n.left = some gp
        · -- the current node is gp's parent: dispatch to the local lemma
          rw [hleft] at hl hpl
          have hf1 : ∃ f2, f = f2 + 1 := by
            cases f with
            | zero => exact absurd hl idsAux_zero_some
            | succ f2 => exact ⟨f2, rfl⟩
          obtain ⟨f2, rfl⟩ := hf1
          obtain ⟨gn0, hgn0, hupg, _, _⟩ := parentLinksOk_some_inv hpl
          rw [hgn] at hgn0
          injection hgn0 with he
          subst he
          have hpargp : gn.parent = some i := by
            rcases hlive with hnone | ⟨w, hw, hwlive⟩
            · rw [hnone] at hupg
              simp [upgradeLink] at hupg
            · obtain ⟨wn, hwn⟩ := Option.isSome_iff_exists.mp hwlive
              rw [hw] at hupg
              simp only [upgradeLink, hwn] at hupg
              rw [hw, hupg]
          have hloc := rotateRight_local hgn hpn hgl hl ndl (by
            intro j hj hjl
            rw [hpargp] at hj
            injection hj with he
            exact hi_l (by rw [he]; exact hjl))
          have hn_r : ¬ n.right = some gp := by
            intro hh
            rw [hh] at hr
            exact hgp_nr (idsAux_self_mem hr)
          have hbi : ¬ pnn.right = some i := fun hh => hi_l (hb_l i hh)
          have hcell := rotateRight_gpp_cell hgn hpn hpargp hg hine hipr hbi hleft hn_r
          have hr2 : idsAux (rotateRight t gp pr) (f2 + 1) n.right = some r := by
            refine hrext (fun _ => trivial) ?_
            intro j hj
            rw [hpargp]
            intro hh
            injection hh with he
            exact hi_r (by rw [he]; exact hj)
          have hA2 : idsAux (rotateRight t gp pr) ((l ++ i :: r).length) (some pr) = some l := by
            refine idsAux_fuel_any hloc ?_
            simp
          have hB2 : idsAux (rotateRight t gp pr) ((l ++ i :: r).length) n.right = some r := by
            refine idsAux_fuel_any hr2 ?_
            simp
          simp only [idsAux, hcell, hA2, hB2]
        · -- recurse into the left child
          rcases pok_parent_mem hl hpl gp hgpl gn hgn with ⟨hceq, _⟩ | ⟨w, hwl, hupw⟩
          · exact absurd hceq hleft
          · have hparw : gn.parent = some w := by
              rcases hlive with hnone | ⟨e, hee, helive⟩
              · rw [hnone] at hupw
                simp [upgradeLink] at hupw
              · obtain ⟨en, hen⟩ := Option.isSome_iff_exists.mp helive
                rw [hee] at hupw
                simp only [upgradeLink, hen] at hupw
                rw [hee, hupw]
            have hwi : ¬ gn.parent = some i := by
              rw [hparw]
              intro hh
              injection hh with he
              exact hi_l (by rw [← he]; exact hwl)
            obtain ⟨n2, hcell, hL, hR⟩ := rotateRight_links_pres hgn hpn hine hipr hwi hg
            have hlw : idsAux (rotateRight t gp pr) (l.length + 1) n.left = some l := by
              refine ih hl hpl ndl ?_ hleft hgpl
              intro e he
              injection he with h2
              rw [← h2]
              exact hi_l
            have hr2 : idsAux (rotateRight t gp pr) f n.right = some r := by
              refine hrext (fun _ => trivial) ?_
              intro j hj
              rw [hparw]
              intro hh
              injection hh with he
              exact hdisj w hwl (by rw [he]; exact hj)
            have hA2 : idsAux (rotateRight t gp pr) ((l ++ i :: r).length) n.left = some l := by
              refine idsAux_fuel_any hlw ?_
              simp
            have hB2 : idsAux (rotateRight t gp pr) ((l ++ i :: r).length) n.right = some r := by
              refine idsAux_fuel_any hr2 ?_
              simp
            simp only [idsAux, hcell, hL, hR, hA2, hB2]
      · rcases List.mem_cons.mp hgpir with hgpe | hgpr
        · exact absurd hgpe.symm hine
        · -- gp lies in the right child's subtree
          have hgp_nl : ¬ gp ∈ l := fun hh => hdisj gp hh hgpr
          obtain ⟨fg, Mgs, hMgs, hsub⟩ := idsAux_descend hr hgpr
          obtain ⟨hprMg, hbMg⟩ := gp_subtree_members_r hgn hpn hgl hMgs
          have hpr_r : pr ∈ r := hsub.subset hprMg
          have hb_r : ∀ j, pnn.right = some j → j ∈ r := fun j hj => hsub.subset (hbMg j hj)
          have hpr_nl : ¬ pr ∈ l := fun hh => hdisj pr hh hpr_r
          have hipr : ¬ i = pr := fun e => hi_r (by rw [e]; exact hpr_r)
          have hlext : (∀ j ∈ l, ¬ gn.parent = some j) →
              idsAux (rotateRight t gp pr) f n.left = some l := by
            intro hj4s
            refine idsAux_ext hl ?_
            intro j hj
            have hj1 : ¬ j = gp := fun e => hgp_nl (by rw [← e]; exact hj)
            have hj2 : ¬ j = pr := fun e => hpr_nl (by rw [← e]; exact hj)
            obtain ⟨nj, hnj⟩ := Option.isSome_iff_exists.mp (idsAux_mem_isSome hl j hj)
            obtain ⟨nj2, hnj2, hLp, hRp⟩ :=
              rotateRight_links_pres hgn hpn hj1 hj2 (hj4s j hj) hnj
            exact ⟨nj, nj2, hnj, hnj2, hLp, hRp⟩
          by_cases hright : n.right = some gp
          · -- the current node is gp's parent on the right: dispatch to the local lemma
            rw [hright] at hr hpr2
            have hf1 : ∃ f2, f = f2 + 1 := by
              cases f with
              | zero => exact absurd hr idsAux_zero_some
              | succ f2 => exact ⟨f2, rfl⟩
            obtain ⟨f2, rfl⟩ := hf1
            obtain ⟨gn0, hgn0, hupg, _, _⟩ := parentLinksOk_some_inv hpr2
            rw [hgn] at hgn0
            injection hgn0 with he
            subst he
            have hpargp : gn.parent = some i := by
              rcases hlive with hnone | ⟨w, hw, hwlive⟩
              · rw [hnone] at hupg
                simp [upgradeLink] at hupg
              · obtain ⟨wn, hwn⟩ := Option.isSome_iff_exists.mp hwlive
                rw [hw] at hupg
                simp only [upgradeLink, hwn] at hupg
                rw [hw, hupg]
            have hloc := rotateRight_local hgn hpn hgl hr ndr (by
              intro j hj hjr
              rw [hpargp] at hj
              injection hj with he
              exact hi_r (by rw [he]; exact hjr))
            have hn_l : ¬ n.left = some gp := by
              intro hh
              rw [hh] at hl
              exact hgp_nl (idsAux_self_mem hl)
            have hbi : ¬ pnn.right = some i := fun hh => hi_r (hb_r i hh)
            have hcell := rotateRight_gpp_cell_right hgn hpn hpargp hg hine hipr hbi hn_l hright
            have hl2 : idsAux (rotateRight t gp pr) (f2 + 1) n.left = some l := by
              refine hlext ?_
              intro j hj
              rw [hpargp]
              intro hh
              injection hh with he
              exact hi_l (by rw [he]; exact hj)
            have hA2 : idsAux (rotateRight t gp pr) ((l ++ i :: r).length) n.left = some l := by
              refine idsAux_fuel_any hl2 ?_
              simp
            have hB2 : idsAux (rotateRight t gp pr) ((l ++ i :: r).length) (some pr) = some r := by
              refine idsAux_fuel_any hloc ?_
              simp
            simp only [idsAux, hcell, hA2, hB2]
          · -- recurse into the right child
            rcases pok_parent_mem hr hpr2 gp hgpr gn hgn with ⟨hceq, _⟩ | ⟨w, hwr, hupw⟩
            · exact absurd hceq hright
            · have hparw : gn.parent = some w := by
                rcases hlive with hnone | ⟨e, hee, helive⟩
                · rw [hnone] at hupw
                  simp [upgradeLink] at hupw
                · obtain ⟨en, hen⟩ := Option.isSome_iff_exists.mp helive
                  rw [hee] at hupw
                  simp only [upgradeLink, hen] at hupw
                  rw [hee, hupw]
              have hwi : ¬ gn.parent = some i := by
                rw [hparw]
                intro hh
                injection hh with he
                exact hi_r (by rw [← he]; exact hwr)
              obtain ⟨n2, hcell, hL, hR⟩ := rotateRight_links_pres hgn hpn hine hipr hwi hg
              have hrw : idsAux (rotateRight t gp pr) (r.length + 1) n.right = some r := by
                refine ih hr hpr2 ndr ?_ hright hgpr
                intro e he
                injection he with h2
                rw [← h2]
                exact hi_r
              have hl2 : idsAux (rotateRight t gp pr) f n.left = some l := by
                refine hlext ?_
                intro j hj
                rw [hparw]
                intro hh
                injection hh with he
                exact hdisj j hj (by rw [← he]; exact hwr)
              have hA2 : idsAux (rotateRight t gp pr) ((l ++ i :: r).length) n.left = some l := by
                refine idsAux_fuel_any hl2 ?_
                simp
              have hB2 : idsAux (rotateRight t gp pr) ((l ++ i :: r).length) n.right = some r := by
                refine idsAux_fuel_any hrw ?_
                simp
              simp only [idsAux, hcell, hL, hR, hA2, hB2]

theorem rotateRight_reachIds {t : RBTree} {gp pr : Nat} {gn pnn : Node} {ids : List Nat}
    (hids : reachIds t = some ids)
    (hpok : parentLinksOk t (t.arena.length + 1) t.root none = true)
    (hnd : ids.Nodup) (hgp : gp ∈ ids)
    (hgn : getNode t gp = some gn) (hpn : getNode t pr = some pnn)
    (hgl : gn.left = some pr)
    (hlive : gn.parent = none ∨ ∃ w, gn.parent = some w ∧ (getNode t w).isSome = true) :
    reachIds (rotateRight t gp pr) = some ids := by
  unfold reachIds at hids ⊢
  rw [rotateRight_length]
  by_cases hroot : t.root = some gp
  · rw [hroot] at hids hpok
    obtain ⟨gn0, hgn0, hupg, _, _⟩ := parentLinksOk_some_inv hpok
    rw [hgn] at hgn0
    injection hgn0 with he
    subst he
    have hparnone : gn.parent = none := by
      rcases hlive with h0 | ⟨w, hw, hwlive⟩
      · exact h0
      · obtain ⟨wn, hwn⟩ := Option.isSome_iff_exists.mp hwlive
        rw [hw] at hupg
        simp [upgradeLink, hwn] at hupg
    rw [rotateRight_root_of_parent_none hgn hpn hparnone]
    have hloc := rotateRight_local hgn hpn hgl hids hnd (by
      intro j hj
      rw [hparnone] at hj
      exact absurd hj (by simp))
    refine idsAux_fuel_any hloc ?_
    have := nodup_ids_length_le hids hnd
    omega
  · have hparw : ∃ w, gn.parent = some w ∧ (getNode t w).isSome = true := by
      rcases hlive with h0 | hw
      · exfalso
        rcases pok_parent_mem hids hpok gp hgp gn hgn with ⟨hceq, _⟩ | ⟨w, _, hupw⟩
        · exact hroot hceq
        · rw [h0] at hupw
          simp [upgradeLink] at hupw
      · exact hw
    obtain ⟨w, hw, hwl⟩ := hparw
    rw [rotateRight_root_of_parent_live hgn hpn hw hwl]
    have hmain := rotateRight_main hgn hpn hgl hlive hids hpok hnd
      (fun e he => by simp at he) hroot hgp
    refine idsAux_fuel_any hmain ?_
    have := nodup_ids_length_le hids hnd
    omega

theorem idsAux_unique {t : RBTree} {f1 f2 : Nat} {c : Option Nat} {M1 M2 : List Nat}
    (h1 : idsAux t f1 c = some M1) (h2 : idsAux t f2 c = some M2) : M1 = M2 := by
  have g1 := idsAux_fuel_any h1 (g := M1.length + M2.length + 2) (by omega)
  have g2 := idsAux_fuel_any h2 (g := M1.length + M2.length + 2) (by omega)
  exact Option.some_injective _ (g1.symm.trans g2)

theorem parent_outside_subtree {t : RBTree} {gp : Nat} {gn : Node}
    (hgn : getNode t gp = some gn) :
    ∀ {f : Nat} {cur expp : Option Nat} {M : List Nat},
      idsAux t f cur = some M → parentLinksOk t f cur expp = true → M.Nodup →
      (∀ e, expp = some e → ¬ e ∈ M) → gp ∈ M →
      ∀ {fg : Nat} {Mg : List Nat}, idsAux t fg (some gp) = some Mg →
      ∀ e, upgradeLink t gn.parent = some e → ¬ e ∈ Mg := by
  intro f
  induction f with
  | zero =>
    intro cur expp M h _ _ _ hgpM
    cases cur with
    | none =>
      simp only [idsAux] at h
      cases h
      simp at hgpM
    | some i => exact absurd h idsAux_zero_some
  | succ f ih =>
    intro cur expp M h hpok hnd hexp hgpM fg Mg hMg e hup
    cases cur with
    | none =>
      simp only [idsAux] at h
      cases h
      simp at hgpM
    | some i =>
      obtain ⟨n, l, r, hg, hl, hr, hM⟩ := idsAux_some_inv h
      obtain ⟨n0, hg0, hupq, hpl, hpr2⟩ := parentLinksOk_some_inv hpok
      rw [hg] at hg0
      injection hg0 with he2
      subst he2
      subst hM
      obtain ⟨ndl, ndr, hi_l, hi_r, hdisj⟩ := nodup_split hnd
      by_cases hi : i = gp
      · subst hi
        rw [hgn] at hg
        injection hg with he2
        subst he2
        rw [hup] at hupq
        have heq : Mg = l ++ i :: r := idsAux_unique hMg h
        rw [heq]
        exact hexp e hupq.symm
      · rcases List.mem_append.mp hgpM with hgpl | hgpir
        · refine ih hl hpl ndl ?_ hgpl hMg e hup
          intro e2 he2
          injection he2 with he3
          rw [← he3]
          exact hi_l
        · rcases List.mem_cons.mp hgpir with hgpe | hgpr
          · exact absurd hgpe.symm hi
          · refine ih hr hpr2 ndr ?_ hgpr hMg e hup
            intro e2 he2
            injection he2 with he3
            rw [← he3]
            exact hi_r

theorem rotateLeft_pr_cell_live {t1 : RBTree} {gp pr : Nat} {gn pnn : Node}
    (hgn : getNode t1 gp = some gn) (hpn : getNode t1 pr = some pnn)
    (hne : ¬ pr = gp)
    (hlive : gn.parent = none ∨ ∃ w, gn.parent = some w ∧ (getNode t1 w).isSome = true) :
    getNode (rotateLeft t1 gp pr) pr =
      some { pnn with left := some gp, parent := gn.parent } := by
  have hlt : pr < t1.arena.length := lt_length_of_getNode hpn
  unfold rotateLeft
  rw [hpn, hgn]
  cases hbl : pnn.left with
  | none =>
    rcases hlive with h0 | ⟨w, hw, hwl⟩
    · simp only [hbl, h0]
      rw [getNode_root_irrel, getNode_setNode_ne _ hne]
      exact getNode_setNode_self _ hlt
    · obtain ⟨wn, hwn⟩ := Option.isSome_iff_exists.mp hwl
      simp only [hbl, hw, hwn]
      rw [getNode_root_irrel, getNode_setNode_ne _ hne]
      exact getNode_setNode_self _ (by rw [length_setNode]; exact hlt)
  | some b =>
    rcases hlive with h0 | ⟨w, hw, hwl⟩
    · simp only [hbl, h0]
      rw [getNode_root_irrel, getNode_setNode_ne _ hne]
      exact getNode_setNode_self _ (by rw [length_updNode]; exact hlt)
    · have hwl2 : (getNode (updNode t1 b fun nd => { nd with parent := some gp }) w).isSome
          = true := isSome_getNode_updNode _ hwl
      obtain ⟨wn, hwn⟩ := Option.isSome_iff_exists.mp hwl2
      simp only [hbl, hw, hwn]
      rw [getNode_root_irrel, getNode_setNode_ne _ hne]
      exact getNode_setNode_self _ (by rw [length_setNode, length_updNode]; exact hlt)

theorem rotateRight_pr_cell_live {t1 : RBTree} {gp pr : Nat} {gn pnn : Node}
    (hgn : getNode t1 gp = some gn) (hpn : getNode t1 pr = some pnn)
    (hne : ¬ pr = gp)
    (hlive : gn.parent = none ∨ ∃ w, gn.parent = some w ∧ (getNode t1 w).isSome = true) :
    getNode (rotateRight t1 gp pr) pr =
      some { pnn with right := some gp, parent := gn.parent } := by
  have hlt : pr < t1.arena.length := lt_length_of_getNode hpn
  unfold rotateRight
  rw [hpn, hgn]
  cases hbl : pnn.right with
  | none =>
    rcases hlive with h0 | ⟨w, hw, hwl⟩
    · simp only [hbl, h0]
      rw [getNode_root_irrel, getNode_setNode_ne _ hne]
      exact getNode_setNode_self _ hlt
    · obtain ⟨wn, hwn⟩ := Option.isSome_iff_exists.mp hwl
      simp only [hbl, hw, hwn]
      rw [getNode_root_irrel, getNode_setNode_ne _ hne]
      exact getNode_setNode_self _ (by rw [length_setNode]; exact hlt)
  | some b =>
    rcases hlive with h0 | ⟨w, hw, hwl⟩
    · simp only [hbl, h0]
      rw [getNode_root_irrel, getNode_setNode_ne _ hne]
      exact getNode_setNode_self _ (by rw [length_updNode]; exact hlt)
    · have hwl2 : (getNode (updNode t1 b fun nd => { nd with parent := some gp }) w).isSome
          = true := isSome_getNode_updNode _ hwl
      obtain ⟨wn, hwn⟩ := Option.isSome_iff_exists.mp hwl2
      simp only [hbl, hw, hwn]
      rw [getNode_root_irrel, getNode_setNode_ne _ hne]
      exact getNode_setNode_self _ (by rw [length_setNode, length_updNode]; exact hlt)

/-- C4 fails as stated on the code: the tree `tC4bad` satisfies every
red-black invariant of the specification (`wf`), node 1 is a grandparent
whose right child is node 2, yet `rotate_left(1, 2)` changes the in-order
key sequence from `[20, 30]` to `[20]` and loses node 2 from the
reachable set: node 1's parent back-link is a dangling weak reference
(the state `delete` leaves at the root after removing a one-child root),
so `rotate_left` silently skips the `self.root` update. -/
theorem c4_rotation_changes_inorder :
    wf tC4bad = true ∧
    (∃ gn, getNode tC4bad 1 = some gn ∧ gn.right = some 2) ∧
    Option.map STree.inorder (toTree tC4bad) = some [20, 30] ∧
    Option.map STree.inorder (toTree (rotateLeft tC4bad 1 2)) = some [20] ∧
    reachIds tC4bad = some [1, 2] ∧
    reachIds (rotateLeft tC4bad 1 2) = some [1] := by
  exact ⟨by decide, ⟨_, rfl, rfl⟩, by decide, by decide, by decide, by decide⟩

/-- C4 amended: for a tree satisfying the red-black invariants in which
the grandparent cell is reachable and its parent back-link is nothing or
points to a live cell (the dangling-link state of `tC4bad` being the one
exception, reachable through delete's one-child root case), `rotate_left`
and `rotate_right` behave exactly as claimed: the parent is promoted into
the grandparent's position (taking over its parent link, with the
grandparent's old parent cell re-pointed at it through `reachIds`
preservation), the parent's inner child is re-attached as the
grandparent's child on the rotation side, the three affected parent
back-links are updated, the parent becomes the new root exactly when the
grandparent had no parent, and the reachable id sequence, every key,
every color and hence the in-order key sequence are unchanged. -/
theorem c4_rotations_preserve_structure (t : RBTree) (gp pr : Nat) (gn pnn : Node)
    (ids : List Nat)
    (hids : reachIds t = some ids)
    (hpok : parentLinksOk t (t.arena.length + 1) t.root none = true)
    (hnd : ids.Nodup) (hgp : gp ∈ ids)
    (hgn : getNode t gp = some gn) (hpn : getNode t pr = some pnn)
    (hlive : gn.parent = none ∨ ∃ w, gn.parent = some w ∧ (getNode t w).isSome = true) :
    (gn.right = some pr →
      reachIds (rotateLeft t gp pr) = some ids ∧
      (∀ j, keyD (rotateLeft t gp pr) j = keyD t j) ∧
      (∀ j, colorD (rotateLeft t gp pr) j = colorD t j) ∧
      getNode (rotateLeft t gp pr) gp = some { gn with right := pnn.left, parent := some pr } ∧
      getNode (rotateLeft t gp pr) pr = some { pnn with left := some gp, parent := gn.parent } ∧
      (∀ b bn, pnn.left = some b → getNode t b = some bn →
        getNode (rotateLeft t gp pr) b = some { bn with parent := some gp }) ∧
      (gn.parent = none → (rotateLeft t gp pr).root = some pr) ∧
      (gn.parent ≠ none → (rotateLeft t gp pr).root = t.root) ∧
      (∃ s s2, toTree t = some s ∧ toTree (rotateLeft t gp pr) = some s2 ∧
        s2.inorder = s.inorder)) ∧
    (gn.left = some pr →
      reachIds (rotateRight t gp pr) = some ids ∧
      (∀ j, keyD (rotateRight t gp pr) j = keyD t j) ∧
      (∀ j, colorD (rotateRight t gp pr) j = colorD t j) ∧
      getNode (rotateRight t gp pr) gp = some { gn with left := pnn.right, parent := some pr } ∧
      getNode (rotateRight t gp pr) pr = some { pnn with right := some gp, parent := gn.parent } ∧
      (∀ b bn, pnn.right = some b → getNode t b = some bn →
        getNode (rotateRight t gp pr) b = some { bn with parent := some gp }) ∧
      (gn.parent = none → (rotateRight t gp pr).root = some pr) ∧
      (gn.parent ≠ none → (rotateRight t gp pr).root = t.root) ∧
      (∃ s s2, toTree t = some s ∧ toTree (rotateRight t gp pr) = some s2 ∧
        s2.inorder = s.inorder)) := by
  have hids0 : idsAux t (t.arena.length + 1) t.root = some ids := hids
  obtain ⟨fg, Mg, hMg, hsub⟩ := idsAux_descend hids0 hgp
  have hndMg : Mg.Nodup := hnd.sublist hsub
  have hout : ∀ e, gn.parent = some e → ¬ e ∈ Mg := by
    rcases hlive with h0 | ⟨w, hw, hwl⟩
    · intro e he
      rw [h0] at he
      cases he
    · intro e he
      rw [hw] at he
      injection he with he2
      subst he2
      obtain ⟨wn, hwn⟩ := Option.isSome_iff_exists.mp hwl
      have hupw : upgradeLink t gn.parent = some w := by
        simp [upgradeLink, hw, hwn]
      exact parent_outside_subtree hgn hids0 hpok hnd (fun e2 he2 => by simp at he2)
        hgp hMg w hupw
  constructor
  · intro hgr
    -- dissect the subtree of gp: Mg = lg ++ gp :: (lp ++ pr :: rp)
    rcases fg with _ | fg
    · exact absurd hMg idsAux_zero_some
    obtain ⟨n1, lg, rg, hget1, hlg, hrg, hMeq⟩ := idsAux_some_inv hMg
    rw [hgn] at hget1
    injection hget1 with he1
    subst he1
    rw [hgr] at hrg
    rcases fg with _ | fg
    · exact absurd hrg idsAux_zero_some
    obtain ⟨p1, lp, rp, hpget, hlp, hrp, hrgeq⟩ := idsAux_some_inv hrg
    rw [hpn] at hpget
    injection hpget with he1
    subst he1
    subst hrgeq
    subst hMeq
    obtain ⟨ndlg, ndrest, hgp_lg, hgp_rest, hdisj1⟩ := nodup_split hndMg
    obtain ⟨ndlp, ndrp, hpr_lp, hpr_rp, hdisj2⟩ := nodup_split ndrest
    have hpr_rest : pr ∈ lp ++ pr :: rp := by simp
    have hne : ¬ gp = pr := fun e => hgp_rest (by rw [e]; exact hpr_rest)
    have hnepr : ¬ pr = gp := fun e => hne e.symm
    have hreach := rotateLeft_reachIds hids hpok hnd hgp hgn hpn hgr hlive
    refine ⟨hreach, rotateLeft_keyD t gp pr, rotateLeft_colorD t gp pr,
      rotateLeft_gp_cell hgn hpn hne, rotateLeft_pr_cell_live hgn hpn hnepr hlive,
      ?_, rotateLeft_root_of_parent_none hgn hpn, ?_, ?_⟩
    · intro b bn hbdef hbn
      have hb_lp : b ∈ lp := by
        rw [hbdef] at hlp
        exact idsAux_self_mem hlp
      have hb_rest : b ∈ lp ++ pr :: rp := by simp [hb_lp]
      have hb1 : ¬ b = gp := fun e => hgp_rest (by rw [← e]; exact hb_rest)
      have hb2 : ¬ b = pr := fun e => hpr_lp (by rw [← e]; exact hb_lp)
      have hb4 : ¬ gn.parent = some b := by
        intro he
        refine hout b he ?_
        simp [hb_lp]
      exact rotateLeft_b_cell hgn hpn hbdef hbn hb1 hb2 hb4
    · intro hne0
      rcases hlive with h0 | ⟨w, hw, hwl⟩
      · exact absurd h0 hne0
      · exact rotateLeft_root_of_parent_live hgn hpn hw hwl
    · obtain ⟨s, hs, hsin⟩ := idsAux_toTree hids0
      have hreach2 : idsAux (rotateLeft t gp pr)
          ((rotateLeft t gp pr).arena.length + 1) (rotateLeft t gp pr).root = some ids := hreach
      obtain ⟨s2, hs2, hs2in⟩ := idsAux_toTree hreach2
      refine ⟨s, s2, hs, hs2, ?_⟩
      rw [hsin, hs2in]
      have hkf : keyD (rotateLeft t gp pr) = keyD t := funext (rotateLeft_keyD t gp pr)
      rw [hkf]
  · intro hgl
    -- dissect the subtree of gp: Mg = (lp ++ pr :: rp) ++ gp :: rg
    rcases fg with _ | fg
    · exact absurd hMg idsAux_zero_some
    obtain ⟨n1, lg, rg, hget1, hlg, hrg, hMeq⟩ := idsAux_some_inv hMg
    rw [hgn] at hget1
    injection hget1 with he1
    subst he1
    rw [hgl] at hlg
    rcases fg with _ | fg
    · exact absurd hlg idsAux_zero_some
    obtain ⟨p1, lp, rp, hpget, hlp, hrp, hlgeq⟩ := idsAux_some_inv hlg
    rw [hpn] at hpget
    injection hpget with he1
    subst he1
    subst hlgeq
    subst hMeq
    obtain ⟨ndrest, ndrg, hgp_rest, hgp_rg, hdisj1⟩ := nodup_split hndMg
    obtain ⟨ndlp, ndrp, hpr_lp, hpr_rp, hdisj2⟩ := nodup_split ndrest
    have hpr_rest : pr ∈ lp ++ pr :: rp := by simp
    have hne : ¬ gp = pr := fun e => hgp_rest (by rw [e]; exact hpr_rest)
    have hnepr : ¬ pr = gp := fun e => hne e.symm
    have hreach := rotateRight_reachIds hids hpok hnd hgp hgn hpn hgl hlive
    refine ⟨hreach, rotateRight_keyD t gp pr, rotateRight_colorD t gp pr,
      rotateRight_gp_cell hgn hpn hne, rotateRight_pr_cell_live hgn hpn hnepr hlive,
      ?_, rotateRight_root_of_parent_none hgn hpn, ?_, ?_⟩
    · intro b bn hbdef hbn
      have hb_rp : b ∈ rp := by
        rw [hbdef] at hrp
        exact idsAux_self_mem hrp
      have hb_rest : b ∈ lp ++ pr :: rp := by simp [hb_rp]
      have hb1 : ¬ b = gp := fun e => hgp_rest (by rw [← e]; exact hb_rest)
      have hb2 : ¬ b = pr := fun e => hpr_rp (by rw [← e]; exact hb_rp)
      have hb4 : ¬ gn.parent = some b := by
        intro he
        refine hout b he ?_
        simp [hb_rp]
      exact rotateRight_b_cell hgn hpn hbdef hbn hb1 hb2 hb4
    · intro hne0
      rcases hlive with h0 | ⟨w, hw, hwl⟩
      · exact absurd h0 hne0
      · exact rotateRight_root_of_parent_live hgn hpn hw hwl
    · obtain ⟨s, hs, hsin⟩ := idsAux_toTree hids0
      have hreach2 : idsAux (rotateRight t gp pr)
          ((rotateRight t gp pr).arena.length + 1) (rotateRight t gp pr).root = some ids := hreach
      obtain ⟨s2, hs2, hs2in⟩ := idsAux_toTree hreach2
      refine ⟨s, s2, hs, hs2, ?_⟩
      rw [hsin, hs2in]
      have hkf : keyD (rotateRight t gp pr) = keyD t := funext (rotateRight_keyD t gp pr)
      rw [hkf]

theorem c4_rotations_preserve_structure_witness :
    reachIds (rotateLeft tC6 0 2) = some [1, 0, 3, 2, 4] ∧
    (rotateLeft tC6 0 2).root = some 2 ∧
    reachIds (rotateRight tC6 0 1) = some [1, 0, 3, 2, 4] ∧
    (rotateRight tC6 0 1).root = some 1 := by
  have hL := c4_rotations_preserve_structure tC6 0 2
    { key := 20, parent := none, left := some 1, right := some 2, color := Color.black }
    { key := 40, parent := some 0, left := some 3, right := some 4, color := Color.red }
    [1, 0, 3, 2, 4] (by decide) (by decide) (by decide) (by decide) rfl rfl (Or.inl rfl)
  have hR := c4_rotations_preserve_structure tC6 0 1
    { key := 20, parent := none, left := some 1, right := some 2, color := Color.black }
    { key := 10, parent := some 0, left := none, right := none, color := Color.black }
    [1, 0, 3, 2, 4] (by decide) (by decide) (by decide) (by decide) rfl rfl (Or.inl rfl)
  obtain ⟨h1, _, _, _, _, _, h7, _, _⟩ := hL.1 rfl
  obtain ⟨h1r, _, _, _, _, _, h7r, _, _⟩ := hR.2 rfl
  exact ⟨h1, h7 rfl, h1r, h7r rfl⟩

theorem toTreeAux_zero_some {t : RBTree} {i : Nat} {s : STree} :
    toTreeAux t 0 (some i) = some s → False := by
  intro h
  simp [toTreeAux] at h

theorem toTreeAux_some_inv {t : RBTree} {f : Nat} {i : Nat} {s : STree}
    (h : toTreeAux t (f + 1) (some i) = some s) :
    ∃ n sl sr, getNode t i = some n ∧ toTreeAux t f n.left = some sl ∧
      toTreeAux t f n.right = some sr ∧ s = STree.node n.key n.color sl sr := by
  cases hg : getNode t i with
  | none => simp [toTreeAux, hg] at h
  | some n =>
    simp only [toTreeAux, hg] at h
    cases hl : toTreeAux t f n.left with
    | none => rw [hl] at h; simp at h
    | some sl =>
      cases hr : toTreeAux t f n.right with
      | none => rw [hl, hr] at h; simp at h
      | some sr =>
        rw [hl, hr] at h
        simp at h
        exact ⟨n, sl, sr, rfl, hl, hr, h.symm⟩

theorem bh_node_inv {k : Int} {c : Color} {l r : STree}
    (h : (STree.node k c l r).bh.isSome = true) :
    ∃ a, l.bh = some a ∧ r.bh = some a := by
  cases hl : l.bh with
  | none => simp [STree.bh, hl] at h
  | some a =>
    cases hr : r.bh with
    | none => simp [STree.bh, hl, hr] at h
    | some b =>
      by_cases hab : a = b
      · exact ⟨a, rfl, by rw [hab]⟩
      · simp [STree.bh, hl, hr, hab] at h

theorem toTree_bh_descend {t : RBTree} :
    ∀ {f : Nat} {cur : Option Nat} {M : List Nat} {s : STree},
      idsAux t f cur = some M → toTreeAux t f cur = some s → s.bh.isSome = true →
      ∀ j ∈ M, ∃ fj sj, toTreeAux t fj (some j) = some sj ∧ sj.bh.isSome = true := by
  intro f
  induction f with
  | zero =>
    intro cur M s h _ _ j hj
    cases cur with
    | none =>
      simp only [idsAux] at h
      cases h
      simp at hj
    | some i => exact absurd h idsAux_zero_some
  | succ f ih =>
    intro cur M s h hs hbh j hj
    cases cur with
    | none =>
      simp only [idsAux] at h
      cases h
      simp at hj
    | some i =>
      obtain ⟨n, l, r, hg, hl, hr, hM⟩ := idsAux_some_inv h
      obtain ⟨n0, sl, sr, hg0, hsl, hsr, hseq⟩ := toTreeAux_some_inv hs
      rw [hg] at hg0
      injection hg0 with he
      subst he
      subst hM
      subst hseq
      obtain ⟨a, hla, hra⟩ := bh_node_inv hbh
      rcases List.mem_append.mp hj with hjl | hjir
      · exact ih hl hsl (by rw [hla]; rfl) j hjl
      · rcases List.mem_cons.mp hjir with hje | hjr
        · subst hje
          exact ⟨f + 1, STree.node n.key n.color sl sr, hs, hbh⟩
        · exact ih hr hsr (by rw [hra]; rfl) j hjr

theorem findNode_mem {t : RBTree} {key : Int} :
    ∀ {f : Nat} {cur : Option Nat} {M : List Nat} {res : Nat},
      idsAux t f cur = some M → findNode t key f cur = some res → res ∈ M := by
  intro f
  induction f with
  | zero =>
    intro cur M res h hf
    cases cur with
    | none => simp [findNode] at hf
    | some i => exact absurd h idsAux_zero_some
  | succ f ih =>
    intro cur M res h hf
    cases cur with
    | none => simp [findNode] at hf
    | some i =>
      obtain ⟨n, l, r, hg, hl, hr, hM⟩ := idsAux_some_inv h
      subst hM
      simp only [findNode, hg] at hf
      by_cases he : key = n.key
      · rw [if_pos he] at hf
        injection hf with he2
        subst he2
        simp
      · rw [if_neg he] at hf
        by_cases hlt : key < n.key
        · rw [if_pos hlt] at hf
          have := ih hl hf
          simp [this]
        · rw [if_neg hlt] at hf
          have := ih hr hf
          simp [this]

theorem pok_parent_slot {t : RBTree} :
    ∀ {f : Nat} {cur expp : Option Nat} {M : List Nat},
      idsAux t f cur = some M → parentLinksOk t f cur expp = true →
      ∀ j ∈ M, ∀ nj, getNode t j = some nj →
        (cur = some j ∧ upgradeLink t nj.parent = expp) ∨
        (∃ w wn, w ∈ M ∧ upgradeLink t nj.parent = some w ∧ getNode t w = some wn ∧
          (wn.left = some j ∨ wn.right = some j)) := by
  intro f
  induction f with
  | zero =>
    intro cur expp M h _ j hj
    cases cur with
    | none =>
      simp only [idsAux] at h
      cases h
      simp at hj
    | some i => exact absurd h idsAux_zero_some
  | succ f ih =>
    intro cur expp M h hpok j hj nj hnj
    cases cur with
    | none =>
      simp only [idsAux] at h
      cases h
      simp at hj
    | some i =>
      obtain ⟨n, l, r, hg, hl, hr, hM⟩ := idsAux_some_inv h
      obtain ⟨n0, hg0, hup, hpl, hpr⟩ := parentLinksOk_some_inv hpok
      rw [hg] at hg0
      injection hg0 with he
      subst he
      subst hM
      rcases List.mem_append.mp hj with hjl | hjir
      · rcases ih hl hpl j hjl nj hnj with ⟨hcur, hupj⟩ | ⟨w, wn, hw, hupj, hwn, hslot⟩
        · exact Or.inr ⟨i, n, by simp, hupj, hg, Or.inl hcur⟩
        · exact Or.inr ⟨w, wn, by simp [hw], hupj, hwn, hslot⟩
      · rcases List.mem_cons.mp hjir with hje | hjr
        · subst hje
          rw [hnj] at hg
          injection hg with he
          subst he
          exact Or.inl ⟨rfl, hup⟩
        · rcases ih hr hpr j hjr nj hnj with ⟨hcur, hupj⟩ | ⟨w, wn, hw, hupj, hwn, hslot⟩
          · exact Or.inr ⟨i, n, by simp, hupj, hg, Or.inr hcur⟩
          · exact Or.inr ⟨w, wn, by simp [hw], hupj, hwn, hslot⟩

/-- The black-height argument: a reachable node `w` with a black-leaf
child `c` has a live child on the other side, and when that sibling is
red it has both children. -/
theorem sibling_package {t : RBTree} {ids : List Nat} {w c : Nat} {wn cn : Node} {s : STree}
    (hids : idsAux t (t.arena.length + 1) t.root = some ids)
    (hs : toTree t = some s) (hbh : s.bh.isSome = true)
    (hw : w ∈ ids) (hwn : getNode t w = some wn) (hcn : getNode t c = some cn)
    (hcl : cn.left = none) (hcr : cn.right = none) (hcb : cn.color = Color.black) :
    (wn.left = some c → ∃ sib sibn, wn.right = some sib ∧ getNode t sib = some sibn ∧
      (sibn.color = Color.red → (∃ x, sibn.left = some x) ∧ ∃ y, sibn.right = some y)) ∧
    (wn.right = some c → ∃ sib sibn, wn.left = some sib ∧ getNode t sib = some sibn ∧
      (sibn.color = Color.red → (∃ x, sibn.left = some x) ∧ ∃ y, sibn.right = some y)) := by
  obtain ⟨fw, sw, hsw, hbhw⟩ := toTree_bh_descend hids hs hbh w hw
  rcases fw with _ | fw
  · exact absurd hsw toTreeAux_zero_some
  obtain ⟨n0, sl, sr, hg0, hsl, hsr, hseq⟩ := toTreeAux_some_inv hsw
  rw [hwn] at hg0
  injection hg0 with he
  subst he
  subst hseq
  obtain ⟨a, hla, hra⟩ := bh_node_inv hbhw
  have hleafbh : ∀ {f0 : Nat} {s0 : STree}, toTreeAux t f0 (some c) = some s0 →
      s0.bh = some 1 := by
    intro f0 s0 h0
    rcases f0 with _ | f0
    · exact absurd h0 toTreeAux_zero_some
    obtain ⟨c0, cl, cr, hc0, hcsl, hcsr, hceq⟩ := toTreeAux_some_inv h0
    rw [hcn] at hc0
    injection hc0 with he
    subst he
    rw [hcl] at hcsl
    rw [hcr] at hcsr
    have hcleq : cl = STree.leaf := by
      simp only [toTreeAux] at hcsl
      exact (Option.some_injective _ hcsl).symm
    have hcreq : cr = STree.leaf := by
      simp only [toTreeAux] at hcsr
      exact (Option.some_injective _ hcsr).symm
    subst hceq
    subst hcleq
    subst hcreq
    simp [STree.bh, hcb, Color.isRed]
  have hside : ∀ {s0 : STree} {other : Option Nat},
      toTreeAux t fw other = some s0 → s0.bh = some 1 →
      ∃ sib sibn, other = some sib ∧ getNode t sib = some sibn ∧
        (sibn.color = Color.red → (∃ x, sibn.left = some x) ∧ ∃ y, sibn.right = some y) := by
    intro s0 other h0 hbh0
    cases other with
    | none =>
      have : s0 = STree.leaf := by
        simp only [toTreeAux] at h0
        exact (Option.some_injective _ h0).symm
      rw [this] at hbh0
      simp [STree.bh] at hbh0
    | some sib =>
      rcases fw with _ | fw2
      · exact absurd h0 toTreeAux_zero_some
      obtain ⟨sibn, ssl, ssr, hsib, hssl, hssr, hsreq⟩ := toTreeAux_some_inv h0
      refine ⟨sib, sibn, rfl, hsib, ?_⟩
      intro hred
      subst hsreq
      obtain ⟨b, hb1, hb2⟩ := bh_node_inv (by rw [hbh0]; rfl)
      have hbval : b = 1 := by
        have hcomp : (STree.node sibn.key sibn.color ssl ssr).bh = some b := by
          simp [STree.bh, hb1, hb2, hred, Color.isRed]
        rw [hcomp] at hbh0
        exact (Option.some_injective _ hbh0)
      subst hbval
      constructor
      · cases hx : sibn.left with
        | none =>
          rw [hx] at hssl
          have : ssl = STree.leaf := by
            simp only [toTreeAux] at hssl
            exact (Option.some_injective _ hssl).symm
          rw [this] at hb1
          simp [STree.bh] at hb1
        | some x => exact ⟨x, rfl⟩
      · cases hy : sibn.right with
        | none =>
          rw [hy] at hssr
          have : ssr = STree.leaf := by
            simp only [toTreeAux] at hssr
            exact (Option.some_injective _ hssr).symm
          rw [this] at hb2
          simp [STree.bh] at hb2
        | some y => exact ⟨y, rfl⟩
  constructor
  · intro hleft
    rw [hleft] at hsl
    have ha : a = 1 := by
      have := hleafbh hsl
      rw [this] at hla
      exact (Option.some_injective _ hla).symm
    subst ha
    exact hside hsr hra
  · intro hright
    rw [hright] at hsr
    have ha : a = 1 := by
      have := hleafbh hsr
      rw [this] at hra
      exact (Option.some_injective _ hra).symm
    subst ha
    exact hside hsl hla

/-- `find_minimum` with enough fuel lands on a reachable node with no left
child, and (unless it returns its starting node) that node is the left
child of a reachable parent to which its back-link upgrades. -/
theorem findMinimum_spec {t : RBTree} :
    ∀ {g : Nat} {i fid : Nat} {M : List Nat} {expp : Option Nat},
      idsAux t fid (some i) = some M → parentLinksOk t fid (some i) expp = true →
      M.Nodup → M.length + 1 ≤ g →
      ∃ rn, getNode t (findMinimum t g i) = some rn ∧ rn.left = none ∧
        findMinimum t g i ∈ M ∧
        (findMinimum t g i = i ∨
          ∃ w wn, w ∈ M ∧ getNode t w = some wn ∧ wn.left = some (findMinimum t g i) ∧
            upgradeLink t rn.parent = some w) := by
  intro g
  induction g with
  | zero =>
    intro i fid M expp h _ _ hg
    omega
  | succ g ih =>
    intro i fid M expp h hpok hnd hg
    rcases fid with _ | fid
    · exact absurd h idsAux_zero_some
    obtain ⟨n, l, r, hgn, hl, hr, hM⟩ := idsAux_some_inv h
    obtain ⟨n0, hg0, _hup, hpl, _hpr⟩ := parentLinksOk_some_inv hpok
    rw [hgn] at hg0
    injection hg0 with he
    subst he
    subst hM
    obtain ⟨ndl, _ndr, hi_l, _hi_r, _hdisj⟩ := nodup_split hnd
    cases hnl : n.left with
    | none =>
      have hfm : findMinimum t (g + 1) i = i := by
        simp only [findMinimum, hgn, hnl]
      rw [hfm]
      exact ⟨n, hgn, hnl, by simp, Or.inl rfl⟩
    | some lc =>
      rw [hnl] at hl hpl
      have hlen : l.length + 1 ≤ g := by
        have hml : (l ++ i :: r).length = l.length + r.length + 1 := by
          simp
          omega
        omega
      obtain ⟨rn, hrng, hrnl, hrmem, hdisj2⟩ := ih hl hpl ndl hlen
      have hfm : findMinimum t (g + 1) i = findMinimum t g lc := by
        simp only [findMinimum, hgn, hnl]
      rw [hfm]
      refine ⟨rn, hrng, hrnl, by simp [hrmem], ?_⟩
      rcases hdisj2 with heq | ⟨w, wn, hwm, hwn, hws, hwu⟩
      · rw [heq] at hrng ⊢
        rcases fid with _ | fid2
        · exact absurd hl idsAux_zero_some
        obtain ⟨ln0, hln0, hlup, _, _⟩ := parentLinksOk_some_inv hpl
        rw [hrng] at hln0
        injection hln0 with he
        subst he
        exact Or.inr ⟨i, n, by simp, hgn, by rw [hnl], hlup⟩
      · exact Or.inr ⟨w, wn, by simp [hwm], hwn, hws, hwu⟩

/-- At a parent with exactly one (live) child, `judge_delete_situation`
never returns through either fallback branch: provided a red sibling has
both children, the outcome is never `Stable` and the red-parent stand-in
branch (which requires both children missing) is unreachable. -/
theorem judge_nonfallback {t2 : RBTree} {p sib : Nat} {pn sibn : Node}
    (hp : getNode t2 p = some pn) (hsib : getNode t2 sib = some sibn)
    (hred : sibn.color = Color.red → (∃ x, sibn.left = some x) ∧ ∃ y, sibn.right = some y) :
    (pn.left = none → pn.right = some sib →
      (judgeDeleteSituation t2 p).1 ≠ DeleteSituation.Stable) ∧
    (pn.right = none → pn.left = some sib →
      (judgeDeleteSituation t2 p).1 ≠ DeleteSituation.Stable) := by
  constructor
  · intro hln hrs
    cases hc : pn.color with
    | red =>
      simp only [judgeDeleteSituation, hp, hc, hrs, hsib]
      cases hx : sibn.left <;> cases hy : sibn.right <;> simp
    | black =>
      cases hsc : sibn.color with
      | red =>
        obtain ⟨⟨x, hx⟩, ⟨y, hy⟩⟩ := hred hsc
        simp only [judgeDeleteSituation, hp, hc, hrs, hsib, hsc, hx, hy]
        simp
      | black =>
        simp only [judgeDeleteSituation, hp, hc, hrs, hsib, hsc]
        cases hx : sibn.left <;> cases hy : sibn.right <;> simp
  · intro hrn hls
    cases hc : pn.color with
    | red =>
      simp only [judgeDeleteSituation, hp, hc, hrn, hls, hsib]
      cases hx : sibn.left <;> cases hy : sibn.right <;> simp
    | black =>
      cases hsc : sibn.color with
      | red =>
        obtain ⟨⟨x, hx⟩, ⟨y, hy⟩⟩ := hred hsc
        simp only [judgeDeleteSituation, hp, hc, hrn, hls, hsib, hsc, hx, hy]
        simp
      | black =>
        simp only [judgeDeleteSituation, hp, hc, hrn, hls, hsib, hsc]
        cases hx : sibn.left <;> cases hy : sibn.right <;> simp

theorem ids_pok_descend {t : RBTree} :
    ∀ {f : Nat} {cur expp : Option Nat} {M : List Nat},
      idsAux t f cur = some M → parentLinksOk t f cur expp = true →
      ∀ j ∈ M, ∃ fj ej Mj, idsAux t fj (some j) = some Mj ∧
        parentLinksOk t fj (some j) ej = true ∧ Mj.Sublist M := by
  intro f
  induction f with
  | zero =>
    intro cur expp M h _ j hj
    cases cur with
    | none =>
      simp only [idsAux] at h
      cases h
      simp at hj
    | some i => exact absurd h idsAux_zero_some
  | succ f ih =>
    intro cur expp M h hpok j hj
    cases cur with
    | none =>
      simp only [idsAux] at h
      cases h
      simp at hj
    | some i =>
      obtain ⟨n, l, r, hg, hl, hr, hM⟩ := idsAux_some_inv h
      obtain ⟨n0, hg0, _hup, hpl, hpr⟩ := parentLinksOk_some_inv hpok
      rw [hg] at hg0
      injection hg0 with he
      subst he
      subst hM
      rcases List.mem_append.mp hj with hjl | hjir
      · obtain ⟨fj, ej, Mj, h1, h2, h3⟩ := ih hl hpl j hjl
        exact ⟨fj, ej, Mj, h1, h2, h3.trans (List.sublist_append_left _ _)⟩
      · rcases List.mem_cons.mp hjir with hje | hjr
        · subst hje
          exact ⟨f + 1, expp, l ++ j :: r, h, hpok, List.Sublist.refl _⟩
        · obtain ⟨fj, ej, Mj, h1, h2, h3⟩ := ih hr hpr j hjr
          refine ⟨fj, ej, Mj, h1, h2, h3.trans ?_⟩
          exact (List.sublist_cons_self i r).trans (List.sublist_append_right _ _)

set_option maxHeartbeats 1000000 in
/-- C10: for every tree satisfying the red-black invariants, whenever
`delete(key)` reaches a `delete_balance(parent)` call (the structural
phase returns a balance request `p`, which `delete` then hands to
`delete_balance`), the parent at that moment has exactly one child: the
live sibling of the removed slot, sitting on the opposite side.
Consequently the red-parent fallback of `judge_delete_situation` (taken
only when both children are missing, making the parent stand in for its
own brother) cannot fire, and the judged situation is never the
black-parent `Stable` fallback. -/
theorem c10_delete_balance_sibling (t : RBTree) (key : Int) (target p : Nat)
    (hwf : wf t = true)
    (hf : findNode t key (t.arena.length + 1) t.root = some target)
    (hbal : (deleteStruct t target).2 = some p) :
    t.delete key = clearSlot (deleteBalance (2 * (deleteStruct t target).1.arena.length + 2)
      (deleteStruct t target).1 p) target ∧
    ∃ pn sib sibn,
      getNode (deleteStruct t target).1 p = some pn ∧
      ((pn.left = none ∧ pn.right = some sib) ∨ (pn.left = some sib ∧ pn.right = none)) ∧
      getNode (deleteStruct t target).1 sib = some sibn ∧
      (judgeDeleteSituation (deleteStruct t target).1 p).1 ≠ DeleteSituation.Stable := by
  refine ⟨?_, ?_⟩
  · simp only [RBTree.delete, hf, hbal]
  ·
      have hwf2 := hwf
      unfold wf at hwf2
      cases hri : reachIds t with
      | none =>
        rw [hri] at hwf2
        simp at hwf2
      | some ids =>
        rw [hri] at hwf2
        simp only [Bool.and_eq_true, decide_eq_true_eq] at hwf2
        obtain ⟨⟨hnd, hpok⟩, hcrb⟩ := hwf2
        have hids0 : idsAux t (t.arena.length + 1) t.root = some ids := hri
        cases hs : toTree t with
        | none =>
          unfold checkRB at hcrb
          rw [hs] at hcrb
          simp at hcrb
        | some s =>
          unfold checkRB at hcrb
          rw [hs] at hcrb
          simp only [Bool.and_eq_true] at hcrb
          have hbh : s.bh.isSome = true := hcrb.1.2
          have htmem : target ∈ ids := findNode_mem hids0 hf
          cases htn : getNode t target with
          | none =>
            have := idsAux_mem_isSome hids0 target htmem
            rw [htn] at this
            simp at this
          | some tn =>
            cases hll : tn.left with
            | none =>
              cases hrr0 : tn.right with
              | none =>
                -- site 1: the target is a black leaf
                cases hpp : tn.parent with
                | none =>
                  exfalso
                  simp only [deleteStruct, htn, hll, hrr0, hpp] at hbal
                  exact Option.noConfusion hbal
                | some q0 =>
                  cases hq : getNode t q0 with
                  | none =>
                    exfalso
                    simp only [deleteStruct, htn, hll, hrr0, hpp, hq] at hbal
                    exact Option.noConfusion hbal
                  | some wn0 =>
                    cases hcb : tn.color with
                    | red =>
                      exfalso
                      simp only [deleteStruct, htn, hll, hrr0, hpp, hq, hcb] at hbal
                      simp at hbal
                    | black =>
                      have hpeq : p = q0 := by
                        simp only [deleteStruct, htn, hll, hrr0, hpp, hq, hcb] at hbal
                        simp at hbal
                        omega
                      subst hpeq
                      have hupT : upgradeLink t tn.parent = some p := by
                        simp [upgradeLink, hpp, hq]
                      rcases pok_parent_slot hids0 hpok target htmem tn htn with
                        ⟨_, hupe⟩ | ⟨w, wn, hwm, hupw, hwn, hslot⟩
                      · rw [hupT] at hupe
                        exact Option.noConfusion hupe
                      · rw [hupT] at hupw
                        injection hupw with hwe
                        subst hwe
                        rw [hwn] at hq
                        injection hq with hwe2
                        subst hwe2
                        obtain ⟨pkgL, pkgR⟩ := sibling_package hids0 hs hbh hwm hwn htn hll hrr0 hcb
                        obtain ⟨fw, Mw, hMw, hsubw⟩ := idsAux_descend hids0 hwm
                        have hndw : Mw.Nodup := hnd.sublist hsubw
                        rcases fw with _ | fw
                        · exact absurd hMw idsAux_zero_some
                        obtain ⟨wn2, lw, rw2, hwn2, hlw, hrw, hMweq⟩ := idsAux_some_inv hMw
                        rw [hwn] at hwn2
                        injection hwn2 with hwe3
                        subst hwe3
                        subst hMweq
                        obtain ⟨ndlw, ndrw, hw_lw, hw_rw, hdisjw⟩ := nodup_split hndw
                        rcases hslot with hsl | hsr
                        · -- target on the left, sibling on the right
                          obtain ⟨sib, sibn, hsibslot, hsibn, hredpkg⟩ := pkgL hsl
                          have htlw : target ∈ lw := by
                            rw [hsl] at hlw
                            exact idsAux_self_mem hlw
                          have hsibrw : sib ∈ rw2 := by
                            rw [hsibslot] at hrw
                            exact idsAux_self_mem hrw
                          have hsibne : ¬ sib = target :=
                            fun e => hdisjw target htlw (by rw [← e]; exact hsibrw)
                          have hsibw : ¬ sib = p := fun e => hw_rw (by rw [← e]; exact hsibrw)
                          have hcond2 : ¬ wn.right = some target :=
                            fun e => hsibne (Option.some_injective _ (hsibslot.symm.trans e))
                          have hcell : getNode (deleteStruct t target).1 p =
                              some { wn with left := none } ∧
                              getNode (deleteStruct t target).1 sib = some sibn := by
                            simp only [deleteStruct, htn, hll, hrr0, hpp, hwn]
                            constructor
                            · have h1 := getNode_updNode_self (fun pn =>
                                let pn1 := if pn.left = some target then { pn with left := none } else pn
                                if pn1.right = some target then { pn1 with right := none } else pn1) hwn
                              simp only [h1, if_pos hsl]
                              rw [if_neg hcond2]
                            · rw [getNode_updNode_ne _ hsibw]
                              exact hsibn
                          refine ⟨{ wn with left := none }, sib, sibn, hcell.1,
                            Or.inl ⟨rfl, hsibslot⟩, hcell.2, ?_⟩
                          exact (judge_nonfallback hcell.1 hcell.2 hredpkg).1 rfl hsibslot
                        · -- target on the right, sibling on the left
                          obtain ⟨sib, sibn, hsibslot, hsibn, hredpkg⟩ := pkgR hsr
                          have htrw : target ∈ rw2 := by
                            rw [hsr] at hrw
                            exact idsAux_self_mem hrw
                          have hsiblw : sib ∈ lw := by
                            rw [hsibslot] at hlw
                            exact idsAux_self_mem hlw
                          have hsibne : ¬ sib = target :=
                            fun e => hdisjw sib hsiblw (by rw [e]; exact htrw)
                          have hsibw : ¬ sib = p := fun e => hw_lw (by rw [← e]; exact hsiblw)
                          have hcond2 : ¬ wn.left = some target :=
                            fun e => hsibne (Option.some_injective _ (hsibslot.symm.trans e))
                          have hcell : getNode (deleteStruct t target).1 p =
                              some { wn with right := none } ∧
                              getNode (deleteStruct t target).1 sib = some sibn := by
                            simp only [deleteStruct, htn, hll, hrr0, hpp, hwn]
                            constructor
                            · have h1 := getNode_updNode_self (fun pn =>
                                let pn1 := if pn.left = some target then { pn with left := none } else pn
                                if pn1.right = some target then { pn1 with right := none } else pn1) hwn
                              simp only [h1, if_neg hcond2]
                              rw [if_pos hsr]
                            · rw [getNode_updNode_ne _ hsibw]
                              exact hsibn
                          refine ⟨{ wn with right := none }, sib, sibn, hcell.1,
                            Or.inr ⟨hsibslot, rfl⟩, hcell.2, ?_⟩
                          exact (judge_nonfallback hcell.1 hcell.2 hredpkg).2 rfl hsibslot
              | some son =>
                exfalso
                cases hpp : tn.parent with
                | none =>
                  simp only [deleteStruct, htn, hll, hrr0, hpp] at hbal
                  exact Option.noConfusion hbal
                | some q0 =>
                  cases hq : getNode t q0 with
                  | none =>
                    simp only [deleteStruct, htn, hll, hrr0, hpp, hq] at hbal
                    exact Option.noConfusion hbal
                  | some wn0 =>
                    simp only [deleteStruct, htn, hll, hrr0, hpp, hq] at hbal
                    exact Option.noConfusion hbal
            | some son =>
              cases hrr0 : tn.right with
              | none =>
                exfalso
                cases hpp : tn.parent with
                | none =>
                  simp only [deleteStruct, htn, hll, hrr0, hpp] at hbal
                  exact Option.noConfusion hbal
                | some q0 =>
                  cases hq : getNode t q0 with
                  | none =>
                    simp only [deleteStruct, htn, hll, hrr0, hpp, hq] at hbal
                    exact Option.noConfusion hbal
                  | some wn0 =>
                    simp only [deleteStruct, htn, hll, hrr0, hpp, hq] at hbal
                    exact Option.noConfusion hbal
              | some tRight =>
                -- two-children case: the successor splice
                obtain ⟨ft, et, Mt, hMt, hPt, hsubT⟩ := ids_pok_descend hids0 hpok target htmem
                have hndT : Mt.Nodup := hnd.sublist hsubT
                rcases ft with _ | ft
                · exact absurd hMt idsAux_zero_some
                obtain ⟨tn2, lt, rt, htn2, hlt, hrt, hMteq⟩ := idsAux_some_inv hMt
                rw [htn] at htn2
                injection htn2 with hte
                subst hte
                subst hMteq
                obtain ⟨tn3, htn3, hupTe, hPl, hPr⟩ := parentLinksOk_some_inv hPt
                rw [htn] at htn3
                injection htn3 with hte2
                subst hte2
                rw [hrr0] at hrt hPr
                rw [hll] at hlt hPl
                obtain ⟨ndlt, ndrt, ht_lt, ht_rt, hdisjT⟩ := nodup_split hndT
                have hsonlt : son ∈ lt := idsAux_self_mem hlt
                have htRrt : tRight ∈ rt := idsAux_self_mem hrt
                have hfuel : rt.length + 1 ≤ t.arena.length + 1 := by
                  have := nodup_ids_length_le hrt ndrt
                  omega
                obtain ⟨sn0, hsn0g, hsn0l, hsuccmem, hfmdisj⟩ :=
                  findMinimum_spec hrt hPr ndrt hfuel
                -- the target's parent never lies inside the target's subtree
                have houtT : ∀ e, upgradeLink t tn.parent = some e → ¬ e ∈ lt ++ target :: rt :=
                  fun e he => parent_outside_subtree htn hids0 hpok hnd
                    (fun e2 he2 => by simp at he2) htmem hMt e he
                have hsuccne : ¬ findMinimum t (t.arena.length + 1) tRight = son := by
                  intro e
                  rw [e] at hsuccmem
                  exact hdisjT son hsonlt hsuccmem
                rcases hfmdisj with hadj | ⟨w, wn, hwm, hwn, hwleft, hwup⟩
                · -- branch A: the successor is the target's right child itself
                  rw [hadj] at hsn0g hsuccne hsuccmem
                  rcases ft with _ | ft2
                  · exact absurd hrt idsAux_zero_some
                  obtain ⟨sn0b, hsn0b, hupSb, _, _⟩ := parentLinksOk_some_inv hPr
                  rw [hsn0g] at hsn0b
                  injection hsn0b with hse
                  subst hse
                  cases hspp : sn0.parent with
                  | none =>
                    rw [hspp] at hupSb
                    simp [upgradeLink] at hupSb
                  | some q1 =>
                    rw [hspp] at hupSb
                    cases hq1 : getNode t q1 with
                    | none =>
                      simp only [upgradeLink, hq1] at hupSb
                      exact absurd hupSb (by simp)
                    | some q1n =>
                      simp only [upgradeLink, hq1] at hupSb
                      injection hupSb with hq1e
                      rw [hq1e] at hspp hq1
                      rw [htn] at hq1
                      injection hq1 with hq1e2
                      subst hq1e2
                      have htRson : ¬ tRight = son := hsuccne
                      have hsontR : ¬ son = tRight := fun e => htRson e.symm
                      have htgtR : ¬ target = tRight := fun e => ht_rt (by rw [e]; exact htRrt)
                      have htRtg : ¬ tRight = target := fun e => htgtR e.symm
                      have htgson : ¬ target = son := fun e => ht_lt (by rw [e]; exact hsonlt)
                      have hsontg : ¬ son = target := fun e => htgson e.symm
                      have hlenR : tRight < t.arena.length := lt_length_of_getNode hsn0g
                      obtain ⟨sk, sp, sl0, sr0v, sc0⟩ := sn0
                      subst hspp
                      subst hsn0l
                      cases sr0v with
                      | some sr =>
                        exfalso
                        cases husr : getNode (updNode (updNode t tRight fun n =>
                            { n with left := some son }) son fun n =>
                            { n with parent := some tRight }) sr with
                        | none =>
                          simp only [deleteStruct, htn, hll, hrr0, hadj, hsn0g, husr,
                            getNode_updNode_ne _ htRson, getNode_updNode_ne _ htgson,
                            getNode_updNode_ne _ htgtR,
                            getNode_updNode_self (fun n => ({ n with left := some son} : Node))
                              hsn0g] at hbal
                          simp at hbal
                        | some srn0 =>
                          simp only [deleteStruct, htn, hll, hrr0, hadj, hsn0g, husr,
                            getNode_updNode_ne _ htRson, getNode_updNode_ne _ htgson,
                            getNode_updNode_ne _ htgtR,
                            getNode_updNode_self (fun n => ({ n with left := some son} : Node))
                              hsn0g] at hbal
                          simp at hbal
                      | none =>
                        cases sc0 with
                        | red =>
                          exfalso
                          simp only [deleteStruct, htn, hll, hrr0, hadj, hsn0g,
                            getNode_updNode_ne _ htRson, getNode_updNode_ne _ htgson,
                            getNode_updNode_ne _ htgtR,
                            getNode_updNode_self (fun n => ({ n with left := some son} : Node))
                              hsn0g] at hbal
                          simp at hbal
                        | black =>
                          obtain ⟨pkgL2, pkgR2⟩ :=
                            sibling_package hids0 hs hbh htmem htn hsn0g rfl rfl rfl
                          obtain ⟨sib0, sibn, hsibslot, hsibn, hredpkg⟩ := pkgR2 hrr0
                          rw [hll] at hsibslot
                          injection hsibslot with hsibe
                          subst hsibe
                          have hA1 : getNode (updNode (updNode t tRight fun n =>
                              { n with left := some son }) son fun n =>
                              { n with parent := some tRight }) tRight =
                              some { key := sk, parent := some target, left := some son, right := none, color := Color.black } := by
                            rw [getNode_updNode_ne _ htRson]
                            exact getNode_updNode_self _ hsn0g
                          have hA2 : getNode (updNode (updNode t tRight fun n =>
                              { n with left := some son }) son fun n =>
                              { n with parent := some tRight }) target = some tn := by
                            rw [getNode_updNode_ne _ htgson, getNode_updNode_ne _ htgtR]
                            exact htn
                          have h3 : getNode (setNode (setNode (updNode (updNode t tRight
                              fun n => { n with left := some son }) son fun n =>
                              { n with parent := some tRight }) target tn) tRight
                              { key := sk, parent := some target, left := some son, right := none, color := Color.black }) tRight =
                              some { key := sk, parent := some target, left := some son, right := none, color := Color.black } := by
                            refine getNode_setNode_self _ ?_
                            rw [length_setNode, length_updNode, length_updNode]
                            exact hlenR
                          have hs1 : getNode (updNode t tRight fun n =>
                              { n with left := some son }) son = some sibn := by
                            rw [getNode_updNode_ne _ hsontR]
                            exact hsibn
                          have hs2 := getNode_updNode_self (fun n =>
                            { n with parent := some tRight }) hs1
                          have hs3 : getNode (setNode (setNode (updNode (updNode t tRight
                              fun n => { n with left := some son }) son fun n =>
                              { n with parent := some tRight }) target tn) tRight
                              { key := sk, parent := some target, left := some son, right := none, color := Color.black }) son =
                              some { sibn with parent := some tRight } := by
                            rw [getNode_setNode_ne _ hsontR, getNode_setNode_ne _ hsontg]
                            exact hs2
                          cases htpp : tn.parent with
                          | none =>
                            have hpeq : p = tRight := by
                              simp only [deleteStruct, htn, hll, hrr0, hadj, hsn0g, hA1, hA2,
                                htpp] at hbal
                              simp at hbal
                              omega
                            rw [hpeq]
                            have hcell1 : getNode (deleteStruct t target).1 tRight =
                                some { key := sk, parent := none, left := some son, right := none, color := tn.color } := by
                              simp only [deleteStruct, htn, hll, hrr0, hadj, hsn0g, hA1, hA2,
                                htpp, eq_self_iff_true, if_true]
                              have h4 := getNode_updNode_self (fun n =>
                                { n with parent := none })
                                ((getNode_root_irrel _ (some tRight) tRight).trans h3)
                              exact (getNode_paintNode_self tn.color h4)
                            have hcell2 : getNode (deleteStruct t target).1 son =
                                some { sibn with parent := some tRight } := by
                              simp only [deleteStruct, htn, hll, hrr0, hadj, hsn0g, hA1, hA2,
                                htpp, eq_self_iff_true, if_true]
                              rw [getNode_paintNode_ne _ hsontR, getNode_updNode_ne _ hsontR,
                                getNode_root_irrel]
                              exact hs3
                            refine ⟨_, son, { sibn with parent := some tRight }, hcell1,
                              Or.inr ⟨rfl, rfl⟩, hcell2, ?_⟩
                            exact (judge_nonfallback hcell1 hcell2 hredpkg).2 rfl rfl
                          | some q =>
                            cases hqg : getNode t q with
                            | none =>
                              have hpeq : p = tRight := by
                                simp only [deleteStruct, htn, hll, hrr0, hadj, hsn0g, hA1, hA2,
                                  htpp, hqg] at hbal
                                simp at hbal
                                omega
                              rw [hpeq]
                              have hcell1 : getNode (deleteStruct t target).1 tRight =
                                  some { key := sk, parent := none, left := some son, right := none, color := tn.color } := by
                                simp only [deleteStruct, htn, hll, hrr0, hadj, hsn0g, hA1, hA2,
                                  htpp, hqg, eq_self_iff_true, if_true]
                                have h4 := getNode_updNode_self (fun n =>
                                  { n with parent := none })
                                  ((getNode_root_irrel _ (some tRight) tRight).trans h3)
                                exact (getNode_paintNode_self tn.color h4)
                              have hcell2 : getNode (deleteStruct t target).1 son =
                                  some { sibn with parent := some tRight } := by
                                simp only [deleteStruct, htn, hll, hrr0, hadj, hsn0g, hA1, hA2,
                                  htpp, hqg, eq_self_iff_true, if_true]
                                rw [getNode_paintNode_ne _ hsontR, getNode_updNode_ne _ hsontR,
                                  getNode_root_irrel]
                                exact hs3
                              refine ⟨_, son, { sibn with parent := some tRight }, hcell1,
                                Or.inr ⟨rfl, rfl⟩, hcell2, ?_⟩
                              exact (judge_nonfallback hcell1 hcell2 hredpkg).2 rfl rfl
                            | some qn =>
                              have hqout : ¬ q ∈ lt ++ target :: rt := by
                                refine houtT q ?_
                                simp [upgradeLink, htpp, hqg]
                              have hqtR : ¬ tRight = q := by
                                intro e
                                exact hqout (by rw [← e]; simp [htRrt])
                              have hqson : ¬ son = q := by
                                intro e
                                exact hqout (by rw [← e]; simp [hsonlt])
                              have hpeq : p = tRight := by
                                simp only [deleteStruct, htn, hll, hrr0, hadj, hsn0g, hA1, hA2,
                                  htpp, hqg] at hbal
                                simp at hbal
                                omega
                              rw [hpeq]
                              have hcell1 : getNode (deleteStruct t target).1 tRight =
                                  some { key := sk, parent := some q, left := some son, right := none, color := tn.color } := by
                                simp only [deleteStruct, htn, hll, hrr0, hadj, hsn0g, hA1, hA2,
                                  htpp, hqg, eq_self_iff_true, if_true]
                                have h4 := getNode_updNode_self (fun n =>
                                  { n with parent := some q }) h3
                                rw [getNode_paintNode_self tn.color (by
                                  rw [getNode_updNode_ne _ hqtR]
                                  exact h4)]
                              have hcell2 : getNode (deleteStruct t target).1 son =
                                  some { sibn with parent := some tRight } := by
                                simp only [deleteStruct, htn, hll, hrr0, hadj, hsn0g, hA1, hA2,
                                  htpp, hqg, eq_self_iff_true, if_true]
                                rw [getNode_paintNode_ne _ hsontR, getNode_updNode_ne _ hqson,
                                  getNode_updNode_ne _ hsontR]
                                exact hs3
                              refine ⟨_, son, { sibn with parent := some tRight }, hcell1,
                                Or.inr ⟨rfl, rfl⟩, hcell2, ?_⟩
                              exact (judge_nonfallback hcell1 hcell2 hredpkg).2 rfl rfl
                · -- branch B: the successor sits deeper; its parent is w
                  have hrtsub : rt.Sublist ids :=
                    (((List.sublist_cons_self target rt).trans
                      (List.sublist_append_right lt _))).trans hsubT
                  have hwm_ids : w ∈ ids := hrtsub.subset hwm
                  obtain ⟨fw, Mw, hMw, hMwsub⟩ := idsAux_descend hrt hwm
                  have hndw : Mw.Nodup := hnd.sublist (hMwsub.trans hrtsub)
                  rcases fw with _ | fw2
                  · exact absurd hMw idsAux_zero_some
                  obtain ⟨wn2, lww, rww, hwn2, hlww, hrww, hMweq⟩ := idsAux_some_inv hMw
                  rw [hwn] at hwn2
                  injection hwn2 with hwe
                  subst hwe
                  subst hMweq
                  rw [hwleft] at hlww
                  have hsucclww : findMinimum t (t.arena.length + 1) tRight ∈ lww :=
                    idsAux_self_mem hlww
                  obtain ⟨ndlww, ndrww, hw_lww, hw_rww, hdisjw⟩ := nodup_split hndw
                  have hnadj : ¬ findMinimum t (t.arena.length + 1) tRight = tRight := by
                    intro e
                    rw [e] at hlww
                    have heqr : lww = rt := idsAux_unique hlww hrt
                    have hle := hMwsub.length_le
                    rw [heqr] at hle
                    simp at hle
                  have hsuccw : ¬ findMinimum t (t.arena.length + 1) tRight = w :=
                    fun e => hw_lww (by rw [← e]; exact hsucclww)
                  have hwsucc : ¬ w = findMinimum t (t.arena.length + 1) tRight :=
                    fun e => hsuccw e.symm
                  have hwson : ¬ w = son := by
                    intro e
                    refine hdisjT son hsonlt ?_
                    rw [← e]
                    exact hwm
                  have hwtarget : ¬ w = target := fun e => ht_rt (by rw [← e]; exact hwm)
                  have hsucctarget : ¬ findMinimum t (t.arena.length + 1) tRight = target :=
                    fun e => ht_rt (by rw [← e]; exact hsuccmem)
                  -- resolve the successor's stored parent link
                  cases hspp : sn0.parent with
                  | none =>
                    rw [hspp] at hwup
                    simp [upgradeLink] at hwup
                  | some q1 =>
                    rw [hspp] at hwup
                    cases hq1 : getNode t q1 with
                    | none =>
                      simp only [upgradeLink, hq1] at hwup
                      exact absurd hwup (by simp)
                    | some q1n =>
                      simp only [upgradeLink, hq1] at hwup
                      injection hwup with hq1e
                      rw [hq1e] at hspp hq1
                      rw [hwn] at hq1
                      injection hq1 with hq1e2
                      subst hq1e2
                      obtain ⟨sk, sp, sl0, sr0v, sc0⟩ := sn0
                      subst hspp
                      subst hsn0l
                      have hA1 : getNode (updNode (updNode t
                          (findMinimum t (t.arena.length + 1) tRight) fun n =>
                          { n with left := some son }) son fun n =>
                          { n with parent := some (findMinimum t (t.arena.length + 1) tRight) })
                          (findMinimum t (t.arena.length + 1) tRight) =
                          some { key := sk, parent := some w, left := some son, right := sr0v, color := sc0 } := by
                        rw [getNode_updNode_ne _ hsuccne]
                        exact getNode_updNode_self _ hsn0g
                      have hA2 : getNode (updNode (updNode t
                          (findMinimum t (t.arena.length + 1) tRight) fun n =>
                          { n with left := some son }) son fun n =>
                          { n with parent := some (findMinimum t (t.arena.length + 1) tRight) })
                          w = some wn := by
                        rw [getNode_updNode_ne _ hwson, getNode_updNode_ne _ hwsucc]
                        exact hwn
                      cases sr0v with
                      | some sr =>
                        exfalso
                        cases husr : getNode (updNode (updNode t
                            (findMinimum t (t.arena.length + 1) tRight) fun n =>
                            { n with left := some son }) son fun n =>
                            { n with parent := some (findMinimum t (t.arena.length + 1) tRight) })
                            sr with
                        | none =>
                          simp only [deleteStruct, htn, hll, hrr0, hsn0g, hwn, hA1, hA2, husr,
                            if_neg hnadj] at hbal
                          simp at hbal
                        | some srn0 =>
                          by_cases hts : tRight = w
                          · simp only [deleteStruct, htn, hll, hrr0, hsn0g, hwn, hA1, hA2, husr,
                              if_neg hnadj, if_pos hts] at hbal
                            simp at hbal
                          · simp only [deleteStruct, htn, hll, hrr0, hsn0g, hwn, hA1, hA2, husr,
                              if_neg hnadj, if_neg hts] at hbal
                            simp at hbal
                      | none =>
                        cases sc0 with
                        | red =>
                          exfalso
                          by_cases hts : tRight = w
                          · simp only [deleteStruct, htn, hll, hrr0, hsn0g, hwn, hA1, hA2,
                              if_neg hnadj, if_pos hts] at hbal
                            simp at hbal
                          · simp only [deleteStruct, htn, hll, hrr0, hsn0g, hwn, hA1, hA2,
                              if_neg hnadj, if_neg hts] at hbal
                            simp at hbal
                        | black =>
                          obtain ⟨pkgL2, pkgR2⟩ :=
                            sibling_package hids0 hs hbh hwm_ids hwn hsn0g rfl rfl rfl
                          obtain ⟨sib, sibn, hsibslot, hsibn, hredpkg⟩ := pkgL2 hwleft
                          have hsibrww : sib ∈ rww := by
                            rw [hsibslot] at hrww
                            exact idsAux_self_mem hrww
                          have hsibw : ¬ sib = w := fun e => hw_rww (by rw [← e]; exact hsibrww)
                          have hsibsucc : ¬ sib = findMinimum t (t.arena.length + 1) tRight := by
                            intro e
                            refine hdisjw (findMinimum t (t.arena.length + 1) tRight)
                              hsucclww ?_
                            rw [← e]
                            exact hsibrww
                          have hsibrt : sib ∈ rt := by
                            refine hMwsub.subset ?_
                            simp [hsibrww]
                          have hsibson : ¬ sib = son :=
                            fun e => hdisjT son hsonlt (by rw [← e]; exact hsibrt)
                          have hsibtarget : ¬ sib = target :=
                            fun e => ht_rt (by rw [← e]; exact hsibrt)
                          have hsibtR : ¬ sib = tRight := by
                            intro e
                            rw [e] at hsibslot
                            rw [hsibslot] at hrww
                            have heqr : rww = rt := idsAux_unique hrww hrt
                            have hle := hMwsub.length_le
                            rw [heqr] at hle
                            simp at hle
                            omega
                          have hlenW : w < t.arena.length := lt_length_of_getNode hwn
                          by_cases hts : tRight = w
                          · -- the successor's parent is the target's right child
                            cases htpp : tn.parent with
                            | none =>
                              have hpeq : p = w := by
                                simp only [deleteStruct, htn, hll, hrr0, hsn0g, hwn, hA1, hA2,
                                  if_neg hnadj, if_pos hts, if_neg hwtarget, htpp] at hbal
                                simp at hbal
                                omega
                              rw [hpeq]
                              have hcell1 : getNode (deleteStruct t target).1 w =
                                  some { wn with left := none, parent := some (findMinimum t (t.arena.length + 1) tRight) } := by
                                simp only [deleteStruct, htn, hll, hrr0, hsn0g, hwn, hA1, hA2,
                                  if_neg hnadj, if_pos hts, htpp]
                                rw [getNode_paintNode_ne _ hwsucc, getNode_updNode_ne _ hwsucc,
                                  getNode_root_irrel, getNode_setNode_ne _ hwsucc]
                                refine getNode_setNode_self _ ?_
                                rw [length_updNode, length_updNode]
                                exact hlenW
                              have hcell2 : getNode (deleteStruct t target).1 sib =
                                  some sibn := by
                                simp only [deleteStruct, htn, hll, hrr0, hsn0g, hwn, hA1, hA2,
                                  if_neg hnadj, if_pos hts, htpp]
                                rw [getNode_paintNode_ne _ hsibsucc, getNode_updNode_ne _ hsibsucc,
                                  getNode_root_irrel, getNode_setNode_ne _ hsibsucc,
                                  getNode_setNode_ne _ hsibw, getNode_updNode_ne _ hsibson,
                                  getNode_updNode_ne _ hsibsucc]
                                exact hsibn
                              refine ⟨_, sib, sibn, hcell1, Or.inl ⟨rfl, hsibslot⟩, hcell2, ?_⟩
                              exact (judge_nonfallback hcell1 hcell2 hredpkg).1 rfl hsibslot
                            | some q =>
                              cases hqg : getNode t q with
                              | none =>
                                have hpeq : p = w := by
                                  simp only [deleteStruct, htn, hll, hrr0, hsn0g, hwn, hA1, hA2,
                                    if_neg hnadj, if_pos hts, if_neg hwtarget, htpp, hqg] at hbal
                                  simp at hbal
                                  omega
                                rw [hpeq]
                                have hcell1 : getNode (deleteStruct t target).1 w =
                                    some { wn with left := none, parent := some (findMinimum t (t.arena.length + 1) tRight) } := by
                                  simp only [deleteStruct, htn, hll, hrr0, hsn0g, hwn, hA1, hA2,
                                    if_neg hnadj, if_pos hts, htpp, hqg]
                                  rw [getNode_paintNode_ne _ hwsucc, getNode_updNode_ne _ hwsucc,
                                    getNode_root_irrel, getNode_setNode_ne _ hwsucc]
                                  refine getNode_setNode_self _ ?_
                                  rw [length_updNode, length_updNode]
                                  exact hlenW
                                have hcell2 : getNode (deleteStruct t target).1 sib =
                                    some sibn := by
                                  simp only [deleteStruct, htn, hll, hrr0, hsn0g, hwn, hA1, hA2,
                                    if_neg hnadj, if_pos hts, htpp, hqg]
                                  rw [getNode_paintNode_ne _ hsibsucc,
                                    getNode_updNode_ne _ hsibsucc,
                                    getNode_root_irrel, getNode_setNode_ne _ hsibsucc,
                                    getNode_setNode_ne _ hsibw, getNode_updNode_ne _ hsibson,
                                    getNode_updNode_ne _ hsibsucc]
                                  exact hsibn
                                refine ⟨_, sib, sibn, hcell1, Or.inl ⟨rfl, hsibslot⟩, hcell2, ?_⟩
                                exact (judge_nonfallback hcell1 hcell2 hredpkg).1 rfl hsibslot
                              | some qn =>
                                have hqout : ¬ q ∈ lt ++ target :: rt := by
                                  refine houtT q ?_
                                  simp [upgradeLink, htpp, hqg]
                                have hwq : ¬ w = q := by
                                  intro e
                                  exact hqout (by rw [← e]; simp [hwm])
                                have hsibq : ¬ sib = q := by
                                  intro e
                                  exact hqout (by rw [← e]; simp [hsibrt])
                                have hpeq : p = w := by
                                  simp only [deleteStruct, htn, hll, hrr0, hsn0g, hwn, hA1, hA2,
                                    if_neg hnadj, if_pos hts, if_neg hwtarget, htpp, hqg] at hbal
                                  simp at hbal
                                  omega
                                rw [hpeq]
                                have hcell1 : getNode (deleteStruct t target).1 w =
                                    some { wn with left := none, parent := some (findMinimum t (t.arena.length + 1) tRight) } := by
                                  simp only [deleteStruct, htn, hll, hrr0, hsn0g, hwn, hA1, hA2,
                                    if_neg hnadj, if_pos hts, htpp, hqg]
                                  rw [getNode_paintNode_ne _ hwsucc, getNode_updNode_ne _ hwq,
                                    getNode_updNode_ne _ hwsucc, getNode_setNode_ne _ hwsucc]
                                  refine getNode_setNode_self _ ?_
                                  rw [length_updNode, length_updNode]
                                  exact hlenW
                                have hcell2 : getNode (deleteStruct t target).1 sib =
                                    some sibn := by
                                  simp only [deleteStruct, htn, hll, hrr0, hsn0g, hwn, hA1, hA2,
                                    if_neg hnadj, if_pos hts, htpp, hqg]
                                  rw [getNode_paintNode_ne _ hsibsucc, getNode_updNode_ne _ hsibq,
                                    getNode_updNode_ne _ hsibsucc, getNode_setNode_ne _ hsibsucc,
                                    getNode_setNode_ne _ hsibw, getNode_updNode_ne _ hsibson,
                                    getNode_updNode_ne _ hsibsucc]
                                  exact hsibn
                                refine ⟨_, sib, sibn, hcell1, Or.inl ⟨rfl, hsibslot⟩, hcell2, ?_⟩
                                exact (judge_nonfallback hcell1 hcell2 hredpkg).1 rfl hsibslot
                          · -- the successor's parent lies strictly below the target's right child
                            have htRw : ¬ w = tRight := fun e => hts e.symm
                            cases htpp : tn.parent with
                            | none =>
                              have hpeq : p = w := by
                                simp only [deleteStruct, htn, hll, hrr0, hsn0g, hwn, hA1, hA2,
                                  if_neg hnadj, if_neg hts, if_neg hwtarget, htpp] at hbal
                                simp at hbal
                                omega
                              rw [hpeq]
                              have hcell1 : getNode (deleteStruct t target).1 w =
                                  some { wn with left := none } := by
                                simp only [deleteStruct, htn, hll, hrr0, hsn0g, hwn, hA1, hA2,
                                  if_neg hnadj, if_neg hts, htpp]
                                rw [getNode_paintNode_ne _ hwsucc, getNode_updNode_ne _ hwsucc,
                                  getNode_root_irrel, getNode_setNode_ne _ hwsucc]
                                refine getNode_setNode_self _ ?_
                                rw [length_updNode, length_updNode, length_updNode]
                                exact hlenW
                              have hcell2 : getNode (deleteStruct t target).1 sib =
                                  some sibn := by
                                simp only [deleteStruct, htn, hll, hrr0, hsn0g, hwn, hA1, hA2,
                                  if_neg hnadj, if_neg hts, htpp]
                                rw [getNode_paintNode_ne _ hsibsucc, getNode_updNode_ne _ hsibsucc,
                                  getNode_root_irrel, getNode_setNode_ne _ hsibsucc,
                                  getNode_setNode_ne _ hsibw, getNode_updNode_ne _ hsibtR,
                                  getNode_updNode_ne _ hsibson, getNode_updNode_ne _ hsibsucc]
                                exact hsibn
                              refine ⟨_, sib, sibn, hcell1, Or.inl ⟨rfl, hsibslot⟩, hcell2, ?_⟩
                              exact (judge_nonfallback hcell1 hcell2 hredpkg).1 rfl hsibslot
                            | some q =>
                              cases hqg : getNode t q with
                              | none =>
                                have hpeq : p = w := by
                                  simp only [deleteStruct, htn, hll, hrr0, hsn0g, hwn, hA1, hA2,
                                    if_neg hnadj, if_neg hts, if_neg hwtarget, htpp, hqg] at hbal
                                  simp at hbal
                                  omega
                                rw [hpeq]
                                have hcell1 : getNode (deleteStruct t target).1 w =
                                    some { wn with left := none } := by
                                  simp only [deleteStruct, htn, hll, hrr0, hsn0g, hwn, hA1, hA2,
                                    if_neg hnadj, if_neg hts, htpp, hqg]
                                  rw [getNode_paintNode_ne _ hwsucc, getNode_updNode_ne _ hwsucc,
                                    getNode_root_irrel, getNode_setNode_ne _ hwsucc]
                                  refine getNode_setNode_self _ ?_
                                  rw [length_updNode, length_updNode, length_updNode]
                                  exact hlenW
                                have hcell2 : getNode (deleteStruct t target).1 sib =
                                    some sibn := by
                                  simp only [deleteStruct, htn, hll, hrr0, hsn0g, hwn, hA1, hA2,
                                    if_neg hnadj, if_neg hts, htpp, hqg]
                                  rw [getNode_paintNode_ne _ hsibsucc,
                                    getNode_updNode_ne _ hsibsucc,
                                    getNode_root_irrel, getNode_setNode_ne _ hsibsucc,
                                    getNode_setNode_ne _ hsibw, getNode_updNode_ne _ hsibtR,
                                    getNode_updNode_ne _ hsibson, getNode_updNode_ne _ hsibsucc]
                                  exact hsibn
                                refine ⟨_, sib, sibn, hcell1, Or.inl ⟨rfl, hsibslot⟩, hcell2, ?_⟩
                                exact (judge_nonfallback hcell1 hcell2 hredpkg).1 rfl hsibslot
                              | some qn =>
                                have hqout : ¬ q ∈ lt ++ target :: rt := by
                                  refine houtT q ?_
                                  simp [upgradeLink, htpp, hqg]
                                have hwq : ¬ w = q := by
                                  intro e
                                  exact hqout (by rw [← e]; simp [hwm])
                                have hsibq : ¬ sib = q := by
                                  intro e
                                  exact hqout (by rw [← e]; simp [hsibrt])
                                have hpeq : p = w := by
                                  simp only [deleteStruct, htn, hll, hrr0, hsn0g, hwn, hA1, hA2,
                                    if_neg hnadj, if_neg hts, if_neg hwtarget, htpp, hqg] at hbal
                                  simp at hbal
                                  omega
                                rw [hpeq]
                                have hcell1 : getNode (deleteStruct t target).1 w =
                                    some { wn with left := none } := by
                                  simp only [deleteStruct, htn, hll, hrr0, hsn0g, hwn, hA1, hA2,
                                    if_neg hnadj, if_neg hts, htpp, hqg]
                                  rw [getNode_paintNode_ne _ hwsucc, getNode_updNode_ne _ hwq,
                                    getNode_updNode_ne _ hwsucc, getNode_setNode_ne _ hwsucc]
                                  refine getNode_setNode_self _ ?_
                                  rw [length_updNode, length_updNode, length_updNode]
                                  exact hlenW
                                have hcell2 : getNode (deleteStruct t target).1 sib =
                                    some sibn := by
                                  simp only [deleteStruct, htn, hll, hrr0, hsn0g, hwn, hA1, hA2,
                                    if_neg hnadj, if_neg hts, htpp, hqg]
                                  rw [getNode_paintNode_ne _ hsibsucc, getNode_updNode_ne _ hsibq,
                                    getNode_updNode_ne _ hsibsucc, getNode_setNode_ne _ hsibsucc,
                                    getNode_setNode_ne _ hsibw, getNode_updNode_ne _ hsibtR,
                                    getNode_updNode_ne _ hsibson, getNode_updNode_ne _ hsibsucc]
                                  exact hsibn
                                refine ⟨_, sib, sibn, hcell1, Or.inl ⟨rfl, hsibslot⟩, hcell2, ?_⟩
                                exact (judge_nonfallback hcell1 hcell2 hredpkg).1 rfl hsibslot

theorem c10_delete_balance_sibling_witness :
    ∃ pn sib sibn,
      getNode (deleteStruct tC6 1).1 0 = some pn ∧
      ((pn.left = none ∧ pn.right = some sib) ∨ (pn.left = some sib ∧ pn.right = none)) ∧
      getNode (deleteStruct tC6 1).1 sib = some sibn ∧
      (judgeDeleteSituation (deleteStruct tC6 1).1 0).1 ≠ DeleteSituation.Stable :=
  (c10_delete_balance_sibling tC6 10 1 0 (by decide) (by decide) (by decide)).2

end RBT
